import Mathlib

/-!
# Path-tracer kernel: intersection and shading primitives

A shallow embedding of `math.h`, `geoms/sphere.cc`, `geoms/disc.cc`,
`geoms/plane.cc` and `materials/emitter.cc`.

## Modelling conventions

* Every finite `float` is a rational number, so `float` values are modelled by
  `ℚ`; overflow, infinities and NaN are outside the model.  The functions are
  embedded twice.  The first embedding computes `+ - * /` exactly; it carries
  the statements about the control flow of the code (which branch is taken,
  which value is stored), which hold of the rounded code as well, and a few
  statements marked "in exact arithmetic", which do not.  The second embedding (section "Rounded arithmetic") follows every
  arithmetic operation by a rounding `fl : ℚ → ℚ`; statements are proved for
  every rounding (or every order-preserving one), and evaluated at `fl32`,
  rounding to the nearest binary32 value with ties to even.
* A quotient with a zero divisor has the value `0` in `ℚ`; no theorem that
  settles a claim owes its truth to that value: either the divisor is shown or
  assumed non-zero, or the quotient is multiplied by an exact zero, or the
  branch that would use it is not taken.
* `sqrtf` / `sqrt` / `glm::inversesqrt` are library functions.  Every
  definition that calls one takes the square-root function as an argument
  `sqrtf : ℚ → ℚ`; theorems state what they need from it (for instance
  non-negativity).  `sqrtfQ` is a computable instance that is exact on
  rational squares, and `sqrt32` is the binary32 square root.
* `std::numeric_limits<float>::epsilon()` is `2⁻²³`.
* A C++ function `bool f(..., T* out)` that writes `*out` only when it returns
  `true` is modelled as returning `Option T`: `some v` is "returns true and
  stores `v`", `none` is "returns false and leaves `*out` alone".
* Material and light pointers held by the primitives take no part in any of
  the functions embedded here and are left out of the records.
* The bounding-box type (`bbox` / `BBox`), the five-member intersection record
  and the randomness source are declared in headers that are not among the
  sources; they are modelled from the specification, and their doc comments
  say so.  What the two-point constructor of the box does with corners that
  are not in order is not specified: the statements about `bounds()` take the
  constructor as a parameter and say what they assume of it.
-/

/-! ## Vectors (`glm::vec3` / `Vec`) -/

/-- A 3-component vector, `vec` in the lower-case sources and `Vec` in `sphere.cc`. -/
structure Vec where
  x : ℚ
  y : ℚ
  z : ℚ
deriving DecidableEq

/-- Lower-case spelling used by `math.h`, `disc.cc`, `plane.cc`, `emitter.cc`. -/
abbrev vec := Vec

namespace Vec

/-- The vector `vec(0)` / `Vec(0, 0, 0)`. -/
def zero : Vec := ⟨0, 0, 0⟩

/-- Component-wise sum, `a + b`. -/
def add (a b : Vec) : Vec := ⟨a.x + b.x, a.y + b.y, a.z + b.z⟩

/-- Component-wise difference, `a - b`. -/
def sub (a b : Vec) : Vec := ⟨a.x - b.x, a.y - b.y, a.z - b.z⟩

/-- Vector times scalar, `a * k`. -/
def scale (a : Vec) (k : ℚ) : Vec := ⟨a.x * k, a.y * k, a.z * k⟩

instance : Add Vec := ⟨add⟩
instance : Sub Vec := ⟨sub⟩
instance : HMul Vec ℚ Vec := ⟨scale⟩

/-- Inner product, `glm::dot(a, b)` / `a.dot(b)`. -/
def dot (a b : Vec) : ℚ := a.x * b.x + a.y * b.y + a.z * b.z

/-- Cross product, `glm::cross(a, b)`. -/
def cross (a b : Vec) : Vec :=
  ⟨a.y * b.z - b.y * a.z, a.z * b.x - b.z * a.x, a.x * b.y - b.x * a.y⟩

/-- Squared Euclidean norm, `a.squaredNorm()`. -/
def squaredNorm (a : Vec) : ℚ := a.dot a

/-- Component-wise product, `a.cwiseProduct(b)`. -/
def cwiseProduct (a b : Vec) : Vec := ⟨a.x * b.x, a.y * b.y, a.z * b.z⟩

/-- Euclidean length, `glm::length(a) = sqrt(dot(a, a))`. -/
def length (sqrtf : ℚ → ℚ) (a : Vec) : ℚ := sqrtf (a.dot a)

/-- The function `glm::normalize(a) = a * inversesqrt(dot(a, a))`. -/
def normalize (sqrtf : ℚ → ℚ) (a : Vec) : Vec := a * (1 / sqrtf (a.dot a))

/-- The method `a.normalized() = a / a.norm()`. -/
def normalized (sqrtf : ℚ → ℚ) (a : Vec) : Vec :=
  ⟨a.x / sqrtf (a.dot a), a.y / sqrtf (a.dot a), a.z / sqrtf (a.dot a)⟩

end Vec

/-! ## A computable square root, exact on rational squares -/

/-- The largest `r ≤ k` with `r * r ≤ n` (and `0` when there is none above `0`). -/
def natSqrtAux : ℕ → ℕ → ℕ
  | 0, _ => 0
  | k + 1, n => if (k + 1) * (k + 1) ≤ n then k + 1 else natSqrtAux k n

/-- A computable stand-in for `sqrtf` on rationals: for `x = p / q` in lowest
terms it is `⌊√(p * q)⌋ / q`, which is the exact root whenever `x` is the
square of a rational, and `0` for negative `x`. -/
def sqrtfQ (x : ℚ) : ℚ :=
  (natSqrtAux (x.num.toNat * x.den) (x.num.toNat * x.den) : ℚ) / (x.den : ℚ)

/-! ## `math.h` -/

namespace math

/-- The constant `std::numeric_limits<float>::epsilon()`, that is `2⁻²³`. -/
def epsilon : ℚ := 1 / 8388608

/-- The predicate `math::isNearlyZero`: `fabsf(x) < epsilon`. -/
def isNearlyZero (x : ℚ) : Bool := decide (|x| < epsilon)

/-- The predicate `math::isPositive`: `x > epsilon`. -/
def isPositive (x : ℚ) : Bool := decide (x > epsilon)

/-- The function `math::coordSystem(v1, &v2, &v3)`; the pair returned is `(v2, v3)`. -/
def coordSystem (sqrtf : ℚ → ℚ) (v1 : Vec) : Vec × Vec :=
  let v2 : Vec :=
    if |v1.x| > |v1.y| then
      let invLen := 1 / sqrtf (v1.x * v1.x + v1.z * v1.z)
      ⟨-v1.z * invLen, 0, v1.x * invLen⟩
    else
      let invLen := 1 / sqrtf (v1.y * v1.y + v1.z * v1.z)
      ⟨0, v1.z * invLen, -v1.y * invLen⟩
  (v2, Vec.cross v1 v2)

end math

/-- The struct `ray` of `math.h`. -/
structure ray where
  origin : Vec
  direction : Vec
deriving DecidableEq

/-- Capitalised spelling used by `sphere.cc`. -/
abbrev Ray := ray

namespace ray

/-- The method `ray::unit()`: same origin, normalised direction. -/
def unit (sqrtf : ℚ → ℚ) (r : ray) : ray := ⟨r.origin, Vec.normalize sqrtf r.direction⟩

/-- The method `ray::at(d)`: `origin + direction * d`. -/
def at_ (r : ray) (d : ℚ) : Vec := r.origin + r.direction * d

end ray

/-- The struct `lightray` of `math.h`: a ray together with the colour it carries. -/
structure lightray extends ray where
  color : Vec
deriving DecidableEq

namespace lightray

/-- The method `lightray::isBlack()`. -/
def isBlack (sqrtf : ℚ → ℚ) (l : lightray) : Bool :=
  math.isNearlyZero (Vec.length sqrtf l.color)

/-- The method `lightray::isZeroLength()`. -/
def isZeroLength (sqrtf : ℚ → ℚ) (l : lightray) : Bool :=
  math.isNearlyZero (Vec.length sqrtf l.direction)

end lightray

/-- The struct `intersection` of `math.h` (three members), which `sphere.cc`
spells `Intersection`. -/
structure Intersection where
  position : Vec
  normal : Vec
  distance : ℚ
deriving DecidableEq

namespace Intersection

/-- The default constructor `intersection()`. -/
def empty : Intersection := ⟨Vec.zero, Vec.zero, 0⟩

/-- The constructor `intersection(p, n, d)`, which normalises `n`. -/
def make (sqrtf : ℚ → ℚ) (p n : Vec) (d : ℚ) : Intersection :=
  ⟨p, Vec.normalize sqrtf n, d⟩

/-- The method `intersection::hit()`. -/
def hit (i : Intersection) : Bool := decide (i.distance > 0)

end Intersection

/-- Modelled from the spec: the five-member intersection record
`{position, normal, tangent, binormal, distance}` that `disc.cc` and
`plane.cc` build; its declaration is not part of the sources at hand.  It is
the three-member record of `math.h` with the two frame vectors added. -/
structure intersection where
  position : Vec
  normal : Vec
  tangent : Vec
  binormal : Vec
  distance : ℚ
deriving DecidableEq

namespace intersection

/-- Modelled from the spec: the default (empty) intersection, all members zero,
`distance = 0`, as `intersection()` in `math.h`. -/
def empty : intersection := ⟨Vec.zero, Vec.zero, Vec.zero, Vec.zero, 0⟩

/-- Modelled from the spec: the five-argument constructor.  As the
three-argument constructor of `math.h` does, it normalises the normal; the
frame vectors and the distance are stored as given. -/
def make (sqrtf : ℚ → ℚ) (p n t b : Vec) (d : ℚ) : intersection :=
  ⟨p, Vec.normalize sqrtf n, t, b, d⟩

/-- The method `intersection::hit()`: `distance > 0`. -/
def hit (i : intersection) : Bool := decide (i.distance > 0)

end intersection

/-- Modelled from the spec: the randomness source (`randomness.h` is not part
of the sources at hand), an external generator of variates consumed one at a
time; here an infinite stream of variates and a read position. -/
structure Randomness where
  stream : ℕ → ℚ
  pos : ℕ

/-- Lower-case spelling used by `math.h` and `emitter.cc`. -/
abbrev randomness := Randomness

/-- Modelled from the spec: the call `rng.nextNormalFloat()`, which yields the
next variate and advances the source. -/
def Randomness.nextNormalFloat (rng : Randomness) : ℚ × Randomness :=
  (rng.stream rng.pos, { rng with pos := rng.pos + 1 })

/-! ## `geoms/sphere.cc` -/

namespace geoms

/-- The class `geoms::Sphere`: centre and radius. -/
structure Sphere where
  origin : Vec
  radius : ℚ
deriving DecidableEq

namespace Sphere

/-- The method `Sphere::intersect(r, isectOut)`. -/
def intersect (sqrtf : ℚ → ℚ) (s : Sphere) (r : Ray) : Option Intersection :=
  let diff := r.origin - s.origin
  let l := r.direction
  let a := l.dot l
  let b := l.dot diff
  let c := diff.dot diff - (s.radius * s.radius)
  let discriminant := (b * b) - (a * c)
  if discriminant > 0 then
    let discriminant := sqrtf discriminant
    let resPos := (-b + discriminant)
    let resNeg := (-b - discriminant)
    if math.isPositive resNeg then
      let pt := r.at_ resNeg
      let normal := (pt - s.origin).normalized sqrtf
      some (Intersection.make sqrtf pt normal resNeg)
    else if math.isPositive resPos then
      let pt := r.at_ resPos
      let normal := (pt - s.origin).normalized sqrtf
      some (Intersection.make sqrtf pt normal resPos)
    else none
  else none

/-- The method `Sphere::intersectShadow(r, maxDist)`. -/
def intersectShadow (sqrtf : ℚ → ℚ) (s : Sphere) (r : Ray) (maxDist : ℚ) : Bool :=
  let diff := r.origin - s.origin
  let l := r.direction
  let a := l.dot l
  let b := l.dot diff
  let c := diff.dot diff - (s.radius * s.radius)
  let discriminant := (b * b) - (a * c)
  if discriminant > 0 then
    let discriminant := sqrtf discriminant
    let resPos := (-b + discriminant)
    let resNeg := (-b - discriminant)
    if math.isPositive resNeg && math.isPositive (maxDist - resNeg) then
      true
    else if math.isPositive resPos && math.isPositive (maxDist - resPos) then
      true
    else false
  else false

/-- The method `Sphere::samplePoint(rng, positionOut, normalOut)`: the position,
the normal, and the randomness source after its three draws. -/
def samplePoint (sqrtf : ℚ → ℚ) (s : Sphere) (rng : Randomness) : Vec × Vec × Randomness :=
  let (x, rng1) := rng.nextNormalFloat
  let (y, rng2) := rng1.nextNormalFloat
  let (z, rng3) := rng2.nextNormalFloat
  let a := 1 / sqrtf (x * x + y * y + z * z)
  (⟨s.origin.x + s.radius * a * x, s.origin.y + s.radius * a * y, s.origin.z + s.radius * a * z⟩,
   ⟨a * x, a * y, a * z⟩,
   rng3)

/-- The method `Sphere::area()`; `PI` stands for the constant `math::PI`, whose
definition is not part of the sources at hand. -/
def area (PI : ℚ) (s : Sphere) : ℚ := 4 * PI * s.radius * s.radius

/-- The coefficient `a = l.dot(l)` of `Sphere::intersect`. -/
def quadA (_s : Sphere) (r : Ray) : ℚ := r.direction.dot r.direction

/-- The coefficient `b = l.dot(diff)` of `Sphere::intersect`. -/
def quadB (s : Sphere) (r : Ray) : ℚ := r.direction.dot (r.origin - s.origin)

/-- The coefficient `c = diff.dot(diff) - radius * radius` of `Sphere::intersect`. -/
def quadC (s : Sphere) (r : Ray) : ℚ :=
  (r.origin - s.origin).dot (r.origin - s.origin) - (s.radius * s.radius)

/-- The value `b * b - a * c` that `Sphere::intersect` tests against `0`. -/
def discriminant (s : Sphere) (r : Ray) : ℚ :=
  (quadB s r * quadB s r) - (quadA s r * quadC s r)

/-- The local `resNeg = -b - sqrtf(discriminant)` of `Sphere::intersect`. -/
def resNeg (sqrtf : ℚ → ℚ) (s : Sphere) (r : Ray) : ℚ :=
  -quadB s r - sqrtf (discriminant s r)

/-- The local `resPos = -b + sqrtf(discriminant)` of `Sphere::intersect`. -/
def resPos (sqrtf : ℚ → ℚ) (s : Sphere) (r : Ray) : ℚ :=
  -quadB s r + sqrtf (discriminant s r)

end Sphere

/-! ## `geoms/disc.cc` -/

/-- The class `geoms::disc`. -/
structure disc where
  radiusSquared : ℚ
  origin : Vec
  normal : Vec
  radius : ℚ
  tangent : Vec
  binormal : Vec
deriving DecidableEq

namespace disc

/-- The constructor `disc(m, o, n, r)`. -/
def make (sqrtf : ℚ → ℚ) (o n : Vec) (r : ℚ) : disc :=
  let normal := n.normalized sqrtf
  let frame := math.coordSystem sqrtf normal
  { radiusSquared := r * r, origin := o, normal := normal, radius := r,
    tangent := frame.1, binormal := frame.2 }

/-- The method `disc::intersect(r, isectOut)` with a non-null `isectOut`. -/
def intersect (sqrtf : ℚ → ℚ) (dc : disc) (r : ray) : Option intersection :=
  let denom := r.direction.dot dc.normal
  if denom ≠ 0 then
    let d := (dc.origin - r.origin).dot dc.normal / denom
    if math.isPositive d then
      let isectPoint := r.at_ d
      if (isectPoint - dc.origin).squaredNorm < dc.radiusSquared then
        some (intersection.make sqrtf isectPoint dc.normal dc.tangent dc.binormal d)
      else none
    else none
  else none

/-- The local `denom = r.direction.dot(normal)` of `disc::intersect`. -/
def denom (dc : disc) (r : ray) : ℚ := r.direction.dot dc.normal

/-- The local `d = (origin - r.origin).dot(normal) / denom` of `disc::intersect`. -/
def param (dc : disc) (r : ray) : ℚ := (dc.origin - r.origin).dot dc.normal / denom dc r

end disc

/-! ## `geoms/plane.cc` -/

/-- The class `geoms::plane`. -/
structure plane where
  origin : Vec
  normal : Vec
  tangent : Vec
  cotangent : Vec
deriving DecidableEq

namespace plane

/-- The method `plane::computeTangents()`. -/
def computeTangents (sqrtf : ℚ → ℚ) (p : plane) : plane :=
  let frame := math.coordSystem sqrtf p.normal
  { p with tangent := frame.1, cotangent := frame.2 }

/-- The constructors `plane(o, n, m)` and `plane(o, n)`. -/
def make (sqrtf : ℚ → ℚ) (o n : Vec) : plane :=
  computeTangents sqrtf ⟨o, Vec.normalize sqrtf n, Vec.zero, Vec.zero⟩

/-- The method `plane::intersect(r)`. -/
def intersect (sqrtf : ℚ → ℚ) (p : plane) (r : ray) : intersection :=
  let denom := Vec.dot (r.unit sqrtf).direction p.normal
  if denom ≠ 0 then
    let d := Vec.dot (p.origin - r.origin) p.normal / denom
    if math.isPositive d then
      intersection.make sqrtf ((r.unit sqrtf).at_ d) p.normal p.tangent p.cotangent d
    else intersection.empty
  else intersection.empty

/-- The local `denom = glm::dot(r.unit().direction, normal)` of `plane::intersect`. -/
def denom (sqrtf : ℚ → ℚ) (p : plane) (r : ray) : ℚ := Vec.dot (r.unit sqrtf).direction p.normal

/-- The local `d = glm::dot(origin - r.origin, normal) / denom` of `plane::intersect`. -/
def param (sqrtf : ℚ → ℚ) (p : plane) (r : ray) : ℚ :=
  Vec.dot (p.origin - r.origin) p.normal / denom sqrtf p r

end plane

end geoms

/-! ## `materials/emitter.cc` -/

namespace materials

/-- The class `materials::emitter`: a fixed colour. -/
structure emitter where
  color : Vec
deriving DecidableEq

/-- The method `emitter::propagate(incoming, isect, rng)`; neither `isect` nor
`rng` is read, and `rng` is not advanced. -/
def emitter.propagate (e : emitter) (incoming : lightray) (_isect : intersection)
    (_rng : randomness) : lightray :=
  { origin := ⟨0, 0, 0⟩, direction := ⟨0, 0, 0⟩, color := incoming.color.cwiseProduct e.color }

end materials

/-! ## Bounding boxes, and the functions that build them -/

namespace Vec

/-- Component-wise minimum of two vectors. -/
def cwiseMin (a b : Vec) : Vec := ⟨min a.x b.x, min a.y b.y, min a.z b.z⟩

/-- Component-wise maximum of two vectors. -/
def cwiseMax (a b : Vec) : Vec := ⟨max a.x b.x, max a.y b.y, max a.z b.z⟩

/-- Component-wise order: every component of `a` is at most that of `b`. -/
def le (a b : Vec) : Prop := a.x ≤ b.x ∧ a.y ≤ b.y ∧ a.z ≤ b.z

instance (a b : Vec) : Decidable (le a b) := by
  unfold le
  infer_instance

end Vec

/-- Modelled from the spec: the bounding box `bbox` (`BBox` in `sphere.cc`),
whose declaration is not part of the sources at hand: an axis-aligned box given
by its min and max corners. -/
structure bbox where
  minCorner : Vec
  maxCorner : Vec
deriving DecidableEq

/-- Capitalised spelling used by `sphere.cc`. -/
abbrev BBox := bbox

namespace bbox

/-- Modelled from the spec: the two-point constructor `bbox(a, b)`.  The spec
describes a box by its min and max corners, so the first argument is stored as
the min corner and the second as the max corner.  What the constructor does
with corners that are not in order is not specified; the statements about
`bounds()` under rounding take the constructor as a parameter and say what they
need from it. -/
def make (a b : Vec) : bbox := ⟨a, b⟩

/-- Modelled from the spec: `expand(point)` grows the box, monotonically, to
include the point. -/
def expand (bx : bbox) (p : Vec) : bbox :=
  ⟨Vec.cwiseMin bx.minCorner p, Vec.cwiseMax bx.maxCorner p⟩

/-- A point lies inside the box when it is between the corners, component by
component. -/
def contains (bx : bbox) (p : Vec) : Prop := Vec.le bx.minCorner p ∧ Vec.le p bx.maxCorner

instance (bx : bbox) (p : Vec) : Decidable (contains bx p) := by
  unfold contains
  infer_instance

end bbox

namespace math

/-- The argument that `math::coordSystem` passes to `sqrtf`, in the branch it takes. -/
def coordSystemArg (v1 : Vec) : ℚ :=
  if |v1.x| > |v1.y| then v1.x * v1.x + v1.z * v1.z else v1.y * v1.y + v1.z * v1.z

/-- The function `math::uniformSampleHemisphere(normal, rng)`: the direction and
the randomness source after its three draws. -/
def uniformSampleHemisphere (sqrtf : ℚ → ℚ) (normal : Vec) (rng : randomness) :
    Vec × randomness :=
  let (x1, rng1) := rng.nextNormalFloat
  let (x2, rng2) := rng1.nextNormalFloat
  let (x3, rng3) := rng2.nextNormalFloat
  let denom := 1 / sqrtf (x1 * x1 + x2 * x2 + x3 * x3)
  let y1 := |x1 * denom|
  let y2 := x2 * denom
  let y3 := x3 * denom
  let v1 := normal
  let frame := coordSystem sqrtf v1
  ((v1 * y1) + (frame.1 * y2) + (frame.2 * y3), rng3)

end math

/-- The ray `r` with its origin moved back along its direction by `s`:
origin `r.origin - r.direction * s`, same direction. -/
def ray.movedBack (r : ray) (s : ℚ) : ray := ⟨r.origin - r.direction * s, r.direction⟩

namespace geoms

/-- The method `Sphere::bounds()`. -/
def Sphere.bounds (s : Sphere) : BBox :=
  let boundsDiag : Vec := ⟨s.radius, s.radius, s.radius⟩
  bbox.make (s.origin - boundsDiag) (s.origin + boundsDiag)

/-- The copy constructor `disc(const disc& other)`.  Its initialiser list names
`radiusSquared`, `origin`, `normal` and `radius` only; `tangent` and `binormal`
are default-initialised, and `tangent0`, `binormal0` stand for what that leaves
in them. -/
def disc.copy (other : disc) (tangent0 binormal0 : Vec) : disc :=
  { radiusSquared := other.radiusSquared, origin := other.origin, normal := other.normal,
    radius := other.radius, tangent := tangent0, binormal := binormal0 }

/-- The method `disc::bounds()`. -/
def disc.bounds (dc : disc) : bbox :=
  let tr := dc.tangent * dc.radius
  let br := dc.binormal * dc.radius
  let b := bbox.make (dc.origin + tr + br) (dc.origin - tr - br)
  let b := b.expand (dc.origin + tr - br)
  let b := b.expand (dc.origin - tr + br)
  b

end geoms

/-! ## Rounded arithmetic

In the sources every `float` operation rounds its result.  The definitions of
this section are the bodies above with each arithmetic operation followed by a
rounding `fl : ℚ → ℚ`, which they take as first argument (negation,
comparison, `fabsf`, `min` and `max` are exact on `float` and carry no
rounding).  With `fl = id` they are the definitions above; with `fl = fl32` and
`sqrtf = sqrt32` every step is the IEEE binary32 one. -/

/-- The integer nearest to `q`, the even one of the two at a tie. -/
def roundHalfEven (q : ℚ) : ℤ :=
  if q - ⌊q⌋ < 1 / 2 then ⌊q⌋
  else if 1 / 2 < q - ⌊q⌋ then ⌊q⌋ + 1
  else if ⌊q⌋ % 2 = 0 then ⌊q⌋ else ⌊q⌋ + 1

/-- The exponent of the unit in the last place of the binary32 values around
`x ≠ 0`: `⌊log₂ |x|⌋ - 23`, and `-149` throughout the subnormal range. -/
def ulpExp (x : ℚ) : ℤ := max (Int.log 2 |x| - 23) (-149)

/-- Rounding to the nearest binary32 value, ties to even: `|x|` is rounded to the
nearest multiple of its unit in the last place.  Overflow to infinity is not
modelled: the exponent is not bounded above. -/
def fl32 (x : ℚ) : ℚ :=
  if x = 0 then 0
  else if x < 0 then -((roundHalfEven (|x| / (2 : ℚ) ^ ulpExp x) : ℚ) * (2 : ℚ) ^ ulpExp x)
  else (roundHalfEven (|x| / (2 : ℚ) ^ ulpExp x) : ℚ) * (2 : ℚ) ^ ulpExp x

/-- The binary32 `sqrtf`: the root is truncated to 200 binary places, which
cannot carry it across a rounding boundary of a binary32 argument, and then
rounded; negative arguments give `0`. -/
def sqrt32 (x : ℚ) : ℚ := fl32 ((Nat.sqrt ⌊x * 4 ^ 200⌋₊ : ℚ) / 2 ^ 200)

namespace Vec

/-- Rounded `a + b`. -/
def addFl (fl : ℚ → ℚ) (a b : Vec) : Vec := ⟨fl (a.x + b.x), fl (a.y + b.y), fl (a.z + b.z)⟩

/-- Rounded `a - b`. -/
def subFl (fl : ℚ → ℚ) (a b : Vec) : Vec := ⟨fl (a.x - b.x), fl (a.y - b.y), fl (a.z - b.z)⟩

/-- Rounded `a * k`. -/
def scaleFl (fl : ℚ → ℚ) (a : Vec) (k : ℚ) : Vec := ⟨fl (a.x * k), fl (a.y * k), fl (a.z * k)⟩

/-- Rounded `glm::dot(a, b)`: the three products are summed from left to right. -/
def dotFl (fl : ℚ → ℚ) (a b : Vec) : ℚ :=
  fl (fl (fl (a.x * b.x) + fl (a.y * b.y)) + fl (a.z * b.z))

/-- Rounded `a.dot(b)` of the capitalised sources, whose unrolled reduction adds
the first product to the sum of the other two.  No evaluation made below
depends on the order in which the three products are added. -/
def dotFlE (fl : ℚ → ℚ) (a b : Vec) : ℚ :=
  fl (fl (a.x * b.x) + fl (fl (a.y * b.y) + fl (a.z * b.z)))

/-- Rounded `glm::cross(a, b)`. -/
def crossFl (fl : ℚ → ℚ) (a b : Vec) : Vec :=
  ⟨fl (fl (a.y * b.z) - fl (b.y * a.z)), fl (fl (a.z * b.x) - fl (b.z * a.x)),
    fl (fl (a.x * b.y) - fl (b.x * a.y))⟩

/-- Rounded `a.squaredNorm()`. -/
def squaredNormFl (fl : ℚ → ℚ) (a : Vec) : ℚ := dotFlE fl a a

/-- Rounded `glm::normalize(a) = a * inversesqrt(dot(a, a))`, with
`inversesqrt(x) = 1 / sqrt(x)`. -/
def normalizeFl (fl sqrtf : ℚ → ℚ) (a : Vec) : Vec :=
  scaleFl fl a (fl (1 / sqrtf (dotFl fl a a)))

/-- Rounded `a.normalized() = a / a.norm()`. -/
def normalizedFl (fl sqrtf : ℚ → ℚ) (a : Vec) : Vec :=
  ⟨fl (a.x / sqrtf (dotFlE fl a a)), fl (a.y / sqrtf (dotFlE fl a a)),
    fl (a.z / sqrtf (dotFlE fl a a))⟩

end Vec

/-- Rounded `math::coordSystem(v1, &v2, &v3)`. -/
def math.coordSystemFl (fl sqrtf : ℚ → ℚ) (v1 : Vec) : Vec × Vec :=
  let v2 : Vec :=
    if |v1.x| > |v1.y| then
      let invLen := fl (1 / sqrtf (fl (fl (v1.x * v1.x) + fl (v1.z * v1.z))))
      ⟨fl (-v1.z * invLen), 0, fl (v1.x * invLen)⟩
    else
      let invLen := fl (1 / sqrtf (fl (fl (v1.y * v1.y) + fl (v1.z * v1.z))))
      ⟨0, fl (v1.z * invLen), fl (-v1.y * invLen)⟩
  (v2, Vec.crossFl fl v1 v2)

/-- The argument that the rounded `math::coordSystem` passes to `sqrtf`, in the
branch it takes. -/
def math.coordSystemArgFl (fl : ℚ → ℚ) (v1 : Vec) : ℚ :=
  if |v1.x| > |v1.y| then fl (fl (v1.x * v1.x) + fl (v1.z * v1.z))
  else fl (fl (v1.y * v1.y) + fl (v1.z * v1.z))

/-- Rounded `math::uniformSampleHemisphere(normal, rng)`. -/
def math.uniformSampleHemisphereFl (fl sqrtf : ℚ → ℚ) (normal : Vec) (rng : randomness) :
    Vec × randomness :=
  let (x1, rng1) := rng.nextNormalFloat
  let (x2, rng2) := rng1.nextNormalFloat
  let (x3, rng3) := rng2.nextNormalFloat
  let denom := fl (1 / sqrtf (fl (fl (fl (x1 * x1) + fl (x2 * x2)) + fl (x3 * x3))))
  let y1 := |fl (x1 * denom)|
  let y2 := fl (x2 * denom)
  let y3 := fl (x3 * denom)
  let v1 := normal
  let frame := math.coordSystemFl fl sqrtf v1
  (Vec.addFl fl (Vec.addFl fl (Vec.scaleFl fl v1 y1) (Vec.scaleFl fl frame.1 y2))
    (Vec.scaleFl fl frame.2 y3), rng3)

/-- Rounded `ray::unit()`. -/
def ray.unitFl (fl sqrtf : ℚ → ℚ) (r : ray) : ray :=
  ⟨r.origin, Vec.normalizeFl fl sqrtf r.direction⟩

/-- Rounded `ray::at(d)`. -/
def ray.atFl (fl : ℚ → ℚ) (r : ray) (d : ℚ) : Vec :=
  Vec.addFl fl r.origin (Vec.scaleFl fl r.direction d)

/-- Rounded constructor `intersection(p, n, d)` of `math.h`. -/
def Intersection.makeFl (fl sqrtf : ℚ → ℚ) (p n : Vec) (d : ℚ) : Intersection :=
  ⟨p, Vec.normalizeFl fl sqrtf n, d⟩

/-- Modelled from the spec: the rounded five-argument constructor; as
`intersection.make`, with the rounded normalisation. -/
def intersection.makeFl (fl sqrtf : ℚ → ℚ) (p n t b : Vec) (d : ℚ) : intersection :=
  ⟨p, Vec.normalizeFl fl sqrtf n, t, b, d⟩

/-- Modelled from the spec: a two-point box constructor that sorts the two
corners component by component, the other reading of `bbox(a, b)`. -/
def bbox.makeSorted (a b : Vec) : bbox := ⟨Vec.cwiseMin a b, Vec.cwiseMax a b⟩

namespace geoms

/-- Rounded `Sphere::intersect(r, isectOut)`. -/
def Sphere.intersectFl (fl sqrtf : ℚ → ℚ) (s : Sphere) (r : Ray) : Option Intersection :=
  let diff := Vec.subFl fl r.origin s.origin
  let l := r.direction
  let a := Vec.dotFlE fl l l
  let b := Vec.dotFlE fl l diff
  let c := fl (Vec.dotFlE fl diff diff - fl (s.radius * s.radius))
  let discriminant := fl (fl (b * b) - fl (a * c))
  if discriminant > 0 then
    let discriminant := sqrtf discriminant
    let resPos := fl (-b + discriminant)
    let resNeg := fl (-b - discriminant)
    if math.isPositive resNeg then
      let pt := r.atFl fl resNeg
      let normal := Vec.normalizedFl fl sqrtf (Vec.subFl fl pt s.origin)
      some (Intersection.makeFl fl sqrtf pt normal resNeg)
    else if math.isPositive resPos then
      let pt := r.atFl fl resPos
      let normal := Vec.normalizedFl fl sqrtf (Vec.subFl fl pt s.origin)
      some (Intersection.makeFl fl sqrtf pt normal resPos)
    else none
  else none

/-- The coefficient `a = l.dot(l)` of `Sphere::intersect`, as rounded. -/
def Sphere.quadAFl (fl : ℚ → ℚ) (_s : Sphere) (r : Ray) : ℚ :=
  Vec.dotFlE fl r.direction r.direction

/-- The coefficient `b = l.dot(diff)` of `Sphere::intersect`, as rounded. -/
def Sphere.quadBFl (fl : ℚ → ℚ) (s : Sphere) (r : Ray) : ℚ :=
  Vec.dotFlE fl r.direction (Vec.subFl fl r.origin s.origin)

/-- The coefficient `c = diff.dot(diff) - radius * radius` of `Sphere::intersect`,
as rounded. -/
def Sphere.quadCFl (fl : ℚ → ℚ) (s : Sphere) (r : Ray) : ℚ :=
  fl (Vec.dotFlE fl (Vec.subFl fl r.origin s.origin) (Vec.subFl fl r.origin s.origin)
    - fl (s.radius * s.radius))

/-- The value `b * b - a * c` that `Sphere::intersect` tests against `0`, as rounded. -/
def Sphere.discriminantFl (fl : ℚ → ℚ) (s : Sphere) (r : Ray) : ℚ :=
  fl (fl (Sphere.quadBFl fl s r * Sphere.quadBFl fl s r)
    - fl (Sphere.quadAFl fl s r * Sphere.quadCFl fl s r))

/-- The local `resNeg = -b - sqrtf(discriminant)` of `Sphere::intersect`, as rounded. -/
def Sphere.resNegFl (fl sqrtf : ℚ → ℚ) (s : Sphere) (r : Ray) : ℚ :=
  fl (-Sphere.quadBFl fl s r - sqrtf (Sphere.discriminantFl fl s r))

/-- The local `resPos = -b + sqrtf(discriminant)` of `Sphere::intersect`, as rounded. -/
def Sphere.resPosFl (fl sqrtf : ℚ → ℚ) (s : Sphere) (r : Ray) : ℚ :=
  fl (-Sphere.quadBFl fl s r + sqrtf (Sphere.discriminantFl fl s r))

/-- Rounded `Sphere::samplePoint(rng, positionOut, normalOut)`. -/
def Sphere.samplePointFl (fl sqrtf : ℚ → ℚ) (s : Sphere) (rng : Randomness) :
    Vec × Vec × Randomness :=
  let (x, rng1) := rng.nextNormalFloat
  let (y, rng2) := rng1.nextNormalFloat
  let (z, rng3) := rng2.nextNormalFloat
  let a := fl (1 / sqrtf (fl (fl (fl (x * x) + fl (y * y)) + fl (z * z))))
  (⟨fl (s.origin.x + fl (fl (s.radius * a) * x)), fl (s.origin.y + fl (fl (s.radius * a) * y)),
      fl (s.origin.z + fl (fl (s.radius * a) * z))⟩,
   ⟨fl (a * x), fl (a * y), fl (a * z)⟩,
   rng3)

/-- Rounded `Sphere::bounds()`; `mk` stands for the two-point constructor of the
box, whose definition is not part of the sources at hand. -/
def Sphere.boundsFl (fl : ℚ → ℚ) (mk : Vec → Vec → BBox) (s : Sphere) : BBox :=
  let boundsDiag : Vec := ⟨s.radius, s.radius, s.radius⟩
  mk (Vec.subFl fl s.origin boundsDiag) (Vec.addFl fl s.origin boundsDiag)

/-- Rounded constructor `disc(m, o, n, r)`. -/
def disc.makeFl (fl sqrtf : ℚ → ℚ) (o n : Vec) (r : ℚ) : disc :=
  let normal := Vec.normalizedFl fl sqrtf n
  let frame := math.coordSystemFl fl sqrtf normal
  { radiusSquared := fl (r * r), origin := o, normal := normal, radius := r,
    tangent := frame.1, binormal := frame.2 }

/-- Rounded `disc::intersect(r, isectOut)` with a non-null `isectOut`. -/
def disc.intersectFl (fl sqrtf : ℚ → ℚ) (dc : disc) (r : ray) : Option intersection :=
  let denom := Vec.dotFlE fl r.direction dc.normal
  if denom ≠ 0 then
    let d := fl (Vec.dotFlE fl (Vec.subFl fl dc.origin r.origin) dc.normal / denom)
    if math.isPositive d then
      let isectPoint := r.atFl fl d
      if Vec.squaredNormFl fl (Vec.subFl fl isectPoint dc.origin) < dc.radiusSquared then
        some (intersection.makeFl fl sqrtf isectPoint dc.normal dc.tangent dc.binormal d)
      else none
    else none
  else none

/-- The local `denom = r.direction.dot(normal)` of `disc::intersect`, as rounded. -/
def disc.denomFl (fl : ℚ → ℚ) (dc : disc) (r : ray) : ℚ := Vec.dotFlE fl r.direction dc.normal

/-- The local `d = (origin - r.origin).dot(normal) / denom` of `disc::intersect`,
as rounded. -/
def disc.paramFl (fl : ℚ → ℚ) (dc : disc) (r : ray) : ℚ :=
  fl (Vec.dotFlE fl (Vec.subFl fl dc.origin r.origin) dc.normal / disc.denomFl fl dc r)

/-- The point `origin + tr + br` of `disc::bounds()`, with `tr = tangent * radius`
and `br = binormal * radius`: the first argument of the box constructor. -/
def disc.cornerPP (fl : ℚ → ℚ) (dc : disc) : Vec :=
  Vec.addFl fl (Vec.addFl fl dc.origin (Vec.scaleFl fl dc.tangent dc.radius))
    (Vec.scaleFl fl dc.binormal dc.radius)

/-- The point `origin - tr - br` of `disc::bounds()`: the second argument of the
box constructor. -/
def disc.cornerMM (fl : ℚ → ℚ) (dc : disc) : Vec :=
  Vec.subFl fl (Vec.subFl fl dc.origin (Vec.scaleFl fl dc.tangent dc.radius))
    (Vec.scaleFl fl dc.binormal dc.radius)

/-- The point `origin + tr - br` of `disc::bounds()`: the first point passed to `expand`. -/
def disc.cornerPM (fl : ℚ → ℚ) (dc : disc) : Vec :=
  Vec.subFl fl (Vec.addFl fl dc.origin (Vec.scaleFl fl dc.tangent dc.radius))
    (Vec.scaleFl fl dc.binormal dc.radius)

/-- The point `origin - tr + br` of `disc::bounds()`: the second point passed to `expand`. -/
def disc.cornerMP (fl : ℚ → ℚ) (dc : disc) : Vec :=
  Vec.addFl fl (Vec.subFl fl dc.origin (Vec.scaleFl fl dc.tangent dc.radius))
    (Vec.scaleFl fl dc.binormal dc.radius)

/-- Rounded `disc::bounds()`; `mk` stands for the two-point constructor of the
box, whose definition is not part of the sources at hand. -/
def disc.boundsFl (fl : ℚ → ℚ) (mk : Vec → Vec → bbox) (dc : disc) : bbox :=
  let tr := Vec.scaleFl fl dc.tangent dc.radius
  let br := Vec.scaleFl fl dc.binormal dc.radius
  let b := mk (Vec.addFl fl (Vec.addFl fl dc.origin tr) br)
    (Vec.subFl fl (Vec.subFl fl dc.origin tr) br)
  let b := b.expand (Vec.subFl fl (Vec.addFl fl dc.origin tr) br)
  let b := b.expand (Vec.addFl fl (Vec.subFl fl dc.origin tr) br)
  b

/-- Rounded `plane::computeTangents()`. -/
def plane.computeTangentsFl (fl sqrtf : ℚ → ℚ) (p : plane) : plane :=
  let frame := math.coordSystemFl fl sqrtf p.normal
  { p with tangent := frame.1, cotangent := frame.2 }

/-- Rounded constructors `plane(o, n, m)` and `plane(o, n)`. -/
def plane.makeFl (fl sqrtf : ℚ → ℚ) (o n : Vec) : plane :=
  plane.computeTangentsFl fl sqrtf ⟨o, Vec.normalizeFl fl sqrtf n, Vec.zero, Vec.zero⟩

/-- The local `denom = glm::dot(r.unit().direction, normal)` of `plane::intersect`,
as rounded. -/
def plane.denomFl (fl sqrtf : ℚ → ℚ) (p : plane) (r : ray) : ℚ :=
  Vec.dotFl fl (r.unitFl fl sqrtf).direction p.normal

/-- The local `d = glm::dot(origin - r.origin, normal) / denom` of
`plane::intersect`, as rounded. -/
def plane.paramFl (fl sqrtf : ℚ → ℚ) (p : plane) (r : ray) : ℚ :=
  fl (Vec.dotFl fl (Vec.subFl fl p.origin r.origin) p.normal / plane.denomFl fl sqrtf p r)

/-- Rounded `plane::intersect(r)`. -/
def plane.intersectFl (fl sqrtf : ℚ → ℚ) (p : plane) (r : ray) : intersection :=
  let denom := Vec.dotFl fl (r.unitFl fl sqrtf).direction p.normal
  if denom ≠ 0 then
    let d := fl (Vec.dotFl fl (Vec.subFl fl p.origin r.origin) p.normal / denom)
    if math.isPositive d then
      intersection.makeFl fl sqrtf ((r.unitFl fl sqrtf).atFl fl d) p.normal p.tangent
        p.cotangent d
    else intersection.empty
  else intersection.empty

end geoms

/-- The bound `1 / (1 - 2⁻²⁴)` on the factor by which one binary32 rounding, in
the normal range, can change a value. -/
def ulpRel : ℚ := 16777216 / 16777215

/-- The values `x` and `v` agree up to `k` roundings: each is at most the other
times `ulpRel ^ k`. -/
structure Near (k : ℕ) (x v : ℚ) : Prop where
  lo : v ≤ x * ulpRel ^ k
  hi : x ≤ v * ulpRel ^ k

/-! ## Basic facts about the vector operations and the predicates -/

namespace Vec

theorem add_def (a b : Vec) : a + b = ⟨a.x + b.x, a.y + b.y, a.z + b.z⟩ := rfl

theorem sub_def (a b : Vec) : a - b = ⟨a.x - b.x, a.y - b.y, a.z - b.z⟩ := rfl

theorem scale_def (a : Vec) (k : ℚ) : a * k = ⟨a.x * k, a.y * k, a.z * k⟩ := rfl

theorem dot_scale_left (a b : Vec) (k : ℚ) : (a * k).dot b = a.dot b * k := by
  simp only [scale_def, dot]; ring

theorem normalize_eq_normalized (sqrtf : ℚ → ℚ) (a : Vec) :
    normalize sqrtf a = normalized sqrtf a := by
  simp only [normalize, normalized, scale_def, mk.injEq]
  refine ⟨?_, ?_, ?_⟩ <;> ring

end Vec

namespace math

theorem epsilon_pos : 0 < epsilon := by unfold epsilon; norm_num

theorem isPositive_iff (x : ℚ) : isPositive x = true ↔ epsilon < x := by
  simp [isPositive]

theorem isPositive_eq_false_iff (x : ℚ) : isPositive x = false ↔ x ≤ epsilon := by
  simp [isPositive]

theorem isNearlyZero_iff (x : ℚ) : isNearlyZero x = true ↔ |x| < epsilon := by
  simp [isNearlyZero]

end math

/-! ### The computable square root -/

theorem natSqrtAux_sq (k r : ℕ) (h : r ≤ k) : natSqrtAux k (r * r) = r := by
  induction k with
  | zero =>
    have hr : r = 0 := Nat.le_zero.mp h
    simp [natSqrtAux, hr]
  | succ k ih =>
    unfold natSqrtAux
    split_ifs with hk
    · have hle : k + 1 ≤ r := by
        by_contra hlt
        have hlt2 : r < k + 1 := Nat.lt_of_not_le hlt
        have : r * r < (k + 1) * (k + 1) := Nat.mul_self_lt_mul_self hlt2
        omega
      omega
    · have hlt : r < k + 1 := by
        by_contra hge
        have hge2 : k + 1 ≤ r := Nat.le_of_not_lt hge
        exact hk (Nat.mul_self_le_mul_self hge2)
      exact ih (Nat.lt_succ_iff.mp hlt)

theorem sqrtfQ_nonneg (x : ℚ) : 0 ≤ sqrtfQ x := by
  unfold sqrtfQ
  positivity

/-- On the square of a non-negative rational `sqrtfQ` is the exact root. -/
theorem sqrtfQ_mul_self (y : ℚ) (hy : 0 ≤ y) : sqrtfQ (y * y) = y := by
  have hnum : 0 ≤ y.num := Rat.num_nonneg.mpr hy
  obtain ⟨n, hn⟩ := Int.eq_ofNat_of_zero_le hnum
  have hden : 0 < y.den := y.den_pos
  have h1 : (y * y).num = y.num * y.num := Rat.mul_self_num y
  have h2 : (y * y).den = y.den * y.den := Rat.mul_self_den y
  have h3 : (y * y).num.toNat = n * n := by
    rw [h1, hn]
    exact_mod_cast Int.toNat_natCast (n * n)
  have h4 : (y * y).num.toNat * (y * y).den = (n * y.den) * (n * y.den) := by
    rw [h3, h2]; ring
  have h5 : n * y.den ≤ (n * y.den) * (n * y.den) := Nat.le_mul_self _
  unfold sqrtfQ
  rw [h4, natSqrtAux_sq _ _ h5, h2]
  have hd : (y.den : ℚ) ≠ 0 := by exact_mod_cast hden.ne'
  have hy2 : y = (n : ℚ) / (y.den : ℚ) := by
    have := Rat.num_div_den y
    rw [hn] at this
    simpa using this.symm
  conv_rhs => rw [hy2]
  rw [Nat.cast_mul, Nat.cast_mul]
  field_simp
  ring

theorem sqrtfQ_zero : sqrtfQ 0 = 0 := by
  simpa using sqrtfQ_mul_self 0 le_rfl

theorem sqrtfQ_one : sqrtfQ 1 = 1 := by
  simpa using sqrtfQ_mul_self 1 zero_le_one

theorem sqrtfQ_four : sqrtfQ 4 = 2 := by
  have h := sqrtfQ_mul_self 2 (by norm_num)
  norm_num at h
  exact h

theorem sqrtfQ_twentyfive : sqrtfQ 25 = 5 := by
  have h := sqrtfQ_mul_self 5 (by norm_num)
  norm_num at h
  exact h

/-! ## Sphere: how `intersect` and `intersectShadow` decide -/

namespace geoms.Sphere

/-- The body of `Sphere::intersect` in terms of its named intermediate values. -/
theorem sphere_intersect_eq (sqrtf : ℚ → ℚ) (s : Sphere) (r : Ray) :
    intersect sqrtf s r =
      if discriminant s r > 0 then
        if math.isPositive (resNeg sqrtf s r) then
          some (Intersection.make sqrtf (r.at_ (resNeg sqrtf s r))
            ((r.at_ (resNeg sqrtf s r) - s.origin).normalized sqrtf) (resNeg sqrtf s r))
        else if math.isPositive (resPos sqrtf s r) then
          some (Intersection.make sqrtf (r.at_ (resPos sqrtf s r))
            ((r.at_ (resPos sqrtf s r) - s.origin).normalized sqrtf) (resPos sqrtf s r))
        else none
      else none := rfl

/-- The body of `Sphere::intersectShadow` in terms of its named intermediate values. -/
theorem sphere_intersectShadow_eq (sqrtf : ℚ → ℚ) (s : Sphere) (r : Ray) (maxDist : ℚ) :
    intersectShadow sqrtf s r maxDist =
      if discriminant s r > 0 then
        if math.isPositive (resNeg sqrtf s r) && math.isPositive (maxDist - resNeg sqrtf s r) then
          true
        else if math.isPositive (resPos sqrtf s r) &&
            math.isPositive (maxDist - resPos sqrtf s r) then
          true
        else false
      else false := rfl

theorem resNeg_le_resPos (sqrtf : ℚ → ℚ) (s : Sphere) (r : Ray)
    (hs : 0 ≤ sqrtf (discriminant s r)) : resNeg sqrtf s r ≤ resPos sqrtf s r := by
  unfold resNeg resPos
  linarith

/-- When `intersect` reports a hit, the distance it stores is `resNeg` if that
passes `isPositive`, and otherwise `resPos`, which then passes `isPositive`. -/
theorem intersect_some_distance (sqrtf : ℚ → ℚ) (s : Sphere) (r : Ray) (i : Intersection)
    (h : intersect sqrtf s r = some i) :
    0 < discriminant s r ∧
    ((math.isPositive (resNeg sqrtf s r) = true ∧ i.distance = resNeg sqrtf s r) ∨
      (math.isPositive (resNeg sqrtf s r) = false ∧ math.isPositive (resPos sqrtf s r) = true ∧
        i.distance = resPos sqrtf s r)) := by
  rw [sphere_intersect_eq] at h
  split_ifs at h with h1 h2 h3
  · refine ⟨h1, Or.inl ⟨h2, ?_⟩⟩
    cases h
    rfl
  · refine ⟨h1, Or.inr ⟨by simpa using h2, h3, ?_⟩⟩
    cases h
    rfl

/-- A hit is reported exactly when the discriminant is positive and one of the
two candidate distances passes `isPositive`. -/
theorem intersect_isSome_iff (sqrtf : ℚ → ℚ) (s : Sphere) (r : Ray) :
    (intersect sqrtf s r).isSome = true ↔
      0 < discriminant s r ∧
        (math.isPositive (resNeg sqrtf s r) = true ∨ math.isPositive (resPos sqrtf s r) = true) := by
  rw [sphere_intersect_eq]
  split_ifs with h1 h2 h3 <;> simp_all

end geoms.Sphere

/-! ## Claims about `Sphere::intersect` and `Sphere::intersectShadow` -/

namespace geoms.Sphere

/-- C1: `Sphere::intersect` tests the smaller candidate
`resNeg = -b - sqrtf(discriminant)` first.  With a positive discriminant, if
`resNeg` passes `isPositive` a hit is reported and its distance is `resNeg`,
the smaller of the two candidates (in particular when both pass); if `resNeg`
does not pass and the larger candidate `resPos = -b + sqrtf(discriminant)`
does, a hit is reported and its distance is `resPos`.  A hit is reported
exactly when the discriminant is positive and one of the candidates passes,
and whatever hit is reported stores the larger candidate only when the smaller
one does not pass. -/
theorem intersect_reports_nearest_positive_root (sqrtf : ℚ → ℚ) (s : Sphere) (r : Ray)
    (hs : 0 ≤ sqrtf (discriminant s r)) :
    resNeg sqrtf s r ≤ resPos sqrtf s r ∧
    ((intersect sqrtf s r).isSome = true ↔
      0 < discriminant s r ∧
        (math.isPositive (resNeg sqrtf s r) = true ∨
          math.isPositive (resPos sqrtf s r) = true)) ∧
    (0 < discriminant s r → math.isPositive (resNeg sqrtf s r) = true →
      ∃ i, intersect sqrtf s r = some i ∧ i.distance = resNeg sqrtf s r ∧
        i.distance = min (resNeg sqrtf s r) (resPos sqrtf s r) ∧
        i.position = r.at_ (resNeg sqrtf s r)) ∧
    (0 < discriminant s r → math.isPositive (resNeg sqrtf s r) = false →
      math.isPositive (resPos sqrtf s r) = true →
      ∃ i, intersect sqrtf s r = some i ∧ i.distance = resPos sqrtf s r ∧
        i.position = r.at_ (resPos sqrtf s r)) ∧
    (∀ i, intersect sqrtf s r = some i →
      (math.isPositive (resNeg sqrtf s r) = true → i.distance = resNeg sqrtf s r) ∧
      (i.distance = resPos sqrtf s r → resNeg sqrtf s r < resPos sqrtf s r →
        math.isPositive (resNeg sqrtf s r) = false) ∧
      (math.isPositive (resNeg sqrtf s r) = false →
        i.distance = resPos sqrtf s r ∧ math.isPositive (resPos sqrtf s r) = true) ∧
      (math.isPositive (resNeg sqrtf s r) = true →
        math.isPositive (resPos sqrtf s r) = true →
        i.distance = min (resNeg sqrtf s r) (resPos sqrtf s r))) := by
  have hle := resNeg_le_resPos sqrtf s r hs
  refine ⟨hle, intersect_isSome_iff sqrtf s r, ?_, ?_, ?_⟩
  · intro hd hp
    refine ⟨Intersection.make sqrtf (r.at_ (resNeg sqrtf s r))
      ((r.at_ (resNeg sqrtf s r) - s.origin).normalized sqrtf) (resNeg sqrtf s r),
      ?_, rfl, ?_, rfl⟩
    · rw [sphere_intersect_eq, if_pos hd, if_pos hp]
    · exact (min_eq_left hle).symm
  · intro hd hn hp
    refine ⟨Intersection.make sqrtf (r.at_ (resPos sqrtf s r))
      ((r.at_ (resPos sqrtf s r) - s.origin).normalized sqrtf) (resPos sqrtf s r),
      ?_, rfl, rfl⟩
    rw [sphere_intersect_eq, if_pos hd, if_neg (by simp [hn]), if_pos hp]
  · intro i h
    obtain ⟨_, hcase⟩ := intersect_some_distance sqrtf s r i h
    refine ⟨?_, ?_, ?_, ?_⟩
    · intro hp
      rcases hcase with ⟨_, hd⟩ | ⟨hn, _, _⟩
      · exact hd
      · rw [hp] at hn; cases hn
    · intro hd hlt
      rcases hcase with ⟨_, hd2⟩ | ⟨hn, _, _⟩
      · rw [hd] at hd2; exact absurd hd2 hlt.ne'
      · exact hn
    · intro hn
      rcases hcase with ⟨hp, _⟩ | ⟨_, hp, hd⟩
      · rw [hn] at hp; cases hp
      · exact ⟨hd, hp⟩
    · intro hp _
      rcases hcase with ⟨_, hd⟩ | ⟨hn, _, _⟩
      · rw [hd, min_eq_left hle]
      · rw [hp] at hn; cases hn

/-- Witness for C1: the unit sphere at the origin and the ray from `(0,0,-3)`
along `(0,0,1)`; the candidates are `2` and `4`, both pass `isPositive`, and
the hit is at distance `2`. -/
theorem intersect_reports_nearest_positive_root_witness :
    0 ≤ sqrtfQ (discriminant ⟨⟨0, 0, 0⟩, 1⟩ ⟨⟨0, 0, -3⟩, ⟨0, 0, 1⟩⟩) ∧
    0 < discriminant ⟨⟨0, 0, 0⟩, 1⟩ ⟨⟨0, 0, -3⟩, ⟨0, 0, 1⟩⟩ ∧
    resNeg sqrtfQ ⟨⟨0, 0, 0⟩, 1⟩ ⟨⟨0, 0, -3⟩, ⟨0, 0, 1⟩⟩ = 2 ∧
    resPos sqrtfQ ⟨⟨0, 0, 0⟩, 1⟩ ⟨⟨0, 0, -3⟩, ⟨0, 0, 1⟩⟩ = 4 ∧
    math.isPositive (2 : ℚ) = true ∧ math.isPositive (4 : ℚ) = true ∧
    intersect sqrtfQ ⟨⟨0, 0, 0⟩, 1⟩ ⟨⟨0, 0, -3⟩, ⟨0, 0, 1⟩⟩
      = some ⟨⟨0, 0, -1⟩, ⟨0, 0, -1⟩, 2⟩ ∧
    (∃ i, intersect sqrtfQ ⟨⟨0, 0, 0⟩, 1⟩ ⟨⟨0, 0, -3⟩, ⟨0, 0, 1⟩⟩ = some i ∧
      i.distance = resNeg sqrtfQ ⟨⟨0, 0, 0⟩, 1⟩ ⟨⟨0, 0, -3⟩, ⟨0, 0, 1⟩⟩ ∧
      i.distance = min (resNeg sqrtfQ ⟨⟨0, 0, 0⟩, 1⟩ ⟨⟨0, 0, -3⟩, ⟨0, 0, 1⟩⟩)
        (resPos sqrtfQ ⟨⟨0, 0, 0⟩, 1⟩ ⟨⟨0, 0, -3⟩, ⟨0, 0, 1⟩⟩) ∧
      i.position = ray.at_ ⟨⟨0, 0, -3⟩, ⟨0, 0, 1⟩⟩
        (resNeg sqrtfQ ⟨⟨0, 0, 0⟩, 1⟩ ⟨⟨0, 0, -3⟩, ⟨0, 0, 1⟩⟩)) := by
  have hd : discriminant ⟨⟨0, 0, 0⟩, 1⟩ ⟨⟨0, 0, -3⟩, ⟨0, 0, 1⟩⟩ = 1 := by
    norm_num [discriminant, quadA, quadB, quadC, Vec.dot, Vec.sub_def]
  have hn : resNeg sqrtfQ ⟨⟨0, 0, 0⟩, 1⟩ ⟨⟨0, 0, -3⟩, ⟨0, 0, 1⟩⟩ = 2 := by
    rw [resNeg, hd, sqrtfQ_one]
    norm_num [quadB, Vec.dot, Vec.sub_def]
  have hp : resPos sqrtfQ ⟨⟨0, 0, 0⟩, 1⟩ ⟨⟨0, 0, -3⟩, ⟨0, 0, 1⟩⟩ = 4 := by
    rw [resPos, hd, sqrtfQ_one]
    norm_num [quadB, Vec.dot, Vec.sub_def]
  have hi : intersect sqrtfQ ⟨⟨0, 0, 0⟩, 1⟩ ⟨⟨0, 0, -3⟩, ⟨0, 0, 1⟩⟩
      = some ⟨⟨0, 0, -1⟩, ⟨0, 0, -1⟩, 2⟩ := by
    rw [sphere_intersect_eq, hd, hn]
    norm_num [math.isPositive, math.epsilon, Intersection.make, ray.at_, Vec.normalize,
      Vec.normalized, Vec.dot, Vec.sub_def, Vec.add_def, Vec.scale_def, sqrtfQ_one]
  have hpos : math.isPositive (2 : ℚ) = true ∧ math.isPositive (4 : ℚ) = true := by
    norm_num [math.isPositive, math.epsilon]
  have key := intersect_reports_nearest_positive_root sqrtfQ ⟨⟨0, 0, 0⟩, 1⟩
    ⟨⟨0, 0, -3⟩, ⟨0, 0, 1⟩⟩ (sqrtfQ_nonneg _)
  refine ⟨sqrtfQ_nonneg _, by rw [hd]; norm_num, hn, hp, hpos.1, hpos.2, hi, ?_⟩
  exact key.2.2.1 (by rw [hd]; norm_num) (by rw [hn]; exact hpos.1)

end geoms.Sphere

namespace geoms.Sphere

/-- For a direction with `dot(d, d) = 1` and a square root that is exact at the
discriminant, both candidate distances are roots of `a t² + 2 b t + c`. -/
theorem candidates_are_roots_of_unit (sqrtf : ℚ → ℚ) (s : Sphere) (r : Ray)
    (ha : quadA s r = 1)
    (hsq : sqrtf (discriminant s r) * sqrtf (discriminant s r) = discriminant s r) :
    quadA s r * (resNeg sqrtf s r * resNeg sqrtf s r) + 2 * quadB s r * resNeg sqrtf s r
        + quadC s r = 0 ∧
    quadA s r * (resPos sqrtf s r * resPos sqrtf s r) + 2 * quadB s r * resPos sqrtf s r
        + quadC s r = 0 := by
  have hd : discriminant s r = quadB s r * quadB s r - quadC s r := by
    unfold discriminant; rw [ha]; ring
  rw [hd] at hsq
  unfold resNeg resPos
  rw [hd, ha]
  constructor <;> nlinarith [hsq]

/-- C2 (evaluation at the failing input): for the unit sphere at the origin and
the ray from `(0,0,-3)` with the non-unit direction `(0,0,2)`, the coefficients
are `a = 4`, `b = -6`, `c = 8`; `Sphere::intersect` reports distance `4` and
position `(0,0,5)`.  The value `4` is not a root of `a t² + 2 b t + c` (whose
roots are `1` and `2`), and the reported position is at squared distance `25`,
not `1`, from the centre. -/
theorem intersect_nonunit_direction_not_root :
    quadA ⟨⟨0, 0, 0⟩, 1⟩ ⟨⟨0, 0, -3⟩, ⟨0, 0, 2⟩⟩ = 4 ∧
    quadB ⟨⟨0, 0, 0⟩, 1⟩ ⟨⟨0, 0, -3⟩, ⟨0, 0, 2⟩⟩ = -6 ∧
    quadC ⟨⟨0, 0, 0⟩, 1⟩ ⟨⟨0, 0, -3⟩, ⟨0, 0, 2⟩⟩ = 8 ∧
    intersect sqrtfQ ⟨⟨0, 0, 0⟩, 1⟩ ⟨⟨0, 0, -3⟩, ⟨0, 0, 2⟩⟩
        = some ⟨⟨0, 0, 5⟩, ⟨0, 0, 1⟩, 4⟩ ∧
    (4 : ℚ) * (4 * 4) + 2 * (-6) * 4 + 8 ≠ 0 ∧
    (4 : ℚ) * (1 * 1) + 2 * (-6) * 1 + 8 = 0 ∧
    Vec.squaredNorm ((⟨0, 0, 5⟩ : Vec) - ⟨0, 0, 0⟩) = 25 := by
  have ha : quadA ⟨⟨0, 0, 0⟩, 1⟩ ⟨⟨0, 0, -3⟩, ⟨0, 0, 2⟩⟩ = 4 := by
    norm_num [quadA, Vec.dot]
  have hb : quadB ⟨⟨0, 0, 0⟩, 1⟩ ⟨⟨0, 0, -3⟩, ⟨0, 0, 2⟩⟩ = -6 := by
    norm_num [quadB, Vec.dot, Vec.sub_def]
  have hc : quadC ⟨⟨0, 0, 0⟩, 1⟩ ⟨⟨0, 0, -3⟩, ⟨0, 0, 2⟩⟩ = 8 := by
    norm_num [quadC, Vec.dot, Vec.sub_def]
  have hd : discriminant ⟨⟨0, 0, 0⟩, 1⟩ ⟨⟨0, 0, -3⟩, ⟨0, 0, 2⟩⟩ = 4 := by
    rw [discriminant, ha, hb, hc]; norm_num
  have hn : resNeg sqrtfQ ⟨⟨0, 0, 0⟩, 1⟩ ⟨⟨0, 0, -3⟩, ⟨0, 0, 2⟩⟩ = 4 := by
    rw [resNeg, hd, hb, sqrtfQ_four]; norm_num
  refine ⟨ha, hb, hc, ?_, by norm_num, by norm_num, ?_⟩
  · rw [sphere_intersect_eq, hd, hn]
    norm_num [math.isPositive, math.epsilon, Intersection.make, ray.at_, Vec.normalize,
      Vec.normalized, Vec.dot, Vec.sub_def, Vec.add_def, Vec.scale_def, sqrtfQ_one,
      sqrtfQ_twentyfive]
  · norm_num [Vec.squaredNorm, Vec.dot, Vec.sub_def]

/-- C3 (counterexample): the unit sphere at the origin, the ray from `(0,0,-2)`
along `(0,0,1)` and `maxDist = 1 + 2⁻²³`.  `intersect` reports a hit at distance
`1 < maxDist`, yet `intersectShadow` returns `false`, because
`maxDist - 1 = epsilon` does not pass `isPositive`. -/
theorem intersectShadow_not_iff_distance_lt :
    intersect sqrtfQ ⟨⟨0, 0, 0⟩, 1⟩ ⟨⟨0, 0, -2⟩, ⟨0, 0, 1⟩⟩
        = some ⟨⟨0, 0, -1⟩, ⟨0, 0, -1⟩, 1⟩ ∧
    (1 : ℚ) < 1 + 1 / 8388608 ∧
    intersectShadow sqrtfQ ⟨⟨0, 0, 0⟩, 1⟩ ⟨⟨0, 0, -2⟩, ⟨0, 0, 1⟩⟩ (1 + 1 / 8388608) = false ∧
    ¬ (intersectShadow sqrtfQ ⟨⟨0, 0, 0⟩, 1⟩ ⟨⟨0, 0, -2⟩, ⟨0, 0, 1⟩⟩ (1 + 1 / 8388608) = true ↔
        ∃ i, intersect sqrtfQ ⟨⟨0, 0, 0⟩, 1⟩ ⟨⟨0, 0, -2⟩, ⟨0, 0, 1⟩⟩ = some i ∧
          i.distance < 1 + 1 / 8388608) := by
  have hd : discriminant ⟨⟨0, 0, 0⟩, 1⟩ ⟨⟨0, 0, -2⟩, ⟨0, 0, 1⟩⟩ = 1 := by
    norm_num [discriminant, quadA, quadB, quadC, Vec.dot, Vec.sub_def]
  have hn : resNeg sqrtfQ ⟨⟨0, 0, 0⟩, 1⟩ ⟨⟨0, 0, -2⟩, ⟨0, 0, 1⟩⟩ = 1 := by
    rw [resNeg, hd, sqrtfQ_one]
    norm_num [quadB, Vec.dot, Vec.sub_def]
  have hp : resPos sqrtfQ ⟨⟨0, 0, 0⟩, 1⟩ ⟨⟨0, 0, -2⟩, ⟨0, 0, 1⟩⟩ = 3 := by
    rw [resPos, hd, sqrtfQ_one]
    norm_num [quadB, Vec.dot, Vec.sub_def]
  have hi : intersect sqrtfQ ⟨⟨0, 0, 0⟩, 1⟩ ⟨⟨0, 0, -2⟩, ⟨0, 0, 1⟩⟩
      = some ⟨⟨0, 0, -1⟩, ⟨0, 0, -1⟩, 1⟩ := by
    rw [sphere_intersect_eq, hd, hn]
    norm_num [math.isPositive, math.epsilon, Intersection.make, ray.at_, Vec.normalize,
      Vec.normalized, Vec.dot, Vec.sub_def, Vec.add_def, Vec.scale_def, sqrtfQ_one]
  have hsh : intersectShadow sqrtfQ ⟨⟨0, 0, 0⟩, 1⟩ ⟨⟨0, 0, -2⟩, ⟨0, 0, 1⟩⟩ (1 + 1 / 8388608)
      = false := by
    rw [sphere_intersectShadow_eq, hd, hn, hp]
    norm_num [math.isPositive, math.epsilon]
  refine ⟨hi, by norm_num, hsh, ?_⟩
  intro hiff
  have htrue := hiff.mpr ⟨_, hi, by norm_num⟩
  rw [hsh] at htrue
  cases htrue

/-- C3 (as amended): `intersectShadow(ray, maxDist)` returns true exactly when
`intersect(ray)` reports a hit whose distance `d` has `maxDist - d` passing
`isPositive`, that is `maxDist - d > epsilon`. -/
theorem intersectShadow_iff_intersect_within (sqrtf : ℚ → ℚ) (s : Sphere) (r : Ray)
    (maxDist : ℚ) (hs : 0 ≤ sqrtf (discriminant s r)) :
    intersectShadow sqrtf s r maxDist = true ↔
      ∃ i, intersect sqrtf s r = some i ∧ math.isPositive (maxDist - i.distance) = true := by
  have hle := resNeg_le_resPos sqrtf s r hs
  rw [sphere_intersectShadow_eq, sphere_intersect_eq]
  by_cases h1 : discriminant s r > 0
  · simp only [h1, if_true]
    by_cases h2 : math.isPositive (resNeg sqrtf s r) = true
    · by_cases h3 : math.isPositive (maxDist - resNeg sqrtf s r) = true
      · simp [h2, h3, Intersection.make]
      · have h4 : math.isPositive (maxDist - resPos sqrtf s r) = false := by
          rw [math.isPositive_eq_false_iff]
          have : maxDist - resNeg sqrtf s r ≤ math.epsilon := by
            rw [← math.isPositive_eq_false_iff]; simpa using h3
          linarith
        simp [h2, h3, h4, Intersection.make]
    · by_cases h5 : math.isPositive (resPos sqrtf s r) = true
      · simp [h2, h5, Intersection.make]
      · simp [h2, h5]
  · simp [h1]

/-- Witness for C3 (as amended): the unit sphere at the origin, the ray from
`(0,0,-2)` along `(0,0,1)`, `maxDist = 2`; both sides are true, the hit being
at distance `1`. -/
theorem intersectShadow_iff_intersect_within_witness :
    0 ≤ sqrtfQ (discriminant ⟨⟨0, 0, 0⟩, 1⟩ ⟨⟨0, 0, -2⟩, ⟨0, 0, 1⟩⟩) ∧
    intersectShadow sqrtfQ ⟨⟨0, 0, 0⟩, 1⟩ ⟨⟨0, 0, -2⟩, ⟨0, 0, 1⟩⟩ 2 = true ∧
    (intersectShadow sqrtfQ ⟨⟨0, 0, 0⟩, 1⟩ ⟨⟨0, 0, -2⟩, ⟨0, 0, 1⟩⟩ 2 = true ↔
      ∃ i, intersect sqrtfQ ⟨⟨0, 0, 0⟩, 1⟩ ⟨⟨0, 0, -2⟩, ⟨0, 0, 1⟩⟩ = some i ∧
        math.isPositive (2 - i.distance) = true) := by
  have hd : discriminant ⟨⟨0, 0, 0⟩, 1⟩ ⟨⟨0, 0, -2⟩, ⟨0, 0, 1⟩⟩ = 1 := by
    norm_num [discriminant, quadA, quadB, quadC, Vec.dot, Vec.sub_def]
  have hn : resNeg sqrtfQ ⟨⟨0, 0, 0⟩, 1⟩ ⟨⟨0, 0, -2⟩, ⟨0, 0, 1⟩⟩ = 1 := by
    rw [resNeg, hd, sqrtfQ_one]
    norm_num [quadB, Vec.dot, Vec.sub_def]
  refine ⟨sqrtfQ_nonneg _, ?_,
    intersectShadow_iff_intersect_within sqrtfQ _ _ 2 (sqrtfQ_nonneg _)⟩
  rw [sphere_intersectShadow_eq, hd, hn]
  norm_num [math.isPositive, math.epsilon]

/-- C4: `Sphere::intersectShadow(ray, 0)` returns false for every sphere, every
ray and every square-root function. -/
theorem intersectShadow_zero (sqrtf : ℚ → ℚ) (s : Sphere) (r : Ray) :
    intersectShadow sqrtf s r 0 = false := by
  have key : ∀ x : ℚ, (math.isPositive x && math.isPositive (0 - x)) = false := by
    intro x
    rw [Bool.and_eq_false_iff, math.isPositive_eq_false_iff, math.isPositive_eq_false_iff]
    have := math.epsilon_pos
    by_cases hx : x ≤ math.epsilon
    · exact Or.inl hx
    · right; push_neg at hx; linarith
  rw [sphere_intersectShadow_eq, key, key]
  simp

end geoms.Sphere

/-! ## Disc and plane: how `intersect` decides -/

namespace geoms

/-- The body of `disc::intersect` in terms of its named intermediate values. -/
theorem disc_intersect_eq (sqrtf : ℚ → ℚ) (dc : disc) (r : ray) :
    dc.intersect sqrtf r =
      if disc.denom dc r ≠ 0 then
        if math.isPositive (disc.param dc r) then
          if (r.at_ (disc.param dc r) - dc.origin).squaredNorm < dc.radiusSquared then
            some (intersection.make sqrtf (r.at_ (disc.param dc r)) dc.normal dc.tangent
              dc.binormal (disc.param dc r))
          else none
        else none
      else none := rfl

theorem intersection.empty_hit : intersection.empty.hit = false := by
  simp [intersection.hit, intersection.empty]

end geoms

namespace geoms

/-- The disc of the spec's round-trip example, as the constructor builds it. -/
theorem disc.make_unit_up :
    disc.make sqrtfQ ⟨0, 0, 0⟩ ⟨0, 1, 0⟩ 1
      = ⟨1, ⟨0, 0, 0⟩, ⟨0, 1, 0⟩, 1, ⟨0, 0, -1⟩, ⟨-1, 0, 0⟩⟩ := by
  norm_num [disc.make, math.coordSystem, Vec.normalized, Vec.dot, Vec.cross, sqrtfQ_one]

end geoms

namespace geoms

end geoms

/-! ## Claims about `Sphere::samplePoint`, `Sphere::area` and `emitter::propagate` -/

namespace geoms.Sphere

/-- The three draws of `samplePoint` are the next three variates of the stream. -/
theorem samplePoint_eq (sqrtf : ℚ → ℚ) (s : Sphere) (rng : Randomness) :
    samplePoint sqrtf s rng =
      (⟨s.origin.x + s.radius * (1 / sqrtf (rng.stream rng.pos * rng.stream rng.pos
            + rng.stream (rng.pos + 1) * rng.stream (rng.pos + 1)
            + rng.stream (rng.pos + 2) * rng.stream (rng.pos + 2))) * rng.stream rng.pos,
        s.origin.y + s.radius * (1 / sqrtf (rng.stream rng.pos * rng.stream rng.pos
            + rng.stream (rng.pos + 1) * rng.stream (rng.pos + 1)
            + rng.stream (rng.pos + 2) * rng.stream (rng.pos + 2))) * rng.stream (rng.pos + 1),
        s.origin.z + s.radius * (1 / sqrtf (rng.stream rng.pos * rng.stream rng.pos
            + rng.stream (rng.pos + 1) * rng.stream (rng.pos + 1)
            + rng.stream (rng.pos + 2) * rng.stream (rng.pos + 2))) * rng.stream (rng.pos + 2)⟩,
       ⟨1 / sqrtf (rng.stream rng.pos * rng.stream rng.pos
            + rng.stream (rng.pos + 1) * rng.stream (rng.pos + 1)
            + rng.stream (rng.pos + 2) * rng.stream (rng.pos + 2)) * rng.stream rng.pos,
        1 / sqrtf (rng.stream rng.pos * rng.stream rng.pos
            + rng.stream (rng.pos + 1) * rng.stream (rng.pos + 1)
            + rng.stream (rng.pos + 2) * rng.stream (rng.pos + 2)) * rng.stream (rng.pos + 1),
        1 / sqrtf (rng.stream rng.pos * rng.stream rng.pos
            + rng.stream (rng.pos + 1) * rng.stream (rng.pos + 1)
            + rng.stream (rng.pos + 2) * rng.stream (rng.pos + 2)) * rng.stream (rng.pos + 2)⟩,
       ⟨rng.stream, rng.pos + 3⟩) := rfl

/-- In exact arithmetic: for a sphere with radius `r > 0`, when the three variates
`(x, y, z)` drawn from the randomness source are not all zero and `sqrtf` is exact
at `x² + y² + z²`, the unrounded `Sphere::samplePoint` returns a position at squared distance
`r²` from the centre (so at distance `r`, as `sqrtf` measures it when it is
exact at `r²`) and a normal with `dot(n, n) = 1` (so of length `1` when
`sqrtf 1 = 1`) that equals `(position - centre) / r`; the source has advanced
by three draws. -/
theorem samplePoint_on_sphere (sqrtf : ℚ → ℚ) (s : Sphere) (rng : Randomness)
    (hr : 0 < s.radius)
    (hnz : ¬ (rng.stream rng.pos = 0 ∧ rng.stream (rng.pos + 1) = 0 ∧
      rng.stream (rng.pos + 2) = 0))
    (hsq : sqrtf (rng.stream rng.pos * rng.stream rng.pos
            + rng.stream (rng.pos + 1) * rng.stream (rng.pos + 1)
            + rng.stream (rng.pos + 2) * rng.stream (rng.pos + 2))
          * sqrtf (rng.stream rng.pos * rng.stream rng.pos
            + rng.stream (rng.pos + 1) * rng.stream (rng.pos + 1)
            + rng.stream (rng.pos + 2) * rng.stream (rng.pos + 2))
        = rng.stream rng.pos * rng.stream rng.pos
            + rng.stream (rng.pos + 1) * rng.stream (rng.pos + 1)
            + rng.stream (rng.pos + 2) * rng.stream (rng.pos + 2)) :
    ((samplePoint sqrtf s rng).1 - s.origin).squaredNorm = s.radius * s.radius ∧
    (sqrtf (s.radius * s.radius) = s.radius →
      Vec.length sqrtf ((samplePoint sqrtf s rng).1 - s.origin) = s.radius) ∧
    (samplePoint sqrtf s rng).2.1.dot (samplePoint sqrtf s rng).2.1 = 1 ∧
    (sqrtf 1 = 1 → Vec.length sqrtf (samplePoint sqrtf s rng).2.1 = 1) ∧
    (samplePoint sqrtf s rng).2.1
      = ((samplePoint sqrtf s rng).1 - s.origin) * (1 / s.radius) ∧
    (samplePoint sqrtf s rng).2.2 = ⟨rng.stream, rng.pos + 3⟩ := by
  rw [samplePoint_eq]
  generalize rng.stream rng.pos = x at hnz hsq ⊢
  generalize rng.stream (rng.pos + 1) = y at hnz hsq ⊢
  generalize rng.stream (rng.pos + 2) = z at hnz hsq ⊢
  generalize sqrtf (x * x + y * y + z * z) = q at hsq ⊢
  have hq : 0 < x * x + y * y + z * z := by
    have h0 : 0 ≤ x * x + y * y + z * z := by
      nlinarith [mul_self_nonneg x, mul_self_nonneg y, mul_self_nonneg z]
    rcases h0.lt_or_eq with h | h
    · exact h
    · exfalso
      apply hnz
      have hx : x * x = 0 := by nlinarith [mul_self_nonneg x, mul_self_nonneg y, mul_self_nonneg z]
      have hy : y * y = 0 := by nlinarith [mul_self_nonneg x, mul_self_nonneg y, mul_self_nonneg z]
      have hz : z * z = 0 := by nlinarith [mul_self_nonneg x, mul_self_nonneg y, mul_self_nonneg z]
      exact ⟨mul_self_eq_zero.mp hx, mul_self_eq_zero.mp hy, mul_self_eq_zero.mp hz⟩
  have hq0 : q ≠ 0 := by
    intro h0
    rw [h0] at hsq
    linarith
  have hr0 : s.radius ≠ 0 := hr.ne'
  have hsqn : ((⟨s.origin.x + s.radius * (1 / q) * x, s.origin.y + s.radius * (1 / q) * y,
      s.origin.z + s.radius * (1 / q) * z⟩ : Vec) - s.origin).squaredNorm
      = s.radius * s.radius := by
    simp only [Vec.squaredNorm, Vec.dot, Vec.sub_def]
    field_simp
    linear_combination (s.radius * s.radius) * (-hsq)
  have hnn : (⟨1 / q * x, 1 / q * y, 1 / q * z⟩ : Vec).dot ⟨1 / q * x, 1 / q * y, 1 / q * z⟩
      = 1 := by
    simp only [Vec.dot]
    field_simp
    rw [← hsq]
  refine ⟨hsqn, ?_, hnn, ?_, ?_, rfl⟩
  · intro hexact
    have h2 := hsqn
    simp only [Vec.squaredNorm] at h2
    simp only [Vec.length]
    rw [h2, hexact]
  · intro h1
    simp only [Vec.length]
    rw [hnn, h1]
  · simp only [Vec.sub_def, Vec.scale_def, Vec.mk.injEq]
    refine ⟨?_, ?_, ?_⟩ <;> field_simp <;> ring

/-- An instance of `samplePoint_on_sphere`: the sphere with centre `(1,2,3)` and radius `2`, and a
source whose next three variates are `3, 4, 0`; the position is
`(11/5, 18/5, 3)` and the normal `(3/5, 4/5, 0)`. -/
theorem samplePoint_on_sphere_witness :
    sqrtfQ ((3 : ℚ) * 3 + 4 * 4 + 0 * 0) * sqrtfQ ((3 : ℚ) * 3 + 4 * 4 + 0 * 0)
      = (3 : ℚ) * 3 + 4 * 4 + 0 * 0 ∧
    (samplePoint sqrtfQ ⟨⟨1, 2, 3⟩, 2⟩
        ⟨fun n => if n = 0 then 3 else if n = 1 then 4 else 0, 0⟩).1 = ⟨11 / 5, 18 / 5, 3⟩ ∧
    (samplePoint sqrtfQ ⟨⟨1, 2, 3⟩, 2⟩
        ⟨fun n => if n = 0 then 3 else if n = 1 then 4 else 0, 0⟩).2.1 = ⟨3 / 5, 4 / 5, 0⟩ ∧
    ((samplePoint sqrtfQ ⟨⟨1, 2, 3⟩, 2⟩
        ⟨fun n => if n = 0 then 3 else if n = 1 then 4 else 0, 0⟩).1
      - (⟨1, 2, 3⟩ : Vec)).squaredNorm = 2 * 2 := by
  have hsq : sqrtfQ ((3 : ℚ) * 3 + 4 * 4 + 0 * 0) = 5 := by
    norm_num [sqrtfQ_twentyfive]
  have key := samplePoint_on_sphere sqrtfQ ⟨⟨1, 2, 3⟩, 2⟩
    ⟨fun n => if n = 0 then 3 else if n = 1 then 4 else 0, 0⟩ (by norm_num) (by norm_num)
    (by norm_num [sqrtfQ_twentyfive])
  refine ⟨by rw [hsq]; norm_num, ?_, ?_, key.1⟩
  · rw [samplePoint_eq]
    norm_num [sqrtfQ_twentyfive]
  · rw [samplePoint_eq]
    norm_num [sqrtfQ_twentyfive]

/-- C9: `Sphere::area()` returns `4 π r²` for every sphere of radius `r`, and
`16 π` for radius `2`; `PI` is the value of the constant `math::PI`. -/
theorem area_eq (PI : ℚ) :
    (∀ s : Sphere, s.area PI = 4 * PI * s.radius ^ 2) ∧
    (∀ o : Vec, area PI ⟨o, 2⟩ = 16 * PI) := by
  constructor
  · intro s
    unfold area
    ring
  · intro o
    unfold area
    ring

end geoms.Sphere

namespace materials

/-- C10: `emitter::propagate` returns a light ray whose origin and direction are
the zero vector, so that `isZeroLength()` holds (given `sqrtf 0 = 0`), and whose
colour is the component-wise product of the incoming colour and the emitter's
colour; any other call with the same incoming colour, whatever its
intersection, randomness source, origin and direction, returns the same ray. -/
theorem emitter_propagate_spec (sqrtf : ℚ → ℚ) (e : emitter) (incoming : lightray)
    (isect : intersection) (rng : randomness) (h0 : sqrtf 0 = 0) :
    (e.propagate incoming isect rng).origin = ⟨0, 0, 0⟩ ∧
    (e.propagate incoming isect rng).direction = ⟨0, 0, 0⟩ ∧
    (e.propagate incoming isect rng).isZeroLength sqrtf = true ∧
    (e.propagate incoming isect rng).color
      = ⟨incoming.color.x * e.color.x, incoming.color.y * e.color.y,
          incoming.color.z * e.color.z⟩ ∧
    (∀ (incoming2 : lightray) (isect2 : intersection) (rng2 : randomness),
      incoming2.color = incoming.color →
        e.propagate incoming2 isect2 rng2 = e.propagate incoming isect rng) := by
  refine ⟨rfl, rfl, ?_, rfl, ?_⟩
  · have := math.epsilon_pos
    simp [lightray.isZeroLength, emitter.propagate, Vec.length, Vec.dot, h0,
      math.isNearlyZero, this]
  · intro incoming2 isect2 rng2 hc
    simp [emitter.propagate, hc]

/-- Witness for C10: incoming colour `(1,1,1)` and emitter colour
`(0.2, 0.4, 0.6)` give outgoing colour `(0.2, 0.4, 0.6)` on a zero-length ray. -/
theorem emitter_propagate_spec_witness :
    sqrtfQ 0 = 0 ∧
    emitter.propagate ⟨⟨1 / 5, 2 / 5, 3 / 5⟩⟩ ⟨⟨⟨7, 8, 9⟩, ⟨0, 0, 1⟩⟩, ⟨1, 1, 1⟩⟩
        intersection.empty ⟨fun _ => 0, 0⟩
      = ⟨⟨⟨0, 0, 0⟩, ⟨0, 0, 0⟩⟩, ⟨1 / 5, 2 / 5, 3 / 5⟩⟩ ∧
    (emitter.propagate ⟨⟨1 / 5, 2 / 5, 3 / 5⟩⟩ ⟨⟨⟨7, 8, 9⟩, ⟨0, 0, 1⟩⟩, ⟨1, 1, 1⟩⟩
        intersection.empty ⟨fun _ => 0, 0⟩).isZeroLength sqrtfQ = true := by
  have key := emitter_propagate_spec sqrtfQ ⟨⟨1 / 5, 2 / 5, 3 / 5⟩⟩
    ⟨⟨⟨7, 8, 9⟩, ⟨0, 0, 1⟩⟩, ⟨1, 1, 1⟩⟩ intersection.empty ⟨fun _ => 0, 0⟩ sqrtfQ_zero
  refine ⟨sqrtfQ_zero, ?_, key.2.2.1⟩
  norm_num [emitter.propagate, Vec.cwiseProduct]

end materials

/-! ## Claims about the discriminant test, the shadow test, the epsilon predicates and the plane -/

namespace geoms.Sphere

/-- C18: whenever `intersectShadow(ray, maxDist)` returns true, `intersect(ray)`
reports a hit whose distance `d` has `maxDist - d > epsilon`, hence
`d < maxDist`; and when the near candidate `resNeg` passes `isPositive`, the
shadow test is passed by that near candidate (`maxDist - resNeg > epsilon`), so
the far candidate alone never makes it true. -/
theorem intersectShadow_implies_intersect_closer (sqrtf : ℚ → ℚ) (s : Sphere) (r : Ray)
    (maxDist : ℚ) (hs : 0 ≤ sqrtf (discriminant s r))
    (h : intersectShadow sqrtf s r maxDist = true) :
    (∃ i, intersect sqrtf s r = some i ∧ maxDist - i.distance > math.epsilon ∧
      i.distance < maxDist) ∧
    (math.isPositive (resNeg sqrtf s r) = true →
      math.isPositive (maxDist - resNeg sqrtf s r) = true) := by
  have hle := resNeg_le_resPos sqrtf s r hs
  have heps := math.epsilon_pos
  rw [sphere_intersectShadow_eq] at h
  rw [sphere_intersect_eq]
  by_cases h1 : discriminant s r > 0
  · simp only [h1, if_true] at h ⊢
    by_cases h2 : math.isPositive (resNeg sqrtf s r) = true
    · have h3 : math.isPositive (maxDist - resNeg sqrtf s r) = true := by
        by_contra hneg
        have hf : math.isPositive (maxDist - resNeg sqrtf s r) = false := by simpa using hneg
        have hle2 : maxDist - resNeg sqrtf s r ≤ math.epsilon :=
          (math.isPositive_eq_false_iff _).mp hf
        have hf2 : math.isPositive (maxDist - resPos sqrtf s r) = false := by
          rw [math.isPositive_eq_false_iff]; linarith
        simp [h2, hf, hf2] at h
      have h3b : math.epsilon < maxDist - resNeg sqrtf s r := (math.isPositive_iff _).mp h3
      refine ⟨⟨_, by rw [if_pos h2], ?_, ?_⟩, fun _ => h3⟩
      · simpa [Intersection.make] using h3b
      · simp only [Intersection.make]; linarith
    · have h2f : math.isPositive (resNeg sqrtf s r) = false := by simpa using h2
      simp only [h2f, Bool.false_and, Bool.false_eq_true, if_false] at h ⊢
      by_cases h4 : math.isPositive (resPos sqrtf s r) = true
      · have h5 : math.isPositive (maxDist - resPos sqrtf s r) = true := by
          by_contra hneg
          have hf : math.isPositive (maxDist - resPos sqrtf s r) = false := by simpa using hneg
          simp [h4, hf] at h
        have h5b : math.epsilon < maxDist - resPos sqrtf s r := (math.isPositive_iff _).mp h5
        refine ⟨⟨_, by rw [if_pos h4], ?_, ?_⟩, fun hc => by cases hc⟩
        · simpa [Intersection.make] using h5b
        · simp only [Intersection.make]; linarith
      · have h4f : math.isPositive (resPos sqrtf s r) = false := by simpa using h4
        simp [h4f] at h
  · simp [h1] at h

end geoms.Sphere

namespace geoms.Sphere

/-- Witness for C18: the unit sphere at the origin, the ray from `(0,0,-2)`
along `(0,0,1)` and `maxDist = 2`: the shadow test is true and `intersect`
reports distance `1`, with `2 - 1 > epsilon`. -/
theorem intersectShadow_implies_intersect_closer_witness :
    0 ≤ sqrtfQ (discriminant ⟨⟨0, 0, 0⟩, 1⟩ ⟨⟨0, 0, -2⟩, ⟨0, 0, 1⟩⟩) ∧
    intersectShadow sqrtfQ ⟨⟨0, 0, 0⟩, 1⟩ ⟨⟨0, 0, -2⟩, ⟨0, 0, 1⟩⟩ 2 = true ∧
    (∃ i, intersect sqrtfQ ⟨⟨0, 0, 0⟩, 1⟩ ⟨⟨0, 0, -2⟩, ⟨0, 0, 1⟩⟩ = some i ∧
      2 - i.distance > math.epsilon ∧ i.distance < 2) := by
  have hd : discriminant ⟨⟨0, 0, 0⟩, 1⟩ ⟨⟨0, 0, -2⟩, ⟨0, 0, 1⟩⟩ = 1 := by
    norm_num [discriminant, quadA, quadB, quadC, Vec.dot, Vec.sub_def]
  have hn : resNeg sqrtfQ ⟨⟨0, 0, 0⟩, 1⟩ ⟨⟨0, 0, -2⟩, ⟨0, 0, 1⟩⟩ = 1 := by
    rw [resNeg, hd, sqrtfQ_one]
    norm_num [quadB, Vec.dot, Vec.sub_def]
  have hsh : intersectShadow sqrtfQ ⟨⟨0, 0, 0⟩, 1⟩ ⟨⟨0, 0, -2⟩, ⟨0, 0, 1⟩⟩ 2 = true := by
    rw [sphere_intersectShadow_eq, hd, hn]
    norm_num [math.isPositive, math.epsilon]
  exact ⟨sqrtfQ_nonneg _, hsh,
    (intersectShadow_implies_intersect_closer sqrtfQ _ _ 2 (sqrtfQ_nonneg _) hsh).1⟩

end geoms.Sphere

namespace math

/-- C20 (counterexample): `x = epsilon` has `|x| ≤ epsilon`, yet
`isNearlyZero(x)` is false, because the comparison `fabsf(x) < epsilon` is
strict. -/
theorem isNearlyZero_epsilon_false :
    |epsilon| ≤ epsilon ∧ isNearlyZero epsilon = false ∧ isPositive epsilon = false := by
  have h := epsilon_pos
  refine ⟨by rw [abs_of_pos h], ?_, ?_⟩
  · simp [isNearlyZero, abs_of_pos h]
  · simp [isPositive]

/-- C20 (as amended): every `x` with `|x| < epsilon` has `isNearlyZero(x)` true,
and every `x` with `|x| ≤ epsilon` has `isPositive(x)` false; `isPositive(x)` and
`isNearlyZero(x)` are never both true; and `isPositive(x)` implies
`isPositive(y)` for every `y ≥ x`. -/
theorem epsilon_predicates (x y : ℚ) :
    (|x| < epsilon → isNearlyZero x = true) ∧
    (|x| ≤ epsilon → isPositive x = false) ∧
    ¬ (isPositive x = true ∧ isNearlyZero x = true) ∧
    (isPositive x = true → x ≤ y → isPositive y = true) := by
  refine ⟨fun h => (isNearlyZero_iff x).mpr h, ?_, ?_, ?_⟩
  · intro h
    rw [isPositive_eq_false_iff]
    exact le_trans (le_abs_self x) h
  · rintro ⟨hp, hz⟩
    rw [isPositive_iff] at hp
    rw [isNearlyZero_iff] at hz
    have := le_abs_self x
    linarith
  · intro hp hxy
    rw [isPositive_iff] at hp ⊢
    linarith

/-- Witness for C20 (as amended): `x = 2⁻²⁴` is nearly zero and not positive;
`x = 1` is positive, and so is `y = 2`. -/
theorem epsilon_predicates_witness :
    |(1 / 16777216 : ℚ)| < epsilon ∧
    isNearlyZero (1 / 16777216) = true ∧ isPositive (1 / 16777216) = false ∧
    isPositive 1 = true ∧ (1 : ℚ) ≤ 2 ∧ isPositive 2 = true := by
  have hlt : |(1 / 16777216 : ℚ)| < epsilon := by
    rw [abs_of_pos (by norm_num)]
    norm_num [epsilon]
  have h1 : isPositive 1 = true := by norm_num [isPositive, epsilon]
  have ka := epsilon_predicates (1 / 16777216) 0
  have kb := epsilon_predicates 1 2
  exact ⟨hlt, ka.1 hlt, ka.2.1 hlt.le, h1, by norm_num, kb.2.2.2 h1 (by norm_num)⟩

end math

namespace geoms

/-- C16 (counterexample): the plane through the origin with normal `(0,1,0)`
and the ray from `(0,5,0)` with the non-unit direction `(0,-2,0)`.  The ray
parameter is `t = -5 / -2 = 5/2`, and `ray.at(5/2)` is the origin; the plane
reports position `(0,0,0)` but distance `5`. -/
theorem plane_distance_not_ray_parameter :
    Vec.dot ((⟨0, 0, 0⟩ : Vec) - ⟨0, 5, 0⟩) ⟨0, 1, 0⟩ / Vec.dot (⟨0, -2, 0⟩ : Vec) ⟨0, 1, 0⟩
      = 5 / 2 ∧
    ray.at_ ⟨⟨0, 5, 0⟩, ⟨0, -2, 0⟩⟩ (5 / 2) = ⟨0, 0, 0⟩ ∧
    plane.intersect sqrtfQ ⟨⟨0, 0, 0⟩, ⟨0, 1, 0⟩, ⟨0, 0, -1⟩, ⟨-1, 0, 0⟩⟩
        ⟨⟨0, 5, 0⟩, ⟨0, -2, 0⟩⟩
      = ⟨⟨0, 0, 0⟩, ⟨0, 1, 0⟩, ⟨0, 0, -1⟩, ⟨-1, 0, 0⟩, 5⟩ ∧
    (plane.intersect sqrtfQ ⟨⟨0, 0, 0⟩, ⟨0, 1, 0⟩, ⟨0, 0, -1⟩, ⟨-1, 0, 0⟩⟩
        ⟨⟨0, 5, 0⟩, ⟨0, -2, 0⟩⟩).hit = true ∧
    (plane.intersect sqrtfQ ⟨⟨0, 0, 0⟩, ⟨0, 1, 0⟩, ⟨0, 0, -1⟩, ⟨-1, 0, 0⟩⟩
        ⟨⟨0, 5, 0⟩, ⟨0, -2, 0⟩⟩).distance
      ≠ Vec.dot ((⟨0, 0, 0⟩ : Vec) - ⟨0, 5, 0⟩) ⟨0, 1, 0⟩
          / Vec.dot (⟨0, -2, 0⟩ : Vec) ⟨0, 1, 0⟩ := by
  have ht : Vec.dot ((⟨0, 0, 0⟩ : Vec) - ⟨0, 5, 0⟩) ⟨0, 1, 0⟩
      / Vec.dot (⟨0, -2, 0⟩ : Vec) ⟨0, 1, 0⟩ = 5 / 2 := by
    norm_num [Vec.dot, Vec.sub_def]
  have hplane : plane.intersect sqrtfQ ⟨⟨0, 0, 0⟩, ⟨0, 1, 0⟩, ⟨0, 0, -1⟩, ⟨-1, 0, 0⟩⟩
      ⟨⟨0, 5, 0⟩, ⟨0, -2, 0⟩⟩ = ⟨⟨0, 0, 0⟩, ⟨0, 1, 0⟩, ⟨0, 0, -1⟩, ⟨-1, 0, 0⟩, 5⟩ := by
    norm_num [plane.intersect, ray.unit, math.isPositive, math.epsilon, intersection.make,
      ray.at_, Vec.normalize, Vec.dot, Vec.sub_def, Vec.add_def, Vec.scale_def, sqrtfQ_one,
      sqrtfQ_four]
  refine ⟨ht, ?_, hplane, ?_, ?_⟩
  · norm_num [ray.at_, Vec.add_def, Vec.scale_def]
  · rw [hplane]; norm_num [intersection.hit]
  · rw [hplane, ht]; norm_num

end geoms

/-! ## Claims about the disc copy -/

namespace geoms

/-- What the copy agrees on: `intersect` on a copy returns the same boolean, and
on a hit the same position, normal and distance, as on the original; the frame
vectors of the record are those of the copy. -/
theorem disc.copy_intersect (sqrtf : ℚ → ℚ) (dc : disc) (tangent0 binormal0 : Vec) (r : ray) :
    (dc.copy tangent0 binormal0).intersect sqrtf r
      = (dc.intersect sqrtf r).map
          (fun i => { i with tangent := tangent0, binormal := binormal0 }) := by
  rw [disc_intersect_eq, disc_intersect_eq]
  have h1 : disc.denom (dc.copy tangent0 binormal0) r = disc.denom dc r := rfl
  have h2 : disc.param (dc.copy tangent0 binormal0) r = disc.param dc r := rfl
  rw [h1, h2]
  simp only [disc.copy]
  split_ifs <;> simp [intersection.make]

/-- C13 (evaluation at the failing input): the disc built by
`disc(m, (0,0,0), (0,1,0), 1)` has tangent `(0,0,-1)` and binormal `(-1,0,0)`.
The copy constructor initialises neither member; with both left as the zero
vector, the ray from `(0,5,0)` along `(0,-1,0)` gives the same position,
normal and distance on the copy but tangent and binormal `(0,0,0)`, and
`bounds()` of the copy is the single point `(0,0,0)` while `bounds()` of the
original is the box from `(-1,0,-1)` to `(1,0,1)`.  Whatever the two members
hold, they are not taken from the original. -/
theorem disc_copy_drops_frame :
    (disc.make sqrtfQ ⟨0, 0, 0⟩ ⟨0, 1, 0⟩ 1).intersect sqrtfQ ⟨⟨0, 5, 0⟩, ⟨0, -1, 0⟩⟩
      = some ⟨⟨0, 0, 0⟩, ⟨0, 1, 0⟩, ⟨0, 0, -1⟩, ⟨-1, 0, 0⟩, 5⟩ ∧
    ((disc.make sqrtfQ ⟨0, 0, 0⟩ ⟨0, 1, 0⟩ 1).copy ⟨0, 0, 0⟩ ⟨0, 0, 0⟩).intersect sqrtfQ
        ⟨⟨0, 5, 0⟩, ⟨0, -1, 0⟩⟩
      = some ⟨⟨0, 0, 0⟩, ⟨0, 1, 0⟩, ⟨0, 0, 0⟩, ⟨0, 0, 0⟩, 5⟩ ∧
    (disc.make sqrtfQ ⟨0, 0, 0⟩ ⟨0, 1, 0⟩ 1).bounds = ⟨⟨-1, 0, -1⟩, ⟨1, 0, 1⟩⟩ ∧
    ((disc.make sqrtfQ ⟨0, 0, 0⟩ ⟨0, 1, 0⟩ 1).copy ⟨0, 0, 0⟩ ⟨0, 0, 0⟩).bounds
      = ⟨⟨0, 0, 0⟩, ⟨0, 0, 0⟩⟩ ∧
    (∀ (dc : disc) (tangent0 binormal0 : Vec),
      (dc.copy tangent0 binormal0).tangent = tangent0 ∧
      (dc.copy tangent0 binormal0).binormal = binormal0) := by
  have horig : (disc.make sqrtfQ ⟨0, 0, 0⟩ ⟨0, 1, 0⟩ 1).intersect sqrtfQ
      ⟨⟨0, 5, 0⟩, ⟨0, -1, 0⟩⟩
      = some ⟨⟨0, 0, 0⟩, ⟨0, 1, 0⟩, ⟨0, 0, -1⟩, ⟨-1, 0, 0⟩, 5⟩ := by
    rw [disc.make_unit_up]
    norm_num [disc.intersect, math.isPositive, math.epsilon, intersection.make, ray.at_,
      Vec.normalize, Vec.squaredNorm, Vec.dot, Vec.sub_def, Vec.add_def, Vec.scale_def,
      sqrtfQ_one]
  refine ⟨horig, ?_, ?_, ?_, fun _ _ _ => ⟨rfl, rfl⟩⟩
  · rw [disc.copy_intersect, horig]
    rfl
  · rw [disc.make_unit_up]
    norm_num [disc.bounds, bbox.make, bbox.expand, Vec.cwiseMin, Vec.cwiseMax, Vec.sub_def,
      Vec.add_def, Vec.scale_def]
  · rw [disc.make_unit_up]
    norm_num [disc.copy, disc.bounds, bbox.make, bbox.expand, Vec.cwiseMin, Vec.cwiseMax,
      Vec.sub_def, Vec.add_def, Vec.scale_def]

end geoms

/-! ## `coordSystem` and `uniformSampleHemisphere` in exact arithmetic -/

namespace Vec

/-- For a unit vector `n` and a unit vector `t` orthogonal to it, `b = n × t` is
a unit vector orthogonal to both, and the three form a complete orthonormal
frame: in every coordinate the squares of their components sum to `1`. -/
theorem cross_frame (n t : Vec) (hn : n.dot n = 1) (ht : t.dot t = 1) (hnt : n.dot t = 0) :
    (cross n t).dot (cross n t) = 1 ∧ t.dot (cross n t) = 0 ∧ (cross n t).dot n = 0 ∧
    t.x * t.x + (cross n t).x * (cross n t).x + n.x * n.x = 1 ∧
    t.y * t.y + (cross n t).y * (cross n t).y + n.y * n.y = 1 ∧
    t.z * t.z + (cross n t).z * (cross n t).z + n.z * n.z = 1 := by
  simp only [dot, cross] at *
  refine ⟨?_, ?_, ?_, ?_, ?_, ?_⟩
  · linear_combination (n.x * n.x + n.y * n.y + n.z * n.z) * ht + hn
      - (n.x * t.x + n.y * t.y + n.z * t.z) * hnt
  · ring
  · ring
  · linear_combination (n.x * n.x + n.y * n.y + n.z * n.z) * ht + hn - t.x * t.x * hn
      - n.x * n.x * ht + (2 * n.x * t.x - (n.x * t.x + n.y * t.y + n.z * t.z)) * hnt
  · linear_combination (n.x * n.x + n.y * n.y + n.z * n.z) * ht + hn - t.y * t.y * hn
      - n.y * n.y * ht + (2 * n.y * t.y - (n.x * t.x + n.y * t.y + n.z * t.z)) * hnt
  · linear_combination (n.x * n.x + n.y * n.y + n.z * n.z) * ht + hn - t.z * t.z * hn
      - n.z * n.z * ht + (2 * n.z * t.z - (n.x * t.x + n.y * t.y + n.z * t.z)) * hnt

end Vec

namespace math

/-- The second component of `coordSystem` is the cross product of the input and
the first component. -/
theorem coordSystem_snd (sqrtf : ℚ → ℚ) (v1 : Vec) :
    (coordSystem sqrtf v1).2 = Vec.cross v1 (coordSystem sqrtf v1).1 := rfl

/-- The first component of `coordSystem`, in terms of the argument it passes to `sqrtf`. -/
theorem coordSystem_fst (sqrtf : ℚ → ℚ) (v1 : Vec) :
    (coordSystem sqrtf v1).1 =
      if |v1.x| > |v1.y| then
        ⟨-v1.z * (1 / sqrtf (coordSystemArg v1)), 0, v1.x * (1 / sqrtf (coordSystemArg v1))⟩
      else
        ⟨0, v1.z * (1 / sqrtf (coordSystemArg v1)), -v1.y * (1 / sqrtf (coordSystemArg v1))⟩ := by
  unfold coordSystem coordSystemArg
  split_ifs <;> rfl

/-- For a unit vector the argument of the square root in `coordSystem` is positive. -/
theorem coordSystemArg_pos (v1 : Vec) (hn : v1.dot v1 = 1) : 0 < coordSystemArg v1 := by
  unfold coordSystemArg
  simp only [Vec.dot] at hn
  split_ifs with h
  · have hx : v1.x ≠ 0 := by
      intro h0
      rw [h0, abs_zero] at h
      exact absurd h (not_lt.mpr (abs_nonneg _))
    have : 0 < v1.x * v1.x := mul_self_pos.mpr hx
    nlinarith [mul_self_nonneg v1.z]
  · have hle : |v1.x| ≤ |v1.y| := not_lt.mp h
    have hsq : v1.x * v1.x ≤ v1.y * v1.y := by
      have := mul_self_le_mul_self (abs_nonneg v1.x) hle
      rwa [abs_mul_abs_self, abs_mul_abs_self] at this
    nlinarith [mul_self_nonneg v1.z, mul_self_nonneg v1.y]

/-- The frame of `coordSystem`: for a unit input and a square root that is exact
at the one argument used, the divisor is not zero and the two outputs, with the
input, form a complete orthonormal frame. -/
theorem coordSystem_frame (sqrtf : ℚ → ℚ) (v1 : Vec) (hn : v1.dot v1 = 1)
    (hsq : sqrtf (coordSystemArg v1) * sqrtf (coordSystemArg v1) = coordSystemArg v1) :
    sqrtf (coordSystemArg v1) ≠ 0 ∧
    (coordSystem sqrtf v1).1.dot (coordSystem sqrtf v1).1 = 1 ∧
    v1.dot (coordSystem sqrtf v1).1 = 0 ∧
    (coordSystem sqrtf v1).2.dot (coordSystem sqrtf v1).2 = 1 ∧
    (coordSystem sqrtf v1).1.dot (coordSystem sqrtf v1).2 = 0 ∧
    (coordSystem sqrtf v1).2.dot v1 = 0 ∧
    (coordSystem sqrtf v1).1.x * (coordSystem sqrtf v1).1.x
      + (coordSystem sqrtf v1).2.x * (coordSystem sqrtf v1).2.x + v1.x * v1.x = 1 ∧
    (coordSystem sqrtf v1).1.y * (coordSystem sqrtf v1).1.y
      + (coordSystem sqrtf v1).2.y * (coordSystem sqrtf v1).2.y + v1.y * v1.y = 1 ∧
    (coordSystem sqrtf v1).1.z * (coordSystem sqrtf v1).1.z
      + (coordSystem sqrtf v1).2.z * (coordSystem sqrtf v1).2.z + v1.z * v1.z = 1 := by
  have hpos := coordSystemArg_pos v1 hn
  have hL : sqrtf (coordSystemArg v1) ≠ 0 := by
    intro h0
    rw [h0] at hsq
    linarith
  have ht : (coordSystem sqrtf v1).1.dot (coordSystem sqrtf v1).1 = 1 ∧
      v1.dot (coordSystem sqrtf v1).1 = 0 := by
    rw [coordSystem_fst]
    generalize sqrtf (coordSystemArg v1) = L at hsq hL
    unfold coordSystemArg at hsq
    split_ifs at hsq ⊢ with h
    · simp only [Vec.dot]
      constructor
      · field_simp
        linear_combination -hsq
      · field_simp
        ring
    · simp only [Vec.dot]
      constructor
      · field_simp
        linear_combination -hsq
      · field_simp
        ring
  rw [coordSystem_snd]
  obtain ⟨h1, h2, h3, h4, h5, h6⟩ := Vec.cross_frame v1 _ hn ht.1 ht.2
  exact ⟨hL, ht.1, ht.2, h1, h2, h3, h4, h5, h6⟩

end math

/-- A sum of three squares is positive unless all three numbers are zero. -/
theorem sum_sq_pos (x y z : ℚ) (hnz : ¬ (x = 0 ∧ y = 0 ∧ z = 0)) :
    0 < x * x + y * y + z * z := by
  have h0 : 0 ≤ x * x + y * y + z * z := by
    nlinarith [mul_self_nonneg x, mul_self_nonneg y, mul_self_nonneg z]
  rcases h0.lt_or_eq with h | h
  · exact h
  · exfalso
    apply hnz
    have hx : x * x = 0 := by
      nlinarith [mul_self_nonneg x, mul_self_nonneg y, mul_self_nonneg z]
    have hy : y * y = 0 := by
      nlinarith [mul_self_nonneg x, mul_self_nonneg y, mul_self_nonneg z]
    have hz : z * z = 0 := by
      nlinarith [mul_self_nonneg x, mul_self_nonneg y, mul_self_nonneg z]
    exact ⟨mul_self_eq_zero.mp hx, mul_self_eq_zero.mp hy, mul_self_eq_zero.mp hz⟩

namespace math

/-- In exact arithmetic: for a unit-length input `n` (and a square root that is
exact at the one argument `coordSystem` passes to it), the unrounded
`coordSystem` does not divide by zero and
returns `v2`, `v3` with `dot(v2, v2) = dot(v3, v3) = 1` (so of length `1` when
`sqrtf 1 = 1`), orthogonal to each other and each orthogonal to `n`. -/
theorem coordSystem_orthonormal (sqrtf : ℚ → ℚ) (n : Vec) (hn : n.dot n = 1)
    (hsq : sqrtf (coordSystemArg n) * sqrtf (coordSystemArg n) = coordSystemArg n) :
    sqrtf (coordSystemArg n) ≠ 0 ∧
    (coordSystem sqrtf n).1.dot (coordSystem sqrtf n).1 = 1 ∧
    (coordSystem sqrtf n).2.dot (coordSystem sqrtf n).2 = 1 ∧
    (sqrtf 1 = 1 → Vec.length sqrtf (coordSystem sqrtf n).1 = 1 ∧
      Vec.length sqrtf (coordSystem sqrtf n).2 = 1) ∧
    (coordSystem sqrtf n).1.dot (coordSystem sqrtf n).2 = 0 ∧
    (coordSystem sqrtf n).1.dot n = 0 ∧
    (coordSystem sqrtf n).2.dot n = 0 := by
  obtain ⟨hL, h1, h2, h3, h4, h5, _, _, _⟩ := coordSystem_frame sqrtf n hn hsq
  refine ⟨hL, h1, h3, ?_, h4, ?_, h5⟩
  · intro hone
    unfold Vec.length
    rw [h1, h3]
    exact ⟨hone, hone⟩
  · rw [← h2]
    simp only [Vec.dot]
    ring

/-- Instances of `coordSystem_orthonormal`: the axis-aligned unit normals.  `(1,0,0)` gives
`v2 = (0,0,1)`, `v3 = (0,-1,0)`; `(0,1,0)` gives `v2 = (0,0,-1)`,
`v3 = (-1,0,0)`; `(0,0,1)` gives `v2 = (0,1,0)`, `v3 = (-1,0,0)`; and the
non-axis normal `(3/5, 4/5, 0)` gives `v2 = (0,0,-1)`, `v3 = (-4/5, 3/5, 0)`. -/
theorem coordSystem_orthonormal_witness :
    coordSystem sqrtfQ ⟨1, 0, 0⟩ = (⟨0, 0, 1⟩, ⟨0, -1, 0⟩) ∧
    coordSystem sqrtfQ ⟨0, 1, 0⟩ = (⟨0, 0, -1⟩, ⟨-1, 0, 0⟩) ∧
    coordSystem sqrtfQ ⟨0, 0, 1⟩ = (⟨0, 1, 0⟩, ⟨-1, 0, 0⟩) ∧
    coordSystem sqrtfQ ⟨3 / 5, 4 / 5, 0⟩ = (⟨0, 0, -1⟩, ⟨-4 / 5, 3 / 5, 0⟩) ∧
    sqrtfQ (coordSystemArg ⟨1, 0, 0⟩) ≠ 0 ∧
    sqrtfQ (coordSystemArg ⟨0, 1, 0⟩) ≠ 0 ∧
    sqrtfQ (coordSystemArg ⟨0, 0, 1⟩) ≠ 0 ∧
    (coordSystem sqrtfQ ⟨3 / 5, 4 / 5, 0⟩).1.dot (coordSystem sqrtfQ ⟨3 / 5, 4 / 5, 0⟩).2 = 0 := by
  have hroot : sqrtfQ (16 / 25) = 4 / 5 := by
    have h := sqrtfQ_mul_self (4 / 5) (by norm_num)
    norm_num at h
    exact h
  have a1 : coordSystemArg ⟨1, 0, 0⟩ = 1 := by norm_num [coordSystemArg]
  have a2 : coordSystemArg ⟨0, 1, 0⟩ = 1 := by norm_num [coordSystemArg]
  have a3 : coordSystemArg ⟨0, 0, 1⟩ = 1 := by norm_num [coordSystemArg]
  have a4 : coordSystemArg ⟨3 / 5, 4 / 5, 0⟩ = 16 / 25 := by
    have habs : ¬ (|(3 / 5 : ℚ)| > |(4 / 5 : ℚ)|) := by
      rw [abs_of_pos (by norm_num), abs_of_pos (by norm_num)]
      norm_num
    simp only [coordSystemArg, habs, if_false]
    norm_num
  have k1 := coordSystem_orthonormal sqrtfQ ⟨1, 0, 0⟩ (by norm_num [Vec.dot])
    (by rw [a1, sqrtfQ_one]; norm_num)
  have k2 := coordSystem_orthonormal sqrtfQ ⟨0, 1, 0⟩ (by norm_num [Vec.dot])
    (by rw [a2, sqrtfQ_one]; norm_num)
  have k3 := coordSystem_orthonormal sqrtfQ ⟨0, 0, 1⟩ (by norm_num [Vec.dot])
    (by rw [a3, sqrtfQ_one]; norm_num)
  have k4 := coordSystem_orthonormal sqrtfQ ⟨3 / 5, 4 / 5, 0⟩ (by norm_num [Vec.dot])
    (by rw [a4, hroot]; norm_num)
  refine ⟨?_, ?_, ?_, ?_, k1.1, k2.1, k3.1, k4.2.2.2.2.1⟩
  · norm_num [coordSystem, Vec.cross, sqrtfQ_one]
  · norm_num [coordSystem, Vec.cross, sqrtfQ_one]
  · norm_num [coordSystem, Vec.cross, sqrtfQ_one]
  · have habs : ¬ (|(3 / 5 : ℚ)| > |(4 / 5 : ℚ)|) := by
      rw [abs_of_pos (by norm_num), abs_of_pos (by norm_num)]
      norm_num
    simp only [coordSystem, habs, if_false]
    norm_num [Vec.cross, hroot]

/-- The three draws of `uniformSampleHemisphere` are the next three variates of
the stream. -/
theorem uniformSampleHemisphere_eq (sqrtf : ℚ → ℚ) (normal : Vec) (rng : randomness) :
    uniformSampleHemisphere sqrtf normal rng =
      ((normal * |rng.stream rng.pos * (1 / sqrtf (rng.stream rng.pos * rng.stream rng.pos
            + rng.stream (rng.pos + 1) * rng.stream (rng.pos + 1)
            + rng.stream (rng.pos + 2) * rng.stream (rng.pos + 2)))|)
        + ((coordSystem sqrtf normal).1 * (rng.stream (rng.pos + 1)
            * (1 / sqrtf (rng.stream rng.pos * rng.stream rng.pos
            + rng.stream (rng.pos + 1) * rng.stream (rng.pos + 1)
            + rng.stream (rng.pos + 2) * rng.stream (rng.pos + 2)))))
        + ((coordSystem sqrtf normal).2 * (rng.stream (rng.pos + 2)
            * (1 / sqrtf (rng.stream rng.pos * rng.stream rng.pos
            + rng.stream (rng.pos + 1) * rng.stream (rng.pos + 1)
            + rng.stream (rng.pos + 2) * rng.stream (rng.pos + 2))))),
       ⟨rng.stream, rng.pos + 3⟩) := rfl

/-- In an orthonormal frame the combination `n y1 + t y2 + b y3` has squared
norm `y1² + y2² + y3²` and component `y1` along `n`. -/
theorem frame_combination (n t b : Vec) (y1 y2 y3 : ℚ) (hn : n.dot n = 1) (ht : t.dot t = 1)
    (hb : b.dot b = 1) (hnt : n.dot t = 0) (htb : t.dot b = 0) (hbn : b.dot n = 0) :
    ((n * y1) + (t * y2) + (b * y3)).dot ((n * y1) + (t * y2) + (b * y3))
      = y1 * y1 + y2 * y2 + y3 * y3 ∧
    ((n * y1) + (t * y2) + (b * y3)).dot n = y1 := by
  simp only [Vec.dot, Vec.add_def, Vec.scale_def] at *
  constructor
  · linear_combination (y1 * y1) * hn + (y2 * y2) * ht + (y3 * y3) * hb + (2 * y1 * y2) * hnt
      + (2 * y2 * y3) * htb + (2 * y1 * y3) * hbn
  · linear_combination y1 * hn + y2 * hnt + y3 * hbn

/-- In exact arithmetic: for a unit-length normal `n` and three variates
`(x1, x2, x3)` that are not all zero (with `sqrtf` exact and non-negative at
`x1² + x2² + x3²` and exact at the argument `coordSystem` uses), the unrounded
`uniformSampleHemisphere` returns a
direction `u` with `dot(u, u) = 1` (so of length `1` when `sqrtf 1 = 1`) whose
dot product with `n` is `|x1| / sqrt(x1² + x2² + x3²)`, hence non-negative; the
source has advanced by three draws. -/
theorem uniformSampleHemisphere_spec (sqrtf : ℚ → ℚ) (n : Vec) (rng : randomness)
    (hn : n.dot n = 1)
    (hnz : ¬ (rng.stream rng.pos = 0 ∧ rng.stream (rng.pos + 1) = 0 ∧
      rng.stream (rng.pos + 2) = 0))
    (hsq : sqrtf (rng.stream rng.pos * rng.stream rng.pos
            + rng.stream (rng.pos + 1) * rng.stream (rng.pos + 1)
            + rng.stream (rng.pos + 2) * rng.stream (rng.pos + 2))
          * sqrtf (rng.stream rng.pos * rng.stream rng.pos
            + rng.stream (rng.pos + 1) * rng.stream (rng.pos + 1)
            + rng.stream (rng.pos + 2) * rng.stream (rng.pos + 2))
        = rng.stream rng.pos * rng.stream rng.pos
            + rng.stream (rng.pos + 1) * rng.stream (rng.pos + 1)
            + rng.stream (rng.pos + 2) * rng.stream (rng.pos + 2))
    (hw : 0 ≤ sqrtf (rng.stream rng.pos * rng.stream rng.pos
            + rng.stream (rng.pos + 1) * rng.stream (rng.pos + 1)
            + rng.stream (rng.pos + 2) * rng.stream (rng.pos + 2)))
    (hframe : sqrtf (coordSystemArg n) * sqrtf (coordSystemArg n) = coordSystemArg n) :
    (uniformSampleHemisphere sqrtf n rng).1.dot (uniformSampleHemisphere sqrtf n rng).1 = 1 ∧
    (sqrtf 1 = 1 → Vec.length sqrtf (uniformSampleHemisphere sqrtf n rng).1 = 1) ∧
    (uniformSampleHemisphere sqrtf n rng).1.dot n
      = |rng.stream rng.pos| / sqrtf (rng.stream rng.pos * rng.stream rng.pos
            + rng.stream (rng.pos + 1) * rng.stream (rng.pos + 1)
            + rng.stream (rng.pos + 2) * rng.stream (rng.pos + 2)) ∧
    0 ≤ (uniformSampleHemisphere sqrtf n rng).1.dot n ∧
    (uniformSampleHemisphere sqrtf n rng).2 = ⟨rng.stream, rng.pos + 3⟩ := by
  obtain ⟨_, ht, hnt, hb, htb, hbn, _, _, _⟩ := coordSystem_frame sqrtf n hn hframe
  rw [uniformSampleHemisphere_eq]
  generalize rng.stream rng.pos = x1 at hnz hsq hw ⊢
  generalize rng.stream (rng.pos + 1) = x2 at hnz hsq hw ⊢
  generalize rng.stream (rng.pos + 2) = x3 at hnz hsq hw ⊢
  generalize sqrtf (x1 * x1 + x2 * x2 + x3 * x3) = w at hsq hw ⊢
  have hq : 0 < x1 * x1 + x2 * x2 + x3 * x3 := sum_sq_pos x1 x2 x3 hnz
  have hw0 : w ≠ 0 := by
    intro h0
    rw [h0] at hsq
    linarith
  have hwpos : 0 < w := lt_of_le_of_ne hw (Ne.symm hw0)
  obtain ⟨hnorm, hdot⟩ := frame_combination n (coordSystem sqrtf n).1 (coordSystem sqrtf n).2
    |x1 * (1 / w)| (x2 * (1 / w)) (x3 * (1 / w)) hn ht hb hnt htb hbn
  have hy1 : |x1 * (1 / w)| = |x1| / w := by
    rw [abs_mul, abs_of_pos (one_div_pos.mpr hwpos)]
    ring
  have hone : |x1 * (1 / w)| * |x1 * (1 / w)| + x2 * (1 / w) * (x2 * (1 / w))
      + x3 * (1 / w) * (x3 * (1 / w)) = 1 := by
    rw [abs_mul_abs_self]
    field_simp
    linear_combination -hsq
  have hu : ((n * |x1 * (1 / w)|) + ((coordSystem sqrtf n).1 * (x2 * (1 / w)))
      + ((coordSystem sqrtf n).2 * (x3 * (1 / w)))).dot
        ((n * |x1 * (1 / w)|) + ((coordSystem sqrtf n).1 * (x2 * (1 / w)))
      + ((coordSystem sqrtf n).2 * (x3 * (1 / w)))) = 1 := by
    rw [hnorm, hone]
  refine ⟨hu, ?_, ?_, ?_, rfl⟩
  · intro h1
    simp only [Vec.length]
    rw [hu, h1]
  · simp only []
    rw [hdot, hy1]
  · simp only []
    rw [hdot]
    exact abs_nonneg _

/-- An instance of `uniformSampleHemisphere_spec`: normal `(0,1,0)` and a source whose
next three variates are
`-3, 4, 0`: the direction is `(0, 3/5, -4/5)`, of unit length, with
`dot(direction, normal) = 3/5 = |-3| / 5`. -/
theorem uniformSampleHemisphere_spec_witness :
    (uniformSampleHemisphere sqrtfQ ⟨0, 1, 0⟩
      ⟨fun k => if k = 0 then -3 else if k = 1 then 4 else 0, 0⟩).1 = ⟨0, 3 / 5, -4 / 5⟩ ∧
    (uniformSampleHemisphere sqrtfQ ⟨0, 1, 0⟩
      ⟨fun k => if k = 0 then -3 else if k = 1 then 4 else 0, 0⟩).1.dot
      (uniformSampleHemisphere sqrtfQ ⟨0, 1, 0⟩
        ⟨fun k => if k = 0 then -3 else if k = 1 then 4 else 0, 0⟩).1 = 1 ∧
    (uniformSampleHemisphere sqrtfQ ⟨0, 1, 0⟩
      ⟨fun k => if k = 0 then -3 else if k = 1 then 4 else 0, 0⟩).1.dot ⟨0, 1, 0⟩ = 3 / 5 := by
  have a2 : coordSystemArg ⟨0, 1, 0⟩ = 1 := by norm_num [coordSystemArg]
  have key := uniformSampleHemisphere_spec sqrtfQ ⟨0, 1, 0⟩
    ⟨fun k => if k = 0 then -3 else if k = 1 then 4 else 0, 0⟩ (by norm_num [Vec.dot])
    (by norm_num) (by norm_num [sqrtfQ_twentyfive]) (sqrtfQ_nonneg _)
    (by rw [a2, sqrtfQ_one]; norm_num)
  have hval : (uniformSampleHemisphere sqrtfQ ⟨0, 1, 0⟩
      ⟨fun k => if k = 0 then -3 else if k = 1 then 4 else 0, 0⟩).1 = ⟨0, 3 / 5, -4 / 5⟩ := by
    rw [uniformSampleHemisphere_eq]
    norm_num [coordSystem, Vec.cross, Vec.add_def, Vec.scale_def, sqrtfQ_one,
      sqrtfQ_twentyfive]
  refine ⟨hval, key.1, ?_⟩
  rw [hval]
  norm_num [Vec.dot]

end math

/-! ## Moving the ray origin, in exact arithmetic -/

namespace geoms.Sphere

theorem quadA_movedBack (sp : Sphere) (r : Ray) (s : ℚ) :
    quadA sp (r.movedBack s) = quadA sp r := rfl

theorem quadB_movedBack (sp : Sphere) (r : Ray) (s : ℚ) :
    quadB sp (r.movedBack s) = quadB sp r - s * quadA sp r := by
  simp only [quadB, quadA, ray.movedBack, Vec.dot, Vec.sub_def, Vec.scale_def]
  ring

theorem quadC_movedBack (sp : Sphere) (r : Ray) (s : ℚ) :
    quadC sp (r.movedBack s) = quadC sp r - 2 * s * quadB sp r + s * s * quadA sp r := by
  simp only [quadC, quadB, quadA, ray.movedBack, Vec.dot, Vec.sub_def, Vec.scale_def]
  ring

/-- Moving the origin along the direction leaves the discriminant unchanged. -/
theorem discriminant_movedBack (sp : Sphere) (r : Ray) (s : ℚ) :
    discriminant sp (r.movedBack s) = discriminant sp r := by
  unfold discriminant
  rw [quadA_movedBack, quadB_movedBack, quadC_movedBack]
  ring

end geoms.Sphere

/-! ## Rounded arithmetic: evaluating `fl32` and `sqrt32` -/

theorem fl32_zero : fl32 0 = 0 := by simp [fl32]

theorem ulpExp_neg (x : ℚ) : ulpExp (-x) = ulpExp x := by
  simp [ulpExp]

theorem fl32_neg (x : ℚ) : fl32 (-x) = -fl32 x := by
  unfold fl32
  rw [ulpExp_neg, abs_neg]
  rcases lt_trichotomy x 0 with h | h | h
  · have h1 : ¬ (-x = 0) := by intro h0; linarith [neg_eq_zero.mp h0]
    have h2 : ¬ (x = 0) := ne_of_lt h
    have h3 : ¬ (-x < 0) := by linarith
    simp only [h1, h2, h3, h, if_false, if_true, neg_neg]
  · simp [h]
  · have h1 : ¬ (-x = 0) := by intro h0; linarith [neg_eq_zero.mp h0]
    have h2 : ¬ (x = 0) := ne_of_gt h
    have h3 : -x < 0 := by linarith
    have h4 : ¬ (x < 0) := not_lt.mpr h.le
    simp only [h1, h2, h3, h4, if_false, if_true]

/-- On positive arguments `fl32` is the rounded multiple of the unit in the last place. -/
theorem fl32_of_pos (x : ℚ) (hx : 0 < x) :
    fl32 x = (roundHalfEven (x / (2 : ℚ) ^ ulpExp x) : ℚ) * (2 : ℚ) ^ ulpExp x := by
  unfold fl32
  rw [if_neg (ne_of_gt hx), if_neg (not_lt.mpr hx.le), abs_of_pos hx]

/-- The binade of a positive rational: `⌊log₂ x⌋ = k` when `2 ^ k ≤ x < 2 ^ (k + 1)`. -/
theorem int_log_two_eq (x : ℚ) (k : ℤ) (hx : 0 < x) (h1 : (2 : ℚ) ^ k ≤ x)
    (h2 : x < (2 : ℚ) ^ (k + 1)) : Int.log 2 x = k := by
  have hb : 1 < (2 : ℕ) := by norm_num
  apply le_antisymm
  · have := (Int.lt_zpow_iff_log_lt hb hx (x := k + 1)).mp (by exact_mod_cast h2)
    omega
  · exact (Int.zpow_le_iff_le_log hb hx).mp (by exact_mod_cast h1)

theorem ulpExp_eq_of (x : ℚ) (e : ℤ) (hx : 0 < x) (he : -149 ≤ e)
    (hlo : (2 : ℚ) ^ (23 + e) ≤ x) (hhi : x < (2 : ℚ) ^ (24 + e)) : ulpExp x = e := by
  have hlog : Int.log 2 |x| = 23 + e := by
    rw [abs_of_pos hx]
    exact int_log_two_eq x (23 + e) hx hlo (by rw [show 23 + e + 1 = 24 + e by ring]; exact hhi)
  unfold ulpExp
  rw [hlog, show 23 + e - 23 = e by ring]
  exact max_eq_left he

/-- Away from a tie, `roundHalfEven q` is the integer within `1/2` of `q`. -/
theorem roundHalfEven_eq_of (q : ℚ) (m : ℤ) (h1 : (m : ℚ) - 1 / 2 < q) (h2 : q < (m : ℚ) + 1 / 2) :
    roundHalfEven q = m := by
  unfold roundHalfEven
  by_cases hcase : (m : ℚ) ≤ q
  · have hf : ⌊q⌋ = m := by
      rw [Int.floor_eq_iff]
      exact ⟨hcase, by linarith⟩
    rw [hf]
    have : q - (m : ℚ) < 1 / 2 := by linarith
    rw [if_pos this]
  · have hlt : q < (m : ℚ) := not_le.mp hcase
    have hf : ⌊q⌋ = m - 1 := by
      rw [Int.floor_eq_iff]
      push_cast
      exact ⟨by linarith, by linarith⟩
    rw [hf]
    push_cast
    have hn : ¬ (q - ((m : ℚ) - 1) < 1 / 2) := by
      intro h; linarith
    have hy : 1 / 2 < q - ((m : ℚ) - 1) := by linarith
    rw [if_neg hn, if_pos hy]
    ring

/-- At a tie, `roundHalfEven` takes the even neighbour. -/
theorem roundHalfEven_tie (f : ℤ) : roundHalfEven ((f : ℚ) + 1 / 2) = f + f % 2 := by
  unfold roundHalfEven
  have hf : ⌊(f : ℚ) + 1 / 2⌋ = f := by
    rw [Int.floor_eq_iff]
    constructor <;> linarith
  rw [hf]
  have hn1 : ¬ ((f : ℚ) + 1 / 2 - (f : ℚ) < 1 / 2) := by
    intro h; linarith
  have hn2 : ¬ (1 / 2 < (f : ℚ) + 1 / 2 - (f : ℚ)) := by
    intro h; linarith
  rw [if_neg hn1, if_neg hn2]
  by_cases hpar : f % 2 = 0
  · rw [if_pos hpar, hpar]
    simp
  · rw [if_neg hpar]
    have : f % 2 = 1 := by omega
    rw [this]

/-- Certificate for one rounding: `x > 0` lies in the binade whose unit of the
last place is `2 ^ e`, and `m` is the integer nearest to `x / 2 ^ e`, with no tie. -/
theorem fl32_eq_of (x : ℚ) (m e : ℤ) (hx : 0 < x) (he : -149 ≤ e)
    (hlo : (2 : ℚ) ^ (23 + e) ≤ x) (hhi : x < (2 : ℚ) ^ (24 + e))
    (h1 : (2 * (m : ℚ) - 1) * (2 : ℚ) ^ e < 2 * x)
    (h2 : 2 * x < (2 * (m : ℚ) + 1) * (2 : ℚ) ^ e) : fl32 x = (m : ℚ) * (2 : ℚ) ^ e := by
  have hp : (0 : ℚ) < (2 : ℚ) ^ e := zpow_pos (by norm_num) e
  have hq1 : (m : ℚ) - 1 / 2 < x / (2 : ℚ) ^ e := by
    rw [lt_div_iff₀ hp]; linarith
  have hq2 : x / (2 : ℚ) ^ e < (m : ℚ) + 1 / 2 := by
    rw [div_lt_iff₀ hp]; linarith
  rw [fl32_of_pos x hx, ulpExp_eq_of x e hx he hlo hhi, roundHalfEven_eq_of _ m hq1 hq2]

/-- Certificate for one rounding at a tie: `x > 0` is half-way between `f * 2 ^ e`
and `(f + 1) * 2 ^ e`, and the even one of `f` and `f + 1` is taken. -/
theorem fl32_eq_of_tie (x : ℚ) (f m e : ℤ) (hx : 0 < x) (he : -149 ≤ e)
    (hlo : (2 : ℚ) ^ (23 + e) ≤ x) (hhi : x < (2 : ℚ) ^ (24 + e))
    (h1 : 2 * x = (2 * (f : ℚ) + 1) * (2 : ℚ) ^ e) (hm : m = f + f % 2) :
    fl32 x = (m : ℚ) * (2 : ℚ) ^ e := by
  have hp : (0 : ℚ) < (2 : ℚ) ^ e := zpow_pos (by norm_num) e
  have hq : x / (2 : ℚ) ^ e = (f : ℚ) + 1 / 2 := by
    rw [div_eq_iff hp.ne']
    linarith
  rw [fl32_of_pos x hx, ulpExp_eq_of x e hx he hlo hhi, hq, roundHalfEven_tie, hm]

/-- Certificate for one square root: `r` is the integer root of `x * 4 ^ 200`
and `y` is the rounding of `r / 2 ^ 200`. -/
theorem sqrt32_eq_of (x : ℚ) (r : ℕ) (y : ℚ) (h1 : ((r : ℚ)) * r ≤ x * 4 ^ 200)
    (h2 : x * 4 ^ 200 < ((r : ℚ) + 1) * (r + 1)) (h3 : fl32 ((r : ℚ) / 2 ^ 200) = y) :
    sqrt32 x = y := by
  have h0 : (0 : ℚ) ≤ x * 4 ^ 200 := le_trans (mul_nonneg (Nat.cast_nonneg r) (Nat.cast_nonneg r)) h1
  have hr : Nat.sqrt ⌊x * 4 ^ 200⌋₊ = r := by
    symm
    rw [Nat.eq_sqrt]
    constructor
    · rw [Nat.le_floor_iff h0]
      push_cast
      exact h1
    · rw [Nat.floor_lt h0]
      push_cast
      exact h2
  unfold sqrt32
  rw [hr, h3]

theorem fl32_one : fl32 1 = 1 := by
  have h := fl32_eq_of 1 8388608 (-23) (by norm_num) (by norm_num) (by norm_num) (by norm_num)
    (by norm_num) (by norm_num)
  rw [h]
  norm_num

theorem sqrt32_one : sqrt32 1 = 1 := by
  apply sqrt32_eq_of 1 (2 ^ 200) 1
  · norm_num
  · norm_num
  · norm_num [fl32_one]

/-! ### `fl32` is monotone -/

/-- An integer below `q` is below its rounding. -/
theorem le_roundHalfEven (q : ℚ) (k : ℤ) (h : (k : ℚ) ≤ q) : k ≤ roundHalfEven q := by
  have hk : k ≤ ⌊q⌋ := Int.le_floor.mpr h
  unfold roundHalfEven
  split_ifs <;> omega

/-- An integer above `q` is above its rounding. -/
theorem roundHalfEven_le (q : ℚ) (k : ℤ) (h : q ≤ (k : ℚ)) : roundHalfEven q ≤ k := by
  rcases eq_or_lt_of_le h with heq | hlt
  · have hf : ⌊q⌋ = k := by rw [heq]; exact Int.floor_intCast k
    unfold roundHalfEven
    rw [hf, heq]
    simp
  · have hk : ⌊q⌋ + 1 ≤ k := by
      have : ⌊q⌋ < k := Int.floor_lt.mpr hlt
      omega
    unfold roundHalfEven
    split_ifs <;> omega

theorem roundHalfEven_mono (q q' : ℚ) (h : q ≤ q') : roundHalfEven q ≤ roundHalfEven q' := by
  have hfl : ⌊q⌋ ≤ ⌊q'⌋ := Int.floor_mono h
  rcases eq_or_lt_of_le hfl with heq | hlt
  · unfold roundHalfEven
    rw [← heq]
    split_ifs with h1 h2 h3 h4 h5 h6 h7 h8 h9 <;> first | omega | (exfalso; linarith)
  · have h1 : roundHalfEven q ≤ ⌊q⌋ + 1 := by
      unfold roundHalfEven
      split_ifs <;> omega
    have h2 : ⌊q'⌋ ≤ roundHalfEven q' := by
      unfold roundHalfEven
      split_ifs <;> omega
    omega

theorem fl32_nonneg_of_pos (x : ℚ) (hx : 0 < x) : 0 ≤ fl32 x := by
  rw [fl32_of_pos x hx]
  have hp : (0 : ℚ) < (2 : ℚ) ^ ulpExp x := zpow_pos (by norm_num) _
  have hq : ((0 : ℤ) : ℚ) ≤ x / (2 : ℚ) ^ ulpExp x := by
    push_cast
    exact (div_pos hx hp).le
  have := le_roundHalfEven _ 0 hq
  have h2 : (0 : ℚ) ≤ (roundHalfEven (x / (2 : ℚ) ^ ulpExp x) : ℚ) := by exact_mod_cast this
  exact mul_nonneg h2 hp.le

theorem ulpExp_mono (x y : ℚ) (hx : 0 < x) (h : x ≤ y) : ulpExp x ≤ ulpExp y := by
  unfold ulpExp
  rw [abs_of_pos hx, abs_of_pos (lt_of_lt_of_le hx h)]
  have := Int.log_mono_right (b := 2) hx h
  exact max_le_max (by omega) le_rfl

/-- A positive `x` is below the top of its binade. -/
theorem lt_zpow_ulpExp (x : ℚ) (hx : 0 < x) : x < (2 : ℚ) ^ (24 + ulpExp x) := by
  have h1 : x < ((2 : ℕ) : ℚ) ^ (Int.log 2 x + 1) := Int.lt_zpow_succ_log_self (by norm_num) x
  have h2 : Int.log 2 x + 1 ≤ 24 + ulpExp x := by
    unfold ulpExp
    rw [abs_of_pos hx]
    have := le_max_left (Int.log 2 x - 23) (-149)
    omega
  have h3 : ((2 : ℕ) : ℚ) ^ (Int.log 2 x + 1) ≤ (2 : ℚ) ^ (24 + ulpExp x) := by
    push_cast
    exact zpow_le_zpow_right₀ (by norm_num) h2
  exact lt_of_lt_of_le h1 h3

/-- Above the subnormal range a positive `x` is above the bottom of its binade. -/
theorem zpow_ulpExp_le (x : ℚ) (hx : 0 < x) (he : -149 < ulpExp x) :
    (2 : ℚ) ^ (23 + ulpExp x) ≤ x := by
  have h1 : ((2 : ℕ) : ℚ) ^ (Int.log 2 x) ≤ x := Int.zpow_log_le_self (by norm_num) hx
  have h2 : ulpExp x = Int.log 2 x - 23 := by
    unfold ulpExp at he ⊢
    rw [abs_of_pos hx] at he ⊢
    rcases max_cases (Int.log 2 x - 23) (-149) with ⟨h, _⟩ | ⟨h, _⟩
    · exact h
    · rw [h] at he
      exact absurd he (lt_irrefl _)
  rw [h2, show 23 + (Int.log 2 x - 23) = Int.log 2 x by ring]
  push_cast at h1
  exact h1

theorem fl32_mono_pos (x y : ℚ) (hx : 0 < x) (h : x ≤ y) : fl32 x ≤ fl32 y := by
  have hy : 0 < y := lt_of_lt_of_le hx h
  have hpx : (0 : ℚ) < (2 : ℚ) ^ ulpExp x := zpow_pos (by norm_num) _
  have hpy : (0 : ℚ) < (2 : ℚ) ^ ulpExp y := zpow_pos (by norm_num) _
  rcases eq_or_lt_of_le (ulpExp_mono x y hx h) with heq | hlt
  · rw [fl32_of_pos x hx, fl32_of_pos y hy, ← heq]
    apply mul_le_mul_of_nonneg_right _ hpx.le
    have hq : x / (2 : ℚ) ^ ulpExp x ≤ y / (2 : ℚ) ^ ulpExp x :=
      div_le_div_of_nonneg_right h hpx.le
    exact_mod_cast roundHalfEven_mono _ _ hq
  · have hxe : -149 ≤ ulpExp x := le_max_right _ _
    -- the rounding of `x` stays within the binade of `x`
    have hux : fl32 x ≤ (2 : ℚ) ^ (24 + ulpExp x) := by
      rw [fl32_of_pos x hx]
      have hq : x / (2 : ℚ) ^ ulpExp x ≤ (((2 : ℤ) ^ 24 : ℤ) : ℚ) := by
        rw [div_le_iff₀ hpx]
        have := lt_zpow_ulpExp x hx
        rw [zpow_add₀ (by norm_num : (2 : ℚ) ≠ 0)] at this
        push_cast
        have h24 : (2 : ℚ) ^ (24 : ℤ) = 2 ^ 24 := by norm_num
        rw [h24] at this
        exact this.le
      have hr := roundHalfEven_le _ _ hq
      have hr2 : (roundHalfEven (x / (2 : ℚ) ^ ulpExp x) : ℚ) ≤ (2 : ℚ) ^ (24 : ℤ) := by
        have : (roundHalfEven (x / (2 : ℚ) ^ ulpExp x) : ℚ) ≤ (((2 : ℤ) ^ 24 : ℤ) : ℚ) := by
          exact_mod_cast hr
        refine le_trans this ?_
        norm_num
      rw [zpow_add₀ (by norm_num : (2 : ℚ) ≠ 0)]
      exact mul_le_mul_of_nonneg_right hr2 hpx.le
    -- the rounding of `y` stays within the binade of `y`
    have hly : (2 : ℚ) ^ (23 + ulpExp y) ≤ fl32 y := by
      rw [fl32_of_pos y hy]
      have hq : (((2 : ℤ) ^ 23 : ℤ) : ℚ) ≤ y / (2 : ℚ) ^ ulpExp y := by
        rw [le_div_iff₀ hpy]
        have := zpow_ulpExp_le y hy (by omega)
        rw [zpow_add₀ (by norm_num : (2 : ℚ) ≠ 0)] at this
        push_cast
        have h23 : (2 : ℚ) ^ (23 : ℤ) = 2 ^ 23 := by norm_num
        rw [h23] at this
        exact this
      have hr := le_roundHalfEven _ _ hq
      have hr2 : (2 : ℚ) ^ (23 : ℤ) ≤ (roundHalfEven (y / (2 : ℚ) ^ ulpExp y) : ℚ) := by
        have : (((2 : ℤ) ^ 23 : ℤ) : ℚ) ≤ (roundHalfEven (y / (2 : ℚ) ^ ulpExp y) : ℚ) := by
          exact_mod_cast hr
        refine le_trans ?_ this
        norm_num
      rw [zpow_add₀ (by norm_num : (2 : ℚ) ≠ 0)]
      exact mul_le_mul_of_nonneg_right hr2 hpy.le
    have hmid : (2 : ℚ) ^ (24 + ulpExp x) ≤ (2 : ℚ) ^ (23 + ulpExp y) :=
      zpow_le_zpow_right₀ (by norm_num) (by omega)
    exact le_trans hux (le_trans hmid hly)

/-- Rounding to binary32 preserves order. -/
theorem fl32_monotone : Monotone fl32 := by
  intro x y h
  rcases lt_trichotomy x 0 with hx | hx | hx
  · have hxn : fl32 x = -fl32 (-x) := by rw [fl32_neg, neg_neg]
    have h0 : 0 ≤ fl32 (-x) := fl32_nonneg_of_pos _ (by linarith)
    rcases lt_trichotomy y 0 with hy | hy | hy
    · have hyn : fl32 y = -fl32 (-y) := by rw [fl32_neg, neg_neg]
      have := fl32_mono_pos (-y) (-x) (by linarith) (by linarith)
      rw [hxn, hyn]
      linarith
    · rw [hy, fl32_zero, hxn]
      linarith
    · have := fl32_nonneg_of_pos y hy
      rw [hxn]
      linarith
  · rw [hx, fl32_zero]
    rcases eq_or_lt_of_le (hx ▸ h) with hy | hy
    · rw [← hy, fl32_zero]
    · exact fl32_nonneg_of_pos y hy
  · exact fl32_mono_pos x y hx h

/-! ### The smallest positive values of `fl32` and `sqrt32` -/

theorem fl32_nonneg (x : ℚ) (hx : 0 ≤ x) : 0 ≤ fl32 x := by
  have := fl32_monotone hx
  rwa [fl32_zero] at this

/-- A positive value below half the smallest positive binary32 value rounds to `0`. -/
theorem fl32_eq_zero_of_lt (x : ℚ) (hx : 0 < x) (h : x < (2 : ℚ) ^ (-150 : ℤ)) : fl32 x = 0 := by
  have hlog : Int.log 2 x < -150 :=
    (Int.lt_zpow_iff_log_lt (by norm_num) hx).mp (by exact_mod_cast h)
  have he : ulpExp x = -149 := by
    unfold ulpExp
    rw [abs_of_pos hx]
    exact max_eq_right (by omega)
  have hp : (0 : ℚ) < (2 : ℚ) ^ (-149 : ℤ) := zpow_pos (by norm_num) _
  have hq : x / (2 : ℚ) ^ (-149 : ℤ) < 1 / 2 := by
    rw [div_lt_iff₀ hp]
    refine lt_of_lt_of_le h ?_
    norm_num
  have hq0 : 0 < x / (2 : ℚ) ^ (-149 : ℤ) := div_pos hx hp
  rw [fl32_of_pos x hx, he, roundHalfEven_eq_of _ 0 (by push_cast; linarith) (by push_cast; linarith)]
  simp

theorem sqrt32_zero : sqrt32 0 = 0 := by
  simp [sqrt32, fl32_zero]

namespace geoms

/-- How `plane::intersect` decides, with rounding. -/
theorem plane_intersectFl_eq (fl sqrtf : ℚ → ℚ) (p : plane) (r : ray) :
    p.intersectFl fl sqrtf r
      = if plane.denomFl fl sqrtf p r ≠ 0 then
          if math.isPositive (plane.paramFl fl sqrtf p r) = true then
            intersection.makeFl fl sqrtf ((r.unitFl fl sqrtf).atFl fl (plane.paramFl fl sqrtf p r))
              p.normal p.tangent p.cotangent (plane.paramFl fl sqrtf p r)
          else intersection.empty
        else intersection.empty := rfl

/-- With `fl = id` the rounded `plane::intersect` is the exact one. -/
theorem plane_intersectFl_id (sqrtf : ℚ → ℚ) (p : plane) (r : ray) :
    p.intersectFl id sqrtf r = p.intersect sqrtf r := rfl

/-- With `fl = id` the rounded `disc::intersect` is the exact one. -/
theorem disc_intersectFl_id (sqrtf : ℚ → ℚ) (dc : disc) (r : ray) :
    dc.intersectFl id sqrtf r = dc.intersect sqrtf r := by
  simp only [disc.intersectFl, disc.intersect, Vec.dotFlE, Vec.dot, Vec.subFl, Vec.sub_def,
    ray.atFl, ray.at_, Vec.addFl, Vec.add_def, Vec.scaleFl, Vec.scale_def, Vec.squaredNormFl,
    Vec.squaredNorm, id, add_assoc]
  rfl

/-- C5 (counterexample, binary32): the plane built by `plane((0,0,0), (5,6,0))`
has the normal `n = (10740511 / 2^24, 6444307 / 2^23, 0)`.  The ray from
`(0,-1,0)` with direction `d = (n.y, -n.x, 0)` has `dot(d, n) = 0`, as computed
and exactly.  `unit()` rounds the direction to
`(1611077 / 2^21, -335641 / 2^19, 0)`, whose product with `n` is computed as
`2^-25`, not `0`; `plane::intersect` reports a hit, at distance `25777228`. -/
theorem plane_parallel_ray_hits :
    (plane.makeFl fl32 sqrt32 ⟨0, 0, 0⟩ ⟨5, 6, 0⟩).normal
      = ⟨10740511 / 16777216, 6444307 / 8388608, 0⟩ ∧
    Vec.dotFl fl32 ⟨6444307 / 8388608, -(10740511 / 16777216), 0⟩
      (plane.makeFl fl32 sqrt32 ⟨0, 0, 0⟩ ⟨5, 6, 0⟩).normal = 0 ∧
    Vec.dot ⟨6444307 / 8388608, -(10740511 / 16777216), 0⟩
      (plane.makeFl fl32 sqrt32 ⟨0, 0, 0⟩ ⟨5, 6, 0⟩).normal = 0 ∧
    plane.denomFl fl32 sqrt32 (plane.makeFl fl32 sqrt32 ⟨0, 0, 0⟩ ⟨5, 6, 0⟩)
      ⟨⟨0, -1, 0⟩, ⟨6444307 / 8388608, -(10740511 / 16777216), 0⟩⟩ = 1 / 33554432 ∧
    ((plane.makeFl fl32 sqrt32 ⟨0, 0, 0⟩ ⟨5, 6, 0⟩).intersectFl fl32 sqrt32
      ⟨⟨0, -1, 0⟩, ⟨6444307 / 8388608, -(10740511 / 16777216), 0⟩⟩).hit = true ∧
    ((plane.makeFl fl32 sqrt32 ⟨0, 0, 0⟩ ⟨5, 6, 0⟩).intersectFl fl32 sqrt32
      ⟨⟨0, -1, 0⟩, ⟨6444307 / 8388608, -(10740511 / 16777216), 0⟩⟩).distance = 25777228 ∧
    ((plane.makeFl fl32 sqrt32 ⟨0, 0, 0⟩ ⟨5, 6, 0⟩).intersectFl fl32 sqrt32
      ⟨⟨0, -1, 0⟩, ⟨6444307 / 8388608, -(10740511 / 16777216), 0⟩⟩)
      ≠ intersection.empty := by
  have f1 : fl32 (25) = 25 := by
    have h := fl32_eq_of (25) 13107200 (-19) (by norm_num) (by norm_num) (by norm_num)
      (by norm_num) (by norm_num) (by norm_num)
    rw [h]
    norm_num
  have f2 : fl32 (36) = 36 := by
    have h := fl32_eq_of (36) 9437184 (-18) (by norm_num) (by norm_num) (by norm_num)
      (by norm_num) (by norm_num) (by norm_num)
    rw [h]
    norm_num
  have f3 : fl32 (61) = 61 := by
    have h := fl32_eq_of (61) 15990784 (-18) (by norm_num) (by norm_num) (by norm_num)
      (by norm_num) (by norm_num) (by norm_num)
    rw [h]
    norm_num
  have f4 : sqrt32 (61) = 16379281 / 2097152 := by
    apply sqrt32_eq_of (61) 12550587339375851854301406287189932075669133063951677049275064 (16379281 / 2097152)
    · norm_num
    · norm_num
    · have h := fl32_eq_of ((12550587339375851854301406287189932075669133063951677049275064 : ℕ) / 2 ^ 200) 16379281 (-21) (by norm_num) (by norm_num)
        (by norm_num) (by norm_num) (by norm_num) (by norm_num)
      rw [h]
      norm_num
  have f5 : fl32 (2097152 / 16379281) = 8592409 / 67108864 := by
    have h := fl32_eq_of (2097152 / 16379281) 8592409 (-26) (by norm_num) (by norm_num) (by norm_num)
      (by norm_num) (by norm_num) (by norm_num)
    rw [h]
    norm_num
  have f6 : fl32 (42962045 / 67108864) = 10740511 / 16777216 := by
    have h := fl32_eq_of (42962045 / 67108864) 10740511 (-24) (by norm_num) (by norm_num) (by norm_num)
      (by norm_num) (by norm_num) (by norm_num)
    rw [h]
    norm_num
  have f7 : fl32 (25777227 / 33554432) = 6444307 / 8388608 := by
    have h := fl32_eq_of_tie (25777227 / 33554432) 12888613 12888614 (-24) (by norm_num) (by norm_num)
      (by norm_num) (by norm_num) (by norm_num) (by norm_num)
    rw [h]
    norm_num
  have f8 : fl32 (69215150220877 / 140737488355328) = 8251089 / 16777216 := by
    have h := fl32_eq_of (69215150220877 / 140737488355328) 16502178 (-25) (by norm_num) (by norm_num) (by norm_num)
      (by norm_num) (by norm_num) (by norm_num)
    rw [h]
    norm_num
  have f9 : fl32 (41529092710249 / 70368744177664) = 9901307 / 16777216 := by
    have h := fl32_eq_of (41529092710249 / 70368744177664) 9901307 (-24) (by norm_num) (by norm_num) (by norm_num)
      (by norm_num) (by norm_num) (by norm_num)
    rw [h]
    norm_num
  have f10 : fl32 (115358576541121 / 281474976710656) = 6875907 / 16777216 := by
    have h := fl32_eq_of (115358576541121 / 281474976710656) 13751814 (-25) (by norm_num) (by norm_num) (by norm_num)
      (by norm_num) (by norm_num) (by norm_num)
    rw [h]
    norm_num
  have f11 : fl32 (8388607 / 8388608) = 8388607 / 8388608 := by
    have h := fl32_eq_of (8388607 / 8388608) 16777214 (-24) (by norm_num) (by norm_num) (by norm_num)
      (by norm_num) (by norm_num) (by norm_num)
    rw [h]
    norm_num
  have f12 : sqrt32 (8388607 / 8388608) = 16777215 / 16777216 := by
    apply sqrt32_eq_of (8388607 / 8388608) 1606937948478016116928352891828574312764115950564240456154277 (16777215 / 16777216)
    · norm_num
    · norm_num
    · have h := fl32_eq_of ((1606937948478016116928352891828574312764115950564240456154277 : ℕ) / 2 ^ 200) 16777215 (-24) (by norm_num) (by norm_num)
        (by norm_num) (by norm_num) (by norm_num) (by norm_num)
      rw [h]
      norm_num
  have f13 : fl32 (16777216 / 16777215) = 8388609 / 8388608 := by
    have h := fl32_eq_of (16777216 / 16777215) 8388609 (-23) (by norm_num) (by norm_num) (by norm_num)
      (by norm_num) (by norm_num) (by norm_num)
    rw [h]
    norm_num
  have f14 : fl32 (54058771698963 / 70368744177664) = 1611077 / 2097152 := by
    have h := fl32_eq_of (54058771698963 / 70368744177664) 12888616 (-24) (by norm_num) (by norm_num) (by norm_num)
      (by norm_num) (by norm_num) (by norm_num)
    rw [h]
    norm_num
  have f15 : fl32 (90097947239199 / 140737488355328) = 335641 / 524288 := by
    have h := fl32_eq_of (90097947239199 / 140737488355328) 10740512 (-24) (by norm_num) (by norm_num) (by norm_num)
      (by norm_num) (by norm_num) (by norm_num)
    rw [h]
    norm_num
  have f16 : fl32 (17303790240347 / 35184372088832) = 4125545 / 8388608 := by
    have h := fl32_eq_of (17303790240347 / 35184372088832) 16502180 (-25) (by norm_num) (by norm_num) (by norm_num)
      (by norm_num) (by norm_num) (by norm_num)
    rw [h]
    norm_num
  have f17 : fl32 (2162973645787 / 4398046511104) = 16502179 / 33554432 := by
    have h := fl32_eq_of (2162973645787 / 4398046511104) 16502179 (-25) (by norm_num) (by norm_num) (by norm_num)
      (by norm_num) (by norm_num) (by norm_num)
    rw [h]
    norm_num
  have f18 : fl32 (1 / 33554432) = 1 / 33554432 := by
    have h := fl32_eq_of (1 / 33554432) 8388608 (-48) (by norm_num) (by norm_num) (by norm_num)
      (by norm_num) (by norm_num) (by norm_num)
    rw [h]
    norm_num
  have f20 : fl32 (6444307 / 8388608) = 6444307 / 8388608 := by
    have h := fl32_eq_of (6444307 / 8388608) 12888614 (-24) (by norm_num) (by norm_num) (by norm_num)
      (by norm_num) (by norm_num) (by norm_num)
    rw [h]
    norm_num
  have f21 : fl32 (25777228) = 25777228 := by
    have h := fl32_eq_of (25777228) 12888614 (1) (by norm_num) (by norm_num) (by norm_num)
      (by norm_num) (by norm_num) (by norm_num)
    rw [h]
    norm_num
  have hn : (plane.makeFl fl32 sqrt32 ⟨0, 0, 0⟩ ⟨5, 6, 0⟩).normal
      = ⟨10740511 / 16777216, 6444307 / 8388608, 0⟩ := by
    show Vec.normalizeFl fl32 sqrt32 ⟨5, 6, 0⟩ = _
    norm_num [Vec.normalizeFl, Vec.scaleFl, Vec.dotFl, fl32_zero, fl32_neg, fl32_one, f1, f2, f3, f4, f5, f6, f7, f8, f9, f10, f11, f12, f13, f14, f15, f16, f17, f18, f20, f21]
  have ho : (plane.makeFl fl32 sqrt32 ⟨0, 0, 0⟩ ⟨5, 6, 0⟩).origin = ⟨0, 0, 0⟩ := rfl
  have hden : plane.denomFl fl32 sqrt32 (plane.makeFl fl32 sqrt32 ⟨0, 0, 0⟩ ⟨5, 6, 0⟩)
      ⟨⟨0, -1, 0⟩, ⟨6444307 / 8388608, -(10740511 / 16777216), 0⟩⟩ = 1 / 33554432 := by
    rw [plane.denomFl, hn]
    norm_num [ray.unitFl, Vec.normalizeFl, Vec.scaleFl, Vec.dotFl, fl32_zero, fl32_neg,
      fl32_one, f1, f2, f3, f4, f5, f6, f7, f8, f9, f10, f11, f12, f13, f14, f15, f16, f17, f18, f20, f21]
  have hpar : plane.paramFl fl32 sqrt32 (plane.makeFl fl32 sqrt32 ⟨0, 0, 0⟩ ⟨5, 6, 0⟩)
      ⟨⟨0, -1, 0⟩, ⟨6444307 / 8388608, -(10740511 / 16777216), 0⟩⟩ = 25777228 := by
    rw [plane.paramFl, hden, hn, ho]
    norm_num [Vec.subFl, Vec.dotFl, fl32_zero, fl32_neg, fl32_one, f1, f2, f3, f4, f5, f6, f7, f8, f9, f10, f11, f12, f13, f14, f15, f16, f17, f18, f20, f21]
  have hres : (plane.makeFl fl32 sqrt32 ⟨0, 0, 0⟩ ⟨5, 6, 0⟩).intersectFl fl32 sqrt32
      ⟨⟨0, -1, 0⟩, ⟨6444307 / 8388608, -(10740511 / 16777216), 0⟩⟩
      = intersection.makeFl fl32 sqrt32
          ((ray.unitFl fl32 sqrt32
              ⟨⟨0, -1, 0⟩, ⟨6444307 / 8388608, -(10740511 / 16777216), 0⟩⟩).atFl fl32 25777228)
          (plane.makeFl fl32 sqrt32 ⟨0, 0, 0⟩ ⟨5, 6, 0⟩).normal
          (plane.makeFl fl32 sqrt32 ⟨0, 0, 0⟩ ⟨5, 6, 0⟩).tangent
          (plane.makeFl fl32 sqrt32 ⟨0, 0, 0⟩ ⟨5, 6, 0⟩).cotangent 25777228 := by
    rw [plane_intersectFl_eq, hden, hpar]
    norm_num [math.isPositive, math.epsilon]
  refine ⟨hn, ?_, ?_, hden, ?_, ?_, ?_⟩
  · rw [hn]
    norm_num [Vec.dotFl, fl32_zero, fl32_neg, fl32_one, f1, f2, f3, f4, f5, f6, f7, f8, f9, f10, f11, f12, f13, f14, f15, f16, f17, f18, f20, f21]
  · rw [hn]
    norm_num [Vec.dot]
  · rw [hres]
    norm_num [intersection.makeFl, intersection.hit]
  · rw [hres]
    rfl
  · rw [hres]
    intro h
    have hd := congrArg intersection.distance h
    norm_num [intersection.makeFl, intersection.empty] at hd

end geoms

namespace geoms

/-- A direction whose computed squared length is `1` is left unchanged by the
rounded `unit()`, for every rounding that keeps `1` and the components of the
direction and every square root with `sqrtf 1 = 1`. -/
theorem ray.unitFl_of_unit (fl sqrtf : ℚ → ℚ) (r : ray)
    (hd : Vec.dotFl fl r.direction r.direction = 1) (hs : sqrtf 1 = 1) (h1 : fl 1 = 1)
    (hx : fl r.direction.x = r.direction.x) (hy : fl r.direction.y = r.direction.y)
    (hz : fl r.direction.z = r.direction.z) : r.unitFl fl sqrtf = r := by
  simp only [ray.unitFl, Vec.normalizeFl, Vec.scaleFl, hd, hs, h1, div_one, mul_one, hx, hy, hz]

/-- C5 (as amended): with rounding `fl` and square root `sqrtf` of any kind,
`disc::intersect` returns false when the denominator it computes,
`dot(direction, normal)`, is `0`; `plane::intersect` returns the empty
intersection, whose `hit()` is false, when the denominator it computes,
`dot(ray.unit().direction, normal)`, is `0`; and for the plane that is the case
whenever `dot(direction, normal)` is computed as `0` and the direction has
unit length: `dot(direction, direction)` is computed as `1`, so that `unit()`
returns the direction unchanged. -/
theorem parallel_ray_misses (fl sqrtf : ℚ → ℚ) (dc : disc) (p : plane) (r : ray) :
    (Vec.dotFlE fl r.direction dc.normal = 0 → dc.intersectFl fl sqrtf r = none) ∧
    (Vec.dotFl fl (r.unitFl fl sqrtf).direction p.normal = 0 →
      p.intersectFl fl sqrtf r = intersection.empty ∧
      (p.intersectFl fl sqrtf r).hit = false) ∧
    (Vec.dotFl fl r.direction r.direction = 1 → sqrtf 1 = 1 → fl 1 = 1 →
      fl r.direction.x = r.direction.x → fl r.direction.y = r.direction.y →
      fl r.direction.z = r.direction.z →
      Vec.dotFl fl r.direction p.normal = 0 →
      p.intersectFl fl sqrtf r = intersection.empty ∧
      (p.intersectFl fl sqrtf r).hit = false) := by
  have hplane : plane.denomFl fl sqrtf p r = 0 →
      p.intersectFl fl sqrtf r = intersection.empty ∧
      (p.intersectFl fl sqrtf r).hit = false := by
    intro h
    have he : p.intersectFl fl sqrtf r = intersection.empty := by
      rw [plane_intersectFl_eq, h]
      simp
    exact ⟨he, by rw [he]; exact intersection.empty_hit⟩
  refine ⟨?_, hplane, ?_⟩
  · intro h
    simp [disc.intersectFl, h]
  · intro hd hs h1 hx hy hz h
    apply hplane
    rw [plane.denomFl, ray.unitFl_of_unit fl sqrtf r hd hs h1 hx hy hz]
    exact h

/-- Witness for C5 (as amended), in binary32: the disc and the plane through the
origin with normal `(0,1,0)` and the ray from `(0,1,0)` along `(1,0,0)`; both
denominators are computed as `0` and both report a miss. -/
theorem parallel_ray_misses_witness :
    Vec.dotFlE fl32 (⟨1, 0, 0⟩ : Vec) ⟨0, 1, 0⟩ = 0 ∧
    Vec.dotFl fl32 (⟨1, 0, 0⟩ : Vec) ⟨1, 0, 0⟩ = 1 ∧
    Vec.dotFl fl32 (⟨1, 0, 0⟩ : Vec) ⟨0, 1, 0⟩ = 0 ∧
    disc.intersectFl fl32 sqrt32 ⟨1, ⟨0, 0, 0⟩, ⟨0, 1, 0⟩, 1, ⟨0, 0, -1⟩, ⟨-1, 0, 0⟩⟩
      ⟨⟨0, 1, 0⟩, ⟨1, 0, 0⟩⟩ = none ∧
    plane.intersectFl fl32 sqrt32 ⟨⟨0, 0, 0⟩, ⟨0, 1, 0⟩, ⟨0, 0, -1⟩, ⟨-1, 0, 0⟩⟩
      ⟨⟨0, 1, 0⟩, ⟨1, 0, 0⟩⟩ = intersection.empty ∧
    (plane.intersectFl fl32 sqrt32 ⟨⟨0, 0, 0⟩, ⟨0, 1, 0⟩, ⟨0, 0, -1⟩, ⟨-1, 0, 0⟩⟩
      ⟨⟨0, 1, 0⟩, ⟨1, 0, 0⟩⟩).hit = false := by
  have key := parallel_ray_misses fl32 sqrt32
    ⟨1, ⟨0, 0, 0⟩, ⟨0, 1, 0⟩, 1, ⟨0, 0, -1⟩, ⟨-1, 0, 0⟩⟩
    ⟨⟨0, 0, 0⟩, ⟨0, 1, 0⟩, ⟨0, 0, -1⟩, ⟨-1, 0, 0⟩⟩ ⟨⟨0, 1, 0⟩, ⟨1, 0, 0⟩⟩
  have h1 : Vec.dotFlE fl32 (⟨1, 0, 0⟩ : Vec) ⟨0, 1, 0⟩ = 0 := by
    norm_num [Vec.dotFlE, fl32_zero]
  have h2 : Vec.dotFl fl32 (⟨1, 0, 0⟩ : Vec) ⟨1, 0, 0⟩ = 1 := by
    norm_num [Vec.dotFl, fl32_zero, fl32_one]
  have h3 : Vec.dotFl fl32 (⟨1, 0, 0⟩ : Vec) ⟨0, 1, 0⟩ = 0 := by
    norm_num [Vec.dotFl, fl32_zero]
  have hp := key.2.2 h2 sqrt32_one fl32_one fl32_one fl32_zero fl32_zero h3
  exact ⟨h1, h2, h3, key.1 h1, hp.1, hp.2⟩

end geoms

namespace geoms

/-- C16 (as amended): `plane::intersect` works on `ray.unit()`.  With rounding
`fl` and square root `sqrtf` of any kind, and
`t' = dot(origin - ray.origin, normal) / dot(ray.unit().direction, normal)` as
the code computes it: a hit is reported exactly when
`dot(ray.unit().direction, normal) != 0` and `t'` passes `isPositive`; on a hit
the reported distance is `t'` and the reported position is `ray.unit().at(t')`;
on a miss the result is the empty intersection, with distance `0`.  For a
direction of unit length (`dot(direction, direction)` is computed as `1`, so
that `unit()` returns the direction unchanged) `t'` is the ray parameter
`t = dot(origin - ray.origin, normal) / dot(ray.direction, normal)` and the
position is `ray.at(t)`. -/
theorem plane_intersect_spec (fl sqrtf : ℚ → ℚ) (p : plane) (r : ray) :
    ((p.intersectFl fl sqrtf r).hit = true ↔
      Vec.dotFl fl (r.unitFl fl sqrtf).direction p.normal ≠ 0 ∧
        math.isPositive (plane.paramFl fl sqrtf p r) = true) ∧
    ((p.intersectFl fl sqrtf r).hit = true →
      (p.intersectFl fl sqrtf r).distance = plane.paramFl fl sqrtf p r ∧
      (p.intersectFl fl sqrtf r).position
        = (r.unitFl fl sqrtf).atFl fl (plane.paramFl fl sqrtf p r)) ∧
    ((p.intersectFl fl sqrtf r).hit = false →
      p.intersectFl fl sqrtf r = intersection.empty ∧
      (p.intersectFl fl sqrtf r).distance = 0) ∧
    (Vec.dotFl fl r.direction r.direction = 1 → sqrtf 1 = 1 → fl 1 = 1 →
      fl r.direction.x = r.direction.x → fl r.direction.y = r.direction.y →
      fl r.direction.z = r.direction.z →
      plane.paramFl fl sqrtf p r
        = fl (Vec.dotFl fl (Vec.subFl fl p.origin r.origin) p.normal
            / Vec.dotFl fl r.direction p.normal) ∧
      ((p.intersectFl fl sqrtf r).hit = true →
        (p.intersectFl fl sqrtf r).position = r.atFl fl (plane.paramFl fl sqrtf p r))) := by
  have hpos : ∀ d : ℚ, math.isPositive d = true → 0 < d := by
    intro d hd
    have := (math.isPositive_iff d).mp hd
    linarith [math.epsilon_pos]
  have hcases : (Vec.dotFl fl (r.unitFl fl sqrtf).direction p.normal ≠ 0 ∧
        math.isPositive (plane.paramFl fl sqrtf p r) = true ∧
        p.intersectFl fl sqrtf r
          = intersection.makeFl fl sqrtf
              ((r.unitFl fl sqrtf).atFl fl (plane.paramFl fl sqrtf p r))
              p.normal p.tangent p.cotangent (plane.paramFl fl sqrtf p r)) ∨
      (¬ (Vec.dotFl fl (r.unitFl fl sqrtf).direction p.normal ≠ 0 ∧
          math.isPositive (plane.paramFl fl sqrtf p r) = true) ∧
        p.intersectFl fl sqrtf r = intersection.empty) := by
    rw [plane_intersectFl_eq]
    show (plane.denomFl fl sqrtf p r ≠ 0 ∧ _) ∨ (¬ (plane.denomFl fl sqrtf p r ≠ 0 ∧ _) ∧ _)
    by_cases hden : plane.denomFl fl sqrtf p r ≠ 0
    · by_cases hp : math.isPositive (plane.paramFl fl sqrtf p r) = true
      · left
        rw [if_pos hden, if_pos hp]
        exact ⟨hden, hp, rfl⟩
      · right
        rw [if_pos hden, if_neg hp]
        exact ⟨fun h => hp h.2, rfl⟩
    · right
      rw [if_neg hden]
      exact ⟨fun h => hden h.1, rfl⟩
  have hhit : (p.intersectFl fl sqrtf r).hit = true →
      (p.intersectFl fl sqrtf r).distance = plane.paramFl fl sqrtf p r ∧
      (p.intersectFl fl sqrtf r).position
        = (r.unitFl fl sqrtf).atFl fl (plane.paramFl fl sqrtf p r) := by
    intro h
    rcases hcases with ⟨_, _, he⟩ | ⟨_, he⟩
    · rw [he]
      exact ⟨rfl, rfl⟩
    · rw [he, intersection.empty_hit] at h
      cases h
  refine ⟨?_, hhit, ?_, ?_⟩
  · constructor
    · intro h
      rcases hcases with ⟨hden, hp, _⟩ | ⟨_, he⟩
      · exact ⟨hden, hp⟩
      · rw [he, intersection.empty_hit] at h
        cases h
    · intro h
      rcases hcases with ⟨_, hp, he⟩ | ⟨hn, _⟩
      · rw [he]
        simp only [intersection.hit, intersection.makeFl, decide_eq_true_eq]
        exact hpos _ hp
      · exact absurd h hn
  · intro h
    rcases hcases with ⟨_, hp, he⟩ | ⟨_, he⟩
    · rw [he] at h
      simp only [intersection.hit, intersection.makeFl, decide_eq_false_iff_not] at h
      exact absurd (hpos _ hp) h
    · rw [he]
      exact ⟨rfl, rfl⟩
  · intro hd hs h1 hx hy hz
    have hu := ray.unitFl_of_unit fl sqrtf r hd hs h1 hx hy hz
    refine ⟨?_, ?_⟩
    · rw [plane.paramFl, plane.denomFl, hu]
    · intro h
      have := (hhit h).2
      rw [hu] at this
      exact this

/-- Witness for C16 (as amended), in binary32: the plane through the origin with
normal `(0,1,0)` and the ray from `(0,5,0)` with direction `(0,-2,0)`; `unit()`
gives the direction `(0,-1,0)`, the denominator is `-1`, `t' = 5`, and the hit
is reported at distance `5` and position `(0,0,0)`. -/
theorem plane_intersect_spec_witness :
    Vec.dotFl fl32 (ray.unitFl fl32 sqrt32 ⟨⟨0, 5, 0⟩, ⟨0, -2, 0⟩⟩).direction ⟨0, 1, 0⟩ = -1 ∧
    plane.paramFl fl32 sqrt32 ⟨⟨0, 0, 0⟩, ⟨0, 1, 0⟩, ⟨0, 0, -1⟩, ⟨-1, 0, 0⟩⟩
      ⟨⟨0, 5, 0⟩, ⟨0, -2, 0⟩⟩ = 5 ∧
    (plane.intersectFl fl32 sqrt32 ⟨⟨0, 0, 0⟩, ⟨0, 1, 0⟩, ⟨0, 0, -1⟩, ⟨-1, 0, 0⟩⟩
      ⟨⟨0, 5, 0⟩, ⟨0, -2, 0⟩⟩).hit = true ∧
    (plane.intersectFl fl32 sqrt32 ⟨⟨0, 0, 0⟩, ⟨0, 1, 0⟩, ⟨0, 0, -1⟩, ⟨-1, 0, 0⟩⟩
      ⟨⟨0, 5, 0⟩, ⟨0, -2, 0⟩⟩).distance = 5 ∧
    (plane.intersectFl fl32 sqrt32 ⟨⟨0, 0, 0⟩, ⟨0, 1, 0⟩, ⟨0, 0, -1⟩, ⟨-1, 0, 0⟩⟩
      ⟨⟨0, 5, 0⟩, ⟨0, -2, 0⟩⟩).position = ⟨0, 0, 0⟩ := by
  have f1 : fl32 (4) = 4 := by
    have h := fl32_eq_of (4) 8388608 (-21) (by norm_num) (by norm_num) (by norm_num)
      (by norm_num) (by norm_num) (by norm_num)
    rw [h]
    norm_num
  have f2 : sqrt32 (4) = 2 := by
    apply sqrt32_eq_of (4) 3213876088517980551083924184682325205044405987565585670602752 (2)
    · norm_num
    · norm_num
    · have h := fl32_eq_of ((3213876088517980551083924184682325205044405987565585670602752 : ℕ) / 2 ^ 200) 8388608 (-22) (by norm_num) (by norm_num)
        (by norm_num) (by norm_num) (by norm_num) (by norm_num)
      rw [h]
      norm_num
  have f3 : fl32 (1 / 2) = 1 / 2 := by
    have h := fl32_eq_of (1 / 2) 8388608 (-24) (by norm_num) (by norm_num) (by norm_num)
      (by norm_num) (by norm_num) (by norm_num)
    rw [h]
    norm_num
  have f5 : fl32 (5) = 5 := by
    have h := fl32_eq_of (5) 10485760 (-21) (by norm_num) (by norm_num) (by norm_num)
      (by norm_num) (by norm_num) (by norm_num)
    rw [h]
    norm_num
  have key := plane_intersect_spec fl32 sqrt32 ⟨⟨0, 0, 0⟩, ⟨0, 1, 0⟩, ⟨0, 0, -1⟩, ⟨-1, 0, 0⟩⟩
    ⟨⟨0, 5, 0⟩, ⟨0, -2, 0⟩⟩
  have hu : ray.unitFl fl32 sqrt32 ⟨⟨0, 5, 0⟩, ⟨0, -2, 0⟩⟩ = ⟨⟨0, 5, 0⟩, ⟨0, -1, 0⟩⟩ := by
    norm_num [ray.unitFl, Vec.normalizeFl, Vec.scaleFl, Vec.dotFl, fl32_zero, fl32_neg,
      fl32_one, f1, f2, f3, f5]
  have hden : Vec.dotFl fl32 (ray.unitFl fl32 sqrt32 ⟨⟨0, 5, 0⟩, ⟨0, -2, 0⟩⟩).direction
      ⟨0, 1, 0⟩ = -1 := by
    rw [hu]
    norm_num [Vec.dotFl, fl32_zero, fl32_neg, fl32_one]
  have hpar : plane.paramFl fl32 sqrt32 ⟨⟨0, 0, 0⟩, ⟨0, 1, 0⟩, ⟨0, 0, -1⟩, ⟨-1, 0, 0⟩⟩
      ⟨⟨0, 5, 0⟩, ⟨0, -2, 0⟩⟩ = 5 := by
    rw [plane.paramFl, plane.denomFl, hden]
    norm_num [Vec.dotFl, Vec.subFl, fl32_zero, fl32_neg, fl32_one, f1, f2, f3, f5]
  have hhit := key.1.mpr ⟨by rw [hden]; norm_num,
    by rw [hpar]; norm_num [math.isPositive, math.epsilon]⟩
  have hres := key.2.1 hhit
  refine ⟨hden, hpar, hhit, by rw [hres.1, hpar], ?_⟩
  rw [hres.2, hpar, hu]
  norm_num [ray.atFl, Vec.addFl, Vec.scaleFl, fl32_zero, fl32_neg, fl32_one, f1, f2, f3, f5]

end geoms

/-! ## Claims about the sphere bounds -/

namespace geoms.Sphere

/-- The body of the rounded `Sphere::intersect` in terms of its named
intermediate values. -/
theorem sphere_intersectFl_eq (fl sqrtf : ℚ → ℚ) (s : Sphere) (r : Ray) :
    intersectFl fl sqrtf s r =
      if discriminantFl fl s r > 0 then
        if math.isPositive (resNegFl fl sqrtf s r) then
          some (Intersection.makeFl fl sqrtf (r.atFl fl (resNegFl fl sqrtf s r))
            (Vec.normalizedFl fl sqrtf (Vec.subFl fl (r.atFl fl (resNegFl fl sqrtf s r)) s.origin))
            (resNegFl fl sqrtf s r))
        else if math.isPositive (resPosFl fl sqrtf s r) then
          some (Intersection.makeFl fl sqrtf (r.atFl fl (resPosFl fl sqrtf s r))
            (Vec.normalizedFl fl sqrtf (Vec.subFl fl (r.atFl fl (resPosFl fl sqrtf s r)) s.origin))
            (resPosFl fl sqrtf s r))
        else none
      else none := rfl

/-- With `fl = id` and the storing constructor the rounded `bounds()` is the exact one. -/
theorem sphere_boundsFl_id (s : Sphere) : boundsFl id bbox.make s = s.bounds := rfl

/-- C14 (counterexample, binary32): the sphere with centre `(0,0,0)` and radius
`0.1f = 13421773 / 2^27`, and the ray from `(0,0,-3)` along the unit direction
`(0,0,1)`.  The code computes `c = 4713349 / 2^19`, discriminant `5243 / 2^19`,
root `6710963 / 2^26` and `resNeg = 12163477 / 2^22`, and reports the hit
position `(0, 0, -419435 / 2^22)`, about `(0, 0, -0.1000011)`.  `bounds()` is the
box from `(-0.1f, -0.1f, -0.1f)` to `(0.1f, 0.1f, 0.1f)`, whichever way the
constructor treats its corners; the position is below its min corner in `z`,
and farther than `r` from the centre. -/
theorem hit_position_outside_bounds :
    Vec.dotFlE fl32 (⟨0, 0, 1⟩ : Vec) ⟨0, 0, 1⟩ = 1 ∧
    (∃ i, intersectFl fl32 sqrt32 ⟨⟨0, 0, 0⟩, 13421773 / 134217728⟩ ⟨⟨0, 0, -3⟩, ⟨0, 0, 1⟩⟩
        = some i ∧
      i.position = ⟨0, 0, -(419435 / 4194304)⟩ ∧ i.distance = 12163477 / 4194304) ∧
    boundsFl fl32 bbox.make ⟨⟨0, 0, 0⟩, 13421773 / 134217728⟩
      = ⟨⟨-(13421773 / 134217728), -(13421773 / 134217728), -(13421773 / 134217728)⟩,
          ⟨13421773 / 134217728, 13421773 / 134217728, 13421773 / 134217728⟩⟩ ∧
    boundsFl fl32 bbox.makeSorted ⟨⟨0, 0, 0⟩, 13421773 / 134217728⟩
      = ⟨⟨-(13421773 / 134217728), -(13421773 / 134217728), -(13421773 / 134217728)⟩,
          ⟨13421773 / 134217728, 13421773 / 134217728, 13421773 / 134217728⟩⟩ ∧
    ¬ (boundsFl fl32 bbox.make ⟨⟨0, 0, 0⟩, 13421773 / 134217728⟩).contains
        ⟨0, 0, -(419435 / 4194304)⟩ ∧
    (13421773 / 134217728 : ℚ) * (13421773 / 134217728)
      < ((⟨0, 0, -(419435 / 4194304)⟩ : Vec) - ⟨0, 0, 0⟩).squaredNorm := by
  have f1 : fl32 (3) = 3 := by
    have h := fl32_eq_of (3) 12582912 (-22) (by norm_num) (by norm_num) (by norm_num)
      (by norm_num) (by norm_num) (by norm_num)
    rw [h]
    norm_num
  have f3 : fl32 (9) = 9 := by
    have h := fl32_eq_of (9) 9437184 (-20) (by norm_num) (by norm_num) (by norm_num)
      (by norm_num) (by norm_num) (by norm_num)
    rw [h]
    norm_num
  have f4 : fl32 (180143990463529 / 18014398509481984) = 10737419 / 1073741824 := by
    have h := fl32_eq_of (180143990463529 / 18014398509481984) 10737419 (-30) (by norm_num) (by norm_num) (by norm_num)
      (by norm_num) (by norm_num) (by norm_num)
    rw [h]
    norm_num
  have f5 : fl32 (9652938997 / 1073741824) = 4713349 / 524288 := by
    have h := fl32_eq_of (9652938997 / 1073741824) 9426698 (-20) (by norm_num) (by norm_num) (by norm_num)
      (by norm_num) (by norm_num) (by norm_num)
    rw [h]
    norm_num
  have f6 : fl32 (4713349 / 524288) = 4713349 / 524288 := by
    have h := fl32_eq_of (4713349 / 524288) 9426698 (-20) (by norm_num) (by norm_num) (by norm_num)
      (by norm_num) (by norm_num) (by norm_num)
    rw [h]
    norm_num
  have f7 : fl32 (5243 / 524288) = 5243 / 524288 := by
    have h := fl32_eq_of (5243 / 524288) 10737664 (-30) (by norm_num) (by norm_num) (by norm_num)
      (by norm_num) (by norm_num) (by norm_num)
    rw [h]
    norm_num
  have f8 : sqrt32 (5243 / 524288) = 6710963 / 67108864 := by
    apply sqrt32_eq_of (5243 / 524288) 160695643410025375254345158422139229717225695339994284686732 (6710963 / 67108864)
    · norm_num
    · norm_num
    · have h := fl32_eq_of ((160695643410025375254345158422139229717225695339994284686732 : ℕ) / 2 ^ 200) 13421926 (-27) (by norm_num) (by norm_num)
        (by norm_num) (by norm_num) (by norm_num) (by norm_num)
      rw [h]
      norm_num
  have f9 : fl32 (208037555 / 67108864) = 13002347 / 4194304 := by
    have h := fl32_eq_of (208037555 / 67108864) 13002347 (-22) (by norm_num) (by norm_num) (by norm_num)
      (by norm_num) (by norm_num) (by norm_num)
    rw [h]
    norm_num
  have f10 : fl32 (194615629 / 67108864) = 12163477 / 4194304 := by
    have h := fl32_eq_of (194615629 / 67108864) 12163477 (-22) (by norm_num) (by norm_num) (by norm_num)
      (by norm_num) (by norm_num) (by norm_num)
    rw [h]
    norm_num
  have f11 : fl32 (12163477 / 4194304) = 12163477 / 4194304 := by
    have h := fl32_eq_of (12163477 / 4194304) 12163477 (-22) (by norm_num) (by norm_num) (by norm_num)
      (by norm_num) (by norm_num) (by norm_num)
    rw [h]
    norm_num
  have f12 : fl32 (419435 / 4194304) = 419435 / 4194304 := by
    have h := fl32_eq_of (419435 / 4194304) 13421920 (-27) (by norm_num) (by norm_num) (by norm_num)
      (by norm_num) (by norm_num) (by norm_num)
    rw [h]
    norm_num
  have f13 : fl32 (13421773 / 134217728) = 13421773 / 134217728 := by
    have h := fl32_eq_of (13421773 / 134217728) 13421773 (-27) (by norm_num) (by norm_num) (by norm_num)
      (by norm_num) (by norm_num) (by norm_num)
    rw [h]
    norm_num
  have hdisc : discriminantFl fl32 ⟨⟨0, 0, 0⟩, 13421773 / 134217728⟩
      ⟨⟨0, 0, -3⟩, ⟨0, 0, 1⟩⟩ = 5243 / 524288 := by
    norm_num [discriminantFl, quadAFl, quadBFl, quadCFl, Vec.dotFlE, Vec.subFl, fl32_zero,
      fl32_neg, fl32_one, f1, f3, f4, f5, f6, f7, f8, f9, f10, f11, f12, f13]
  have hneg : resNegFl fl32 sqrt32 ⟨⟨0, 0, 0⟩, 13421773 / 134217728⟩
      ⟨⟨0, 0, -3⟩, ⟨0, 0, 1⟩⟩ = 12163477 / 4194304 := by
    rw [resNegFl, hdisc]
    norm_num [quadBFl, Vec.dotFlE, Vec.subFl, fl32_zero, fl32_neg, fl32_one, f1, f3, f4, f5, f6, f7, f8, f9, f10, f11, f12, f13]
  have hpt : ray.atFl fl32 ⟨⟨0, 0, -3⟩, ⟨0, 0, 1⟩⟩ (12163477 / 4194304)
      = ⟨0, 0, -(419435 / 4194304)⟩ := by
    norm_num [ray.atFl, Vec.addFl, Vec.scaleFl, fl32_zero, fl32_neg, fl32_one, f1, f3, f4, f5, f6, f7, f8, f9, f10, f11, f12, f13]
  have hi : intersectFl fl32 sqrt32 ⟨⟨0, 0, 0⟩, 13421773 / 134217728⟩
      ⟨⟨0, 0, -3⟩, ⟨0, 0, 1⟩⟩
      = some (Intersection.makeFl fl32 sqrt32
          (ray.atFl fl32 ⟨⟨0, 0, -3⟩, ⟨0, 0, 1⟩⟩ (12163477 / 4194304))
          (Vec.normalizedFl fl32 sqrt32
            (Vec.subFl fl32 (ray.atFl fl32 ⟨⟨0, 0, -3⟩, ⟨0, 0, 1⟩⟩ (12163477 / 4194304))
              ⟨0, 0, 0⟩))
          (12163477 / 4194304)) := by
    rw [sphere_intersectFl_eq, hdisc, hneg]
    norm_num [math.isPositive, math.epsilon]
  have hb : ∀ mk : Vec → Vec → BBox,
      mk ⟨-(13421773 / 134217728), -(13421773 / 134217728), -(13421773 / 134217728)⟩
          ⟨13421773 / 134217728, 13421773 / 134217728, 13421773 / 134217728⟩
        = ⟨⟨-(13421773 / 134217728), -(13421773 / 134217728), -(13421773 / 134217728)⟩,
            ⟨13421773 / 134217728, 13421773 / 134217728, 13421773 / 134217728⟩⟩ →
      boundsFl fl32 mk ⟨⟨0, 0, 0⟩, 13421773 / 134217728⟩
        = ⟨⟨-(13421773 / 134217728), -(13421773 / 134217728), -(13421773 / 134217728)⟩,
            ⟨13421773 / 134217728, 13421773 / 134217728, 13421773 / 134217728⟩⟩ := by
    intro mk hmk
    rw [← hmk]
    norm_num [boundsFl, Vec.subFl, Vec.addFl, fl32_zero, fl32_neg, fl32_one, f1, f3, f4, f5, f6, f7, f8, f9, f10, f11, f12, f13]
  have hb1 := hb bbox.make rfl
  have hb2 := hb bbox.makeSorted (by
    norm_num [bbox.makeSorted, Vec.cwiseMin, Vec.cwiseMax])
  refine ⟨?_, ⟨_, hi, hpt, rfl⟩, hb1, hb2, ?_, ?_⟩
  · norm_num [Vec.dotFlE, fl32_zero, fl32_one]
  · rw [hb1]
    norm_num [bbox.contains, Vec.le]
  · norm_num [Vec.squaredNorm, Vec.dot, Vec.sub_def]

end geoms.Sphere

namespace geoms.Sphere

/-- A component of a vector is bounded by `r` when the squared norm is bounded by `r²`. -/
theorem abs_le_of_sq_le (u v w r : ℚ) (hr : 0 ≤ r) (h : u * u + v * v + w * w ≤ r * r) :
    -r ≤ u ∧ u ≤ r := by
  constructor <;> nlinarith [mul_self_nonneg v, mul_self_nonneg w, mul_self_nonneg (u - r),
    mul_self_nonneg (u + r)]

/-- C14 (as amended): for every sphere with centre `c` and radius `r`, and every
rounding `fl` that preserves order (as binary32 rounding does), `bounds()`
hands the points `c - (r,r,r)` and `c + (r,r,r)`, each component rounded, to
the box constructor.  With a constructor that stores its arguments these are
the min and max corner, for every `r`.  For `r ≥ 0` the two points are in
order, so with any constructor that keeps corners that are in order
`bounds()` is the box with these corners, it satisfies min ≤ max in every
component, and it is conservative for values that carry no rounding error:
every point `p` whose components are `float` values and with `|p - c|² ≤ r²`
lies inside. -/
theorem bounds_spec (fl : ℚ → ℚ) (mk : Vec → Vec → BBox) (s : Sphere) (hfl : Monotone fl) :
    ((∀ a b, mk a b = ⟨a, b⟩) →
      boundsFl fl mk s
        = ⟨Vec.subFl fl s.origin ⟨s.radius, s.radius, s.radius⟩,
            Vec.addFl fl s.origin ⟨s.radius, s.radius, s.radius⟩⟩) ∧
    ((∀ a b, Vec.le a b → mk a b = ⟨a, b⟩) → 0 ≤ s.radius →
      boundsFl fl mk s
        = ⟨Vec.subFl fl s.origin ⟨s.radius, s.radius, s.radius⟩,
            Vec.addFl fl s.origin ⟨s.radius, s.radius, s.radius⟩⟩ ∧
      Vec.le (boundsFl fl mk s).minCorner (boundsFl fl mk s).maxCorner ∧
      (∀ p : Vec, fl p.x = p.x → fl p.y = p.y → fl p.z = p.z →
        (p - s.origin).squaredNorm ≤ s.radius * s.radius → (boundsFl fl mk s).contains p)) := by
  refine ⟨fun hmk => hmk _ _, ?_⟩
  intro hmk hr
  have hord : Vec.le (Vec.subFl fl s.origin ⟨s.radius, s.radius, s.radius⟩)
      (Vec.addFl fl s.origin ⟨s.radius, s.radius, s.radius⟩) := by
    simp only [Vec.le, Vec.subFl, Vec.addFl]
    refine ⟨?_, ?_, ?_⟩ <;> apply hfl <;> linarith
  have hb : boundsFl fl mk s
      = ⟨Vec.subFl fl s.origin ⟨s.radius, s.radius, s.radius⟩,
          Vec.addFl fl s.origin ⟨s.radius, s.radius, s.radius⟩⟩ := hmk _ _ hord
  refine ⟨hb, by rw [hb]; exact hord, ?_⟩
  intro p hx hy hz hp
  rw [hb]
  simp only [Vec.squaredNorm, Vec.dot, Vec.sub_def] at hp
  have h1 := abs_le_of_sq_le (p.x - s.origin.x) (p.y - s.origin.y) (p.z - s.origin.z)
    s.radius hr hp
  have h2 := abs_le_of_sq_le (p.y - s.origin.y) (p.x - s.origin.x) (p.z - s.origin.z)
    s.radius hr (by linarith)
  have h3 := abs_le_of_sq_le (p.z - s.origin.z) (p.x - s.origin.x) (p.y - s.origin.y)
    s.radius hr (by linarith)
  simp only [bbox.contains, Vec.le, Vec.subFl, Vec.addFl]
  refine ⟨⟨?_, ?_, ?_⟩, ⟨?_, ?_, ?_⟩⟩
  · rw [← hx]; apply hfl; linarith [h1.1]
  · rw [← hy]; apply hfl; linarith [h2.1]
  · rw [← hz]; apply hfl; linarith [h3.1]
  · rw [← hx]; apply hfl; linarith [h1.2]
  · rw [← hy]; apply hfl; linarith [h2.2]
  · rw [← hz]; apply hfl; linarith [h3.2]

/-- Witness for C14 (as amended), in binary32: the sphere with centre `(1,2,3)`
and radius `2`; with the storing and with the sorting constructor the box runs
from `(-1,0,1)` to `(3,4,5)` and holds the surface point `(1,2,5)`. -/
theorem bounds_spec_witness :
    Monotone fl32 ∧ (∀ a b, Vec.le a b → bbox.makeSorted a b = ⟨a, b⟩) ∧ (0 : ℚ) ≤ 2 ∧
    boundsFl fl32 bbox.make ⟨⟨1, 2, 3⟩, 2⟩ = ⟨⟨-1, 0, 1⟩, ⟨3, 4, 5⟩⟩ ∧
    boundsFl fl32 bbox.makeSorted ⟨⟨1, 2, 3⟩, 2⟩ = ⟨⟨-1, 0, 1⟩, ⟨3, 4, 5⟩⟩ ∧
    fl32 1 = 1 ∧ fl32 2 = 2 ∧ fl32 5 = 5 ∧
    ((⟨1, 2, 5⟩ : Vec) - ⟨1, 2, 3⟩).squaredNorm ≤ 2 * 2 ∧
    (boundsFl fl32 bbox.makeSorted ⟨⟨1, 2, 3⟩, 2⟩).contains ⟨1, 2, 5⟩ := by
  have g1 : fl32 (2) = 2 := by
    have h := fl32_eq_of (2) 8388608 (-22) (by norm_num) (by norm_num) (by norm_num)
      (by norm_num) (by norm_num) (by norm_num)
    rw [h]
    norm_num
  have g2 : fl32 (3) = 3 := by
    have h := fl32_eq_of (3) 12582912 (-22) (by norm_num) (by norm_num) (by norm_num)
      (by norm_num) (by norm_num) (by norm_num)
    rw [h]
    norm_num
  have g3 : fl32 (4) = 4 := by
    have h := fl32_eq_of (4) 8388608 (-21) (by norm_num) (by norm_num) (by norm_num)
      (by norm_num) (by norm_num) (by norm_num)
    rw [h]
    norm_num
  have g4 : fl32 (5) = 5 := by
    have h := fl32_eq_of (5) 10485760 (-21) (by norm_num) (by norm_num) (by norm_num)
      (by norm_num) (by norm_num) (by norm_num)
    rw [h]
    norm_num
  have hsorted : ∀ a b, Vec.le a b → bbox.makeSorted a b = ⟨a, b⟩ := by
    intro a b h
    simp only [Vec.le] at h
    simp only [bbox.makeSorted, Vec.cwiseMin, Vec.cwiseMax, min_eq_left h.1, min_eq_left h.2.1,
      min_eq_left h.2.2, max_eq_right h.1, max_eq_right h.2.1, max_eq_right h.2.2]
  have key1 := bounds_spec fl32 bbox.make ⟨⟨1, 2, 3⟩, 2⟩ fl32_monotone
  have key2 := bounds_spec fl32 bbox.makeSorted ⟨⟨1, 2, 3⟩, 2⟩ fl32_monotone
  have hp : ((⟨1, 2, 5⟩ : Vec) - ⟨1, 2, 3⟩).squaredNorm ≤ 2 * 2 := by
    norm_num [Vec.squaredNorm, Vec.dot, Vec.sub_def]
  have hcorners : (⟨Vec.subFl fl32 ⟨1, 2, 3⟩ ⟨2, 2, 2⟩, Vec.addFl fl32 ⟨1, 2, 3⟩ ⟨2, 2, 2⟩⟩ : BBox)
      = ⟨⟨-1, 0, 1⟩, ⟨3, 4, 5⟩⟩ := by
    norm_num [Vec.subFl, Vec.addFl, fl32_zero, fl32_neg, fl32_one, g1, g2, g3, g4]
  have h2 := key2.2 hsorted (by norm_num)
  refine ⟨fl32_monotone, hsorted, by norm_num, ?_, ?_, fl32_one, g1, g4, hp, ?_⟩
  · rw [key1.1 (fun _ _ => rfl)]
    exact hcorners
  · rw [h2.1]
    exact hcorners
  · exact h2.2.2 ⟨1, 2, 5⟩ fl32_one g1 g4 hp

end geoms.Sphere

/-! ## Claims about the disc bounds -/

namespace geoms

/-- The body of the rounded `disc::intersect` in terms of its named intermediate values. -/
theorem disc_intersectFl_eq (fl sqrtf : ℚ → ℚ) (dc : disc) (r : ray) :
    dc.intersectFl fl sqrtf r
      = if disc.denomFl fl dc r ≠ 0 then
          if math.isPositive (disc.paramFl fl dc r) = true then
            if Vec.squaredNormFl fl (Vec.subFl fl (r.atFl fl (disc.paramFl fl dc r)) dc.origin)
                < dc.radiusSquared then
              some (intersection.makeFl fl sqrtf (r.atFl fl (disc.paramFl fl dc r)) dc.normal
                dc.tangent dc.binormal (disc.paramFl fl dc r))
            else none
          else none
        else none := rfl

/-- The rounded `disc::bounds()` in terms of the four points it is built from. -/
theorem disc.boundsFl_eq (fl : ℚ → ℚ) (mk : Vec → Vec → bbox) (dc : disc) :
    dc.boundsFl fl mk
      = ((mk (dc.cornerPP fl) (dc.cornerMM fl)).expand (dc.cornerPM fl)).expand
          (dc.cornerMP fl) := rfl

/-- With `fl = id` and the storing constructor the rounded `disc::bounds()` is the exact one. -/
theorem disc_boundsFl_id (dc : disc) : dc.boundsFl id bbox.make = dc.bounds := rfl

/-- In binary32 the constructor `disc(m, (0,0,0), (0,1,0), 1)` builds the disc with
normal `(0,1,0)`, tangent `(0,0,-1)` and binormal `(-1,0,0)`. -/
theorem disc.makeFl_unit_up :
    disc.makeFl fl32 sqrt32 ⟨0, 0, 0⟩ ⟨0, 1, 0⟩ 1
      = ⟨1, ⟨0, 0, 0⟩, ⟨0, 1, 0⟩, 1, ⟨0, 0, -1⟩, ⟨-1, 0, 0⟩⟩ := by
  norm_num [disc.makeFl, Vec.normalizedFl, Vec.dotFlE, math.coordSystemFl, Vec.crossFl,
    fl32_zero, fl32_neg, fl32_one, sqrt32_one]

/-- C15 (counterexample, binary32): the disc built by
`disc(m, (0,0,0), (0,1,0), 1)` and the ray from `(0,3,0)` with direction
`(0, -0.7f, 0)`, `0.7f = 11744051 / 2^24`.  The code computes the parameter
`d = 4493897 / 2^20` and the point `r.at(d) = (0, 2^-22, 0)`, at squared distance
`2^-44 < 1` from the centre, and reports it as the hit position.  `bounds()` is
the box from `(-1,0,-1)` to `(1,0,1)`, whichever way the constructor treats its
corners; the position is above it in `y`. -/
theorem disc_hit_position_outside_bounds :
    (∃ i, (disc.makeFl fl32 sqrt32 ⟨0, 0, 0⟩ ⟨0, 1, 0⟩ 1).intersectFl fl32 sqrt32
        ⟨⟨0, 3, 0⟩, ⟨0, -(11744051 / 16777216), 0⟩⟩ = some i ∧
      i.position = ⟨0, 1 / 4194304, 0⟩ ∧ i.distance = 4493897 / 1048576) ∧
    (disc.makeFl fl32 sqrt32 ⟨0, 0, 0⟩ ⟨0, 1, 0⟩ 1).boundsFl fl32 bbox.make
      = ⟨⟨-1, 0, -1⟩, ⟨1, 0, 1⟩⟩ ∧
    (disc.makeFl fl32 sqrt32 ⟨0, 0, 0⟩ ⟨0, 1, 0⟩ 1).boundsFl fl32 bbox.makeSorted
      = ⟨⟨-1, 0, -1⟩, ⟨1, 0, 1⟩⟩ ∧
    ¬ ((disc.makeFl fl32 sqrt32 ⟨0, 0, 0⟩ ⟨0, 1, 0⟩ 1).boundsFl fl32 bbox.make).contains
        ⟨0, 1 / 4194304, 0⟩ := by
  have f3 : fl32 (11744051 / 16777216) = 11744051 / 16777216 := by
    have h := fl32_eq_of (11744051 / 16777216) 11744051 (-24) (by norm_num) (by norm_num) (by norm_num)
      (by norm_num) (by norm_num) (by norm_num)
    rw [h]
    norm_num
  have f4 : fl32 (3) = 3 := by
    have h := fl32_eq_of (3) 12582912 (-22) (by norm_num) (by norm_num) (by norm_num)
      (by norm_num) (by norm_num) (by norm_num)
    rw [h]
    norm_num
  have f5 : fl32 (50331648 / 11744051) = 4493897 / 1048576 := by
    have h := fl32_eq_of (50331648 / 11744051) 8987794 (-21) (by norm_num) (by norm_num) (by norm_num)
      (by norm_num) (by norm_num) (by norm_num)
    rw [h]
    norm_num
  have f6 : fl32 (52776555556747 / 17592186044416) = 12582911 / 4194304 := by
    have h := fl32_eq_of (52776555556747 / 17592186044416) 12582911 (-22) (by norm_num) (by norm_num) (by norm_num)
      (by norm_num) (by norm_num) (by norm_num)
    rw [h]
    norm_num
  have f7 : fl32 (1 / 4194304) = 1 / 4194304 := by
    have h := fl32_eq_of (1 / 4194304) 8388608 (-45) (by norm_num) (by norm_num) (by norm_num)
      (by norm_num) (by norm_num) (by norm_num)
    rw [h]
    norm_num
  have f8 : fl32 (1 / 17592186044416) = 1 / 17592186044416 := by
    have h := fl32_eq_of (1 / 17592186044416) 8388608 (-67) (by norm_num) (by norm_num) (by norm_num)
      (by norm_num) (by norm_num) (by norm_num)
    rw [h]
    norm_num
  rw [disc.makeFl_unit_up]
  have hden : disc.denomFl fl32 ⟨1, ⟨0, 0, 0⟩, ⟨0, 1, 0⟩, 1, ⟨0, 0, -1⟩, ⟨-1, 0, 0⟩⟩
      ⟨⟨0, 3, 0⟩, ⟨0, -(11744051 / 16777216), 0⟩⟩ = -(11744051 / 16777216) := by
    norm_num [disc.denomFl, Vec.dotFlE, fl32_zero, fl32_neg, fl32_one, f3, f4, f5, f6, f7, f8]
  have hpar : disc.paramFl fl32 ⟨1, ⟨0, 0, 0⟩, ⟨0, 1, 0⟩, 1, ⟨0, 0, -1⟩, ⟨-1, 0, 0⟩⟩
      ⟨⟨0, 3, 0⟩, ⟨0, -(11744051 / 16777216), 0⟩⟩ = 4493897 / 1048576 := by
    rw [disc.paramFl, hden]
    norm_num [Vec.dotFlE, Vec.subFl, fl32_zero, fl32_neg, fl32_one, f3, f4, f5, f6, f7, f8]
  have hpt : ray.atFl fl32 ⟨⟨0, 3, 0⟩, ⟨0, -(11744051 / 16777216), 0⟩⟩ (4493897 / 1048576)
      = ⟨0, 1 / 4194304, 0⟩ := by
    norm_num [ray.atFl, Vec.addFl, Vec.scaleFl, fl32_zero, fl32_neg, fl32_one, f3, f4, f5, f6, f7, f8]
  have hi : disc.intersectFl fl32 sqrt32 ⟨1, ⟨0, 0, 0⟩, ⟨0, 1, 0⟩, 1, ⟨0, 0, -1⟩, ⟨-1, 0, 0⟩⟩
      ⟨⟨0, 3, 0⟩, ⟨0, -(11744051 / 16777216), 0⟩⟩
      = some (intersection.makeFl fl32 sqrt32 ⟨0, 1 / 4194304, 0⟩ ⟨0, 1, 0⟩ ⟨0, 0, -1⟩
          ⟨-1, 0, 0⟩ (4493897 / 1048576)) := by
    rw [disc_intersectFl_eq, hden, hpar, hpt]
    norm_num [math.isPositive, math.epsilon, Vec.squaredNormFl, Vec.dotFlE, Vec.subFl,
      fl32_zero, fl32_neg, fl32_one, f3, f4, f5, f6, f7, f8]
  have hb1 : disc.boundsFl fl32 bbox.make ⟨1, ⟨0, 0, 0⟩, ⟨0, 1, 0⟩, 1, ⟨0, 0, -1⟩, ⟨-1, 0, 0⟩⟩
      = ⟨⟨-1, 0, -1⟩, ⟨1, 0, 1⟩⟩ := by
    norm_num [disc.boundsFl, bbox.make, bbox.expand, Vec.cwiseMin, Vec.cwiseMax, Vec.addFl,
      Vec.subFl, Vec.scaleFl, fl32_zero, fl32_neg, fl32_one]
  have hb2 : disc.boundsFl fl32 bbox.makeSorted
      ⟨1, ⟨0, 0, 0⟩, ⟨0, 1, 0⟩, 1, ⟨0, 0, -1⟩, ⟨-1, 0, 0⟩⟩ = ⟨⟨-1, 0, -1⟩, ⟨1, 0, 1⟩⟩ := by
    norm_num [disc.boundsFl, bbox.makeSorted, bbox.expand, Vec.cwiseMin, Vec.cwiseMax,
      Vec.addFl, Vec.subFl, Vec.scaleFl, fl32_zero, fl32_neg, fl32_one]
  refine ⟨⟨_, hi, rfl, rfl⟩, hb1, hb2, ?_⟩
  rw [hb1]
  norm_num [bbox.contains, Vec.le]

/-- A box that has been expanded by a point contains it, and keeps what it contained. -/
theorem bbox.expand_contains (bx : bbox) (p : Vec) :
    (bx.expand p).contains p ∧ ∀ q, bx.contains q → (bx.expand p).contains q := by
  simp only [bbox.contains, bbox.expand, Vec.le, Vec.cwiseMin, Vec.cwiseMax]
  refine ⟨⟨⟨min_le_right _ _, min_le_right _ _, min_le_right _ _⟩,
    ⟨le_max_right _ _, le_max_right _ _, le_max_right _ _⟩⟩, ?_⟩
  rintro q ⟨⟨h1, h2, h3⟩, ⟨h4, h5, h6⟩⟩
  exact ⟨⟨le_trans (min_le_left _ _) h1, le_trans (min_le_left _ _) h2,
    le_trans (min_le_left _ _) h3⟩,
    ⟨le_trans h4 (le_max_left _ _), le_trans h5 (le_max_left _ _),
      le_trans h6 (le_max_left _ _)⟩⟩

/-- C15 (as amended): for every disc, every rounding `fl` and every box
constructor `mk`, `disc::bounds()` is `mk (origin + tr + br) (origin - tr - br)`
expanded by `origin + tr - br` and then by `origin - tr + br`, with
`tr = tangent * radius` and `br = binormal * radius` as computed.  It contains
the two points passed to `expand` and satisfies min ≤ max in every component;
and if the constructor returns a box that holds both of its arguments, it
contains all four points. -/
theorem disc_bounds_spec (fl : ℚ → ℚ) (mk : Vec → Vec → bbox) (dc : disc) :
    dc.boundsFl fl mk
      = ((mk (dc.cornerPP fl) (dc.cornerMM fl)).expand (dc.cornerPM fl)).expand
          (dc.cornerMP fl) ∧
    (dc.boundsFl fl mk).contains (dc.cornerPM fl) ∧
    (dc.boundsFl fl mk).contains (dc.cornerMP fl) ∧
    Vec.le (dc.boundsFl fl mk).minCorner (dc.boundsFl fl mk).maxCorner ∧
    ((∀ a b, (mk a b).contains a ∧ (mk a b).contains b) →
      (dc.boundsFl fl mk).contains (dc.cornerPP fl) ∧
      (dc.boundsFl fl mk).contains (dc.cornerMM fl)) := by
  have h1 := bbox.expand_contains (mk (dc.cornerPP fl) (dc.cornerMM fl)) (dc.cornerPM fl)
  have h2 := bbox.expand_contains
    ((mk (dc.cornerPP fl) (dc.cornerMM fl)).expand (dc.cornerPM fl)) (dc.cornerMP fl)
  have hpm : (dc.boundsFl fl mk).contains (dc.cornerPM fl) := by
    rw [disc.boundsFl_eq]
    exact h2.2 _ h1.1
  refine ⟨rfl, hpm, ?_, ?_, ?_⟩
  · rw [disc.boundsFl_eq]
    exact h2.1
  · simp only [bbox.contains, Vec.le] at hpm ⊢
    obtain ⟨⟨a1, a2, a3⟩, ⟨b1, b2, b3⟩⟩ := hpm
    exact ⟨le_trans a1 b1, le_trans a2 b2, le_trans a3 b3⟩
  · intro hmk
    rw [disc.boundsFl_eq]
    exact ⟨h2.2 _ (h1.2 _ (hmk _ _).1), h2.2 _ (h1.2 _ (hmk _ _).2)⟩

/-- Witness for C15 (as amended), in binary32: the disc built by
`disc(m, (0,0,0), (0,1,0), 1)` with the sorting constructor; the four points are
`(-1,0,-1)`, `(1,0,1)`, `(1,0,-1)` and `(-1,0,1)`, and the box from `(-1,0,-1)`
to `(1,0,1)` contains them. -/
theorem disc_bounds_spec_witness :
    (∀ a b, (bbox.makeSorted a b).contains a ∧ (bbox.makeSorted a b).contains b) ∧
    disc.cornerPP fl32 (disc.makeFl fl32 sqrt32 ⟨0, 0, 0⟩ ⟨0, 1, 0⟩ 1) = ⟨-1, 0, -1⟩ ∧
    disc.cornerMM fl32 (disc.makeFl fl32 sqrt32 ⟨0, 0, 0⟩ ⟨0, 1, 0⟩ 1) = ⟨1, 0, 1⟩ ∧
    disc.cornerPM fl32 (disc.makeFl fl32 sqrt32 ⟨0, 0, 0⟩ ⟨0, 1, 0⟩ 1) = ⟨1, 0, -1⟩ ∧
    disc.cornerMP fl32 (disc.makeFl fl32 sqrt32 ⟨0, 0, 0⟩ ⟨0, 1, 0⟩ 1) = ⟨-1, 0, 1⟩ ∧
    (disc.makeFl fl32 sqrt32 ⟨0, 0, 0⟩ ⟨0, 1, 0⟩ 1).boundsFl fl32 bbox.makeSorted
      = ⟨⟨-1, 0, -1⟩, ⟨1, 0, 1⟩⟩ ∧
    ((disc.makeFl fl32 sqrt32 ⟨0, 0, 0⟩ ⟨0, 1, 0⟩ 1).boundsFl fl32 bbox.makeSorted).contains
      (disc.cornerPP fl32 (disc.makeFl fl32 sqrt32 ⟨0, 0, 0⟩ ⟨0, 1, 0⟩ 1)) ∧
    ((disc.makeFl fl32 sqrt32 ⟨0, 0, 0⟩ ⟨0, 1, 0⟩ 1).boundsFl fl32 bbox.makeSorted).contains
      (disc.cornerMM fl32 (disc.makeFl fl32 sqrt32 ⟨0, 0, 0⟩ ⟨0, 1, 0⟩ 1)) := by
  have hsorted : ∀ a b, (bbox.makeSorted a b).contains a ∧ (bbox.makeSorted a b).contains b := by
    intro a b
    simp only [bbox.contains, bbox.makeSorted, Vec.le, Vec.cwiseMin, Vec.cwiseMax]
    exact ⟨⟨⟨min_le_left _ _, min_le_left _ _, min_le_left _ _⟩,
        ⟨le_max_left _ _, le_max_left _ _, le_max_left _ _⟩⟩,
      ⟨⟨min_le_right _ _, min_le_right _ _, min_le_right _ _⟩,
        ⟨le_max_right _ _, le_max_right _ _, le_max_right _ _⟩⟩⟩
  have key := disc_bounds_spec fl32 bbox.makeSorted
    (disc.makeFl fl32 sqrt32 ⟨0, 0, 0⟩ ⟨0, 1, 0⟩ 1)
  have hc := key.2.2.2.2 hsorted
  refine ⟨hsorted, ?_, ?_, ?_, ?_, ?_, hc.1, hc.2⟩
  · rw [disc.makeFl_unit_up]
    norm_num [disc.cornerPP, Vec.addFl, Vec.scaleFl, fl32_zero, fl32_neg, fl32_one]
  · rw [disc.makeFl_unit_up]
    norm_num [disc.cornerMM, Vec.subFl, Vec.scaleFl, fl32_zero, fl32_neg, fl32_one]
  · rw [disc.makeFl_unit_up]
    norm_num [disc.cornerPM, Vec.addFl, Vec.subFl, Vec.scaleFl, fl32_zero, fl32_neg, fl32_one]
  · rw [disc.makeFl_unit_up]
    norm_num [disc.cornerMP, Vec.addFl, Vec.subFl, Vec.scaleFl, fl32_zero, fl32_neg, fl32_one]
  · rw [disc.makeFl_unit_up]
    norm_num [disc.boundsFl, bbox.makeSorted, bbox.expand, Vec.cwiseMin, Vec.cwiseMax,
      Vec.addFl, Vec.subFl, Vec.scaleFl, fl32_zero, fl32_neg, fl32_one]

end geoms

/-! ## Claims about moving the ray origin -/

namespace geoms.Sphere

end geoms.Sphere

/-! ## Claims about `coordSystem` under rounding -/

namespace math

/-- The first vector of the rounded `coordSystem` in terms of the argument it
passes to `sqrtf`, and the second as the rounded cross product. -/
theorem coordSystemFl_eq (fl sqrtf : ℚ → ℚ) (v1 : Vec) :
    (coordSystemFl fl sqrtf v1).1
      = (if |v1.x| > |v1.y| then
          ⟨fl (-v1.z * fl (1 / sqrtf (coordSystemArgFl fl v1))), 0,
            fl (v1.x * fl (1 / sqrtf (coordSystemArgFl fl v1)))⟩
        else
          ⟨0, fl (v1.z * fl (1 / sqrtf (coordSystemArgFl fl v1))),
            fl (-v1.y * fl (1 / sqrtf (coordSystemArgFl fl v1)))⟩) ∧
    (coordSystemFl fl sqrtf v1).2 = Vec.crossFl fl v1 (coordSystemFl fl sqrtf v1).1 := by
  refine ⟨?_, rfl⟩
  unfold coordSystemFl coordSystemArgFl
  split_ifs <;> rfl

end math

/-! ## `samplePoint` and `uniformSampleHemisphere` in binary32 -/

namespace geoms.Sphere

/-- The rounded `samplePoint` in terms of the three variates it draws. -/
theorem samplePointFl_eq (fl sqrtf : ℚ → ℚ) (s : Sphere) (rng : Randomness) :
    samplePointFl fl sqrtf s rng
      = (⟨fl (s.origin.x + fl (fl (s.radius * fl (1 / sqrtf (fl (fl (fl (rng.stream rng.pos
                * rng.stream rng.pos) + fl (rng.stream (rng.pos + 1) * rng.stream (rng.pos + 1)))
                + fl (rng.stream (rng.pos + 2) * rng.stream (rng.pos + 2)))))) * rng.stream rng.pos)),
          fl (s.origin.y + fl (fl (s.radius * fl (1 / sqrtf (fl (fl (fl (rng.stream rng.pos
                * rng.stream rng.pos) + fl (rng.stream (rng.pos + 1) * rng.stream (rng.pos + 1)))
                + fl (rng.stream (rng.pos + 2) * rng.stream (rng.pos + 2))))))
              * rng.stream (rng.pos + 1))),
          fl (s.origin.z + fl (fl (s.radius * fl (1 / sqrtf (fl (fl (fl (rng.stream rng.pos
                * rng.stream rng.pos) + fl (rng.stream (rng.pos + 1) * rng.stream (rng.pos + 1)))
                + fl (rng.stream (rng.pos + 2) * rng.stream (rng.pos + 2))))))
              * rng.stream (rng.pos + 2)))⟩,
        ⟨fl (fl (1 / sqrtf (fl (fl (fl (rng.stream rng.pos * rng.stream rng.pos)
              + fl (rng.stream (rng.pos + 1) * rng.stream (rng.pos + 1)))
              + fl (rng.stream (rng.pos + 2) * rng.stream (rng.pos + 2))))) * rng.stream rng.pos),
          fl (fl (1 / sqrtf (fl (fl (fl (rng.stream rng.pos * rng.stream rng.pos)
              + fl (rng.stream (rng.pos + 1) * rng.stream (rng.pos + 1)))
              + fl (rng.stream (rng.pos + 2) * rng.stream (rng.pos + 2)))))
            * rng.stream (rng.pos + 1)),
          fl (fl (1 / sqrtf (fl (fl (fl (rng.stream rng.pos * rng.stream rng.pos)
              + fl (rng.stream (rng.pos + 1) * rng.stream (rng.pos + 1)))
              + fl (rng.stream (rng.pos + 2) * rng.stream (rng.pos + 2)))))
            * rng.stream (rng.pos + 2))⟩,
        { rng with pos := rng.pos + 3 }) := rfl

/-- C8 (counterexample, binary32): the unit sphere at the origin and a source
whose next three variates are `1, 1, 1`: the code computes `a = 1 / sqrtf(3) = 4843165 / 2^23` and
returns the position and the normal `(a, a, a)`.  The squared length of the
normal is `3 a²`, which is less than `1`, and the code computes it as
`1 - 2^-24`, in whichever order it adds the three products: the normal is not
of unit length and the position is not at distance `1` from the centre. -/
theorem samplePoint_not_on_sphere :
    (samplePointFl fl32 sqrt32 ⟨⟨0, 0, 0⟩, 1⟩ ⟨fun _ => 1, 0⟩).1
      = ⟨4843165 / 8388608, 4843165 / 8388608, 4843165 / 8388608⟩ ∧
    (samplePointFl fl32 sqrt32 ⟨⟨0, 0, 0⟩, 1⟩ ⟨fun _ => 1, 0⟩).2.1
      = ⟨4843165 / 8388608, 4843165 / 8388608, 4843165 / 8388608⟩ ∧
    Vec.dot (samplePointFl fl32 sqrt32 ⟨⟨0, 0, 0⟩, 1⟩ ⟨fun _ => 1, 0⟩).2.1
      (samplePointFl fl32 sqrt32 ⟨⟨0, 0, 0⟩, 1⟩ ⟨fun _ => 1, 0⟩).2.1 < 1 ∧
    Vec.dotFlE fl32 (samplePointFl fl32 sqrt32 ⟨⟨0, 0, 0⟩, 1⟩ ⟨fun _ => 1, 0⟩).2.1
      (samplePointFl fl32 sqrt32 ⟨⟨0, 0, 0⟩, 1⟩ ⟨fun _ => 1, 0⟩).2.1 = 16777215 / 16777216 ∧
    Vec.dotFl fl32 (samplePointFl fl32 sqrt32 ⟨⟨0, 0, 0⟩, 1⟩ ⟨fun _ => 1, 0⟩).2.1
      (samplePointFl fl32 sqrt32 ⟨⟨0, 0, 0⟩, 1⟩ ⟨fun _ => 1, 0⟩).2.1 = 16777215 / 16777216 ∧
    ((samplePointFl fl32 sqrt32 ⟨⟨0, 0, 0⟩, 1⟩ ⟨fun _ => 1, 0⟩).1 - ⟨0, 0, 0⟩).squaredNorm
      < 1 * 1 := by
  have f2 : fl32 (2) = 2 := by
    have h := fl32_eq_of (2) 8388608 (-22) (by norm_num) (by norm_num) (by norm_num)
      (by norm_num) (by norm_num) (by norm_num)
    rw [h]
    norm_num
  have f3 : fl32 (3) = 3 := by
    have h := fl32_eq_of (3) 12582912 (-22) (by norm_num) (by norm_num) (by norm_num)
      (by norm_num) (by norm_num) (by norm_num)
    rw [h]
    norm_num
  have f4 : sqrt32 (3) = 14529495 / 8388608 := by
    apply sqrt32_eq_of (3) 2783298337271936389241949975737560737185386000295576744728775 (14529495 / 8388608)
    · norm_num
    · norm_num
    · have h := fl32_eq_of ((2783298337271936389241949975737560737185386000295576744728775 : ℕ) / 2 ^ 200) 14529495 (-23) (by norm_num) (by norm_num)
        (by norm_num) (by norm_num) (by norm_num) (by norm_num)
      rw [h]
      norm_num
  have f5 : fl32 (8388608 / 14529495) = 4843165 / 8388608 := by
    have h := fl32_eq_of (8388608 / 14529495) 9686330 (-24) (by norm_num) (by norm_num) (by norm_num)
      (by norm_num) (by norm_num) (by norm_num)
    rw [h]
    norm_num
  have f6 : fl32 (4843165 / 8388608) = 4843165 / 8388608 := by
    have h := fl32_eq_of (4843165 / 8388608) 9686330 (-24) (by norm_num) (by norm_num) (by norm_num)
      (by norm_num) (by norm_num) (by norm_num)
    rw [h]
    norm_num
  have f7 : fl32 (23456247217225 / 70368744177664) = 5592405 / 16777216 := by
    have h := fl32_eq_of (23456247217225 / 70368744177664) 11184810 (-25) (by norm_num) (by norm_num) (by norm_num)
      (by norm_num) (by norm_num) (by norm_num)
    rw [h]
    norm_num
  have f8 : fl32 (5592405 / 8388608) = 5592405 / 8388608 := by
    have h := fl32_eq_of (5592405 / 8388608) 11184810 (-24) (by norm_num) (by norm_num) (by norm_num)
      (by norm_num) (by norm_num) (by norm_num)
    rw [h]
    norm_num
  have f9 : fl32 (16777215 / 16777216) = 16777215 / 16777216 := by
    have h := fl32_eq_of (16777215 / 16777216) 16777215 (-24) (by norm_num) (by norm_num) (by norm_num)
      (by norm_num) (by norm_num) (by norm_num)
    rw [h]
    norm_num
  have hpos : (samplePointFl fl32 sqrt32 ⟨⟨0, 0, 0⟩, 1⟩ ⟨fun _ => 1, 0⟩).1
      = ⟨4843165 / 8388608, 4843165 / 8388608, 4843165 / 8388608⟩ := by
    rw [samplePointFl_eq]
    norm_num [fl32_zero, fl32_neg, fl32_one, f2, f3, f4, f5, f6, f7, f8, f9]
  have hnrm : (samplePointFl fl32 sqrt32 ⟨⟨0, 0, 0⟩, 1⟩ ⟨fun _ => 1, 0⟩).2.1
      = ⟨4843165 / 8388608, 4843165 / 8388608, 4843165 / 8388608⟩ := by
    rw [samplePointFl_eq]
    norm_num [fl32_zero, fl32_neg, fl32_one, f2, f3, f4, f5, f6, f7, f8, f9]
  refine ⟨hpos, hnrm, ?_, ?_, ?_, ?_⟩
  · rw [hnrm]
    norm_num [Vec.dot]
  · rw [hnrm]
    norm_num [Vec.dotFlE, fl32_zero, fl32_neg, fl32_one, f2, f3, f4, f5, f6, f7, f8, f9]
  · rw [hnrm]
    norm_num [Vec.dotFl, fl32_zero, fl32_neg, fl32_one, f2, f3, f4, f5, f6, f7, f8, f9]
  · rw [hpos]
    norm_num [Vec.squaredNorm, Vec.dot, Vec.sub_def]

/-- In binary32, a source whose next three variates are `2^-80, 0, 0`, which are
not all zero: the square `2^-160` rounds to `0`, the sum of squares is computed
as `0`, and `sqrtf` of it is `0`, so `samplePoint` divides by zero. -/
theorem samplePoint_divides_by_zero :
    fl32 ((2 : ℚ) ^ (-80 : ℤ) * (2 : ℚ) ^ (-80 : ℤ)) = 0 ∧
    sqrt32 (fl32 (fl32 (fl32 ((2 : ℚ) ^ (-80 : ℤ) * (2 : ℚ) ^ (-80 : ℤ)) + fl32 (0 * 0))
      + fl32 (0 * 0))) = 0 := by
  have h : fl32 ((2 : ℚ) ^ (-80 : ℤ) * (2 : ℚ) ^ (-80 : ℤ)) = 0 :=
    fl32_eq_zero_of_lt _ (by positivity) (by norm_num)
  refine ⟨h, ?_⟩
  rw [h]
  norm_num [fl32_zero, sqrt32_zero]

end geoms.Sphere

/-! ## Accuracy of the binary32 operations and of `samplePoint` -/

/-! ## The rounding error of `fl32` and `sqrt32` -/

theorem roundHalfEven_sub_le (q : ℚ) :
    (roundHalfEven q : ℚ) - q ≤ 1 / 2 ∧ q - (roundHalfEven q : ℚ) ≤ 1 / 2 := by
  have h1 : (⌊q⌋ : ℚ) ≤ q := Int.floor_le q
  have h2 : q < (⌊q⌋ : ℚ) + 1 := Int.lt_floor_add_one q
  unfold roundHalfEven
  split_ifs with a b c
  · constructor <;> linarith
  · push_cast
    constructor <;> linarith
  · constructor <;> linarith
  · push_cast
    constructor <;> linarith

/-- The error of one rounding is at most half a unit in the last place. -/
theorem fl32_sub_le (x : ℚ) (hx : 0 < x) :
    fl32 x - x ≤ (2 : ℚ) ^ ulpExp x / 2 ∧ x - fl32 x ≤ (2 : ℚ) ^ ulpExp x / 2 := by
  have hp : (0 : ℚ) < (2 : ℚ) ^ ulpExp x := zpow_pos (by norm_num) _
  obtain ⟨h1, h2⟩ := roundHalfEven_sub_le (x / (2 : ℚ) ^ ulpExp x)
  rw [fl32_of_pos x hx]
  have hq : x / (2 : ℚ) ^ ulpExp x * (2 : ℚ) ^ ulpExp x = x := div_mul_cancel₀ x hp.ne'
  constructor
  · have := mul_le_mul_of_nonneg_right h1 hp.le
    rw [sub_mul, hq] at this
    linarith
  · have := mul_le_mul_of_nonneg_right h2 hp.le
    rw [sub_mul, hq] at this
    linarith

/-- In the normal range the unit in the last place is at most `2⁻²³ x`. -/
theorem zpow_ulpExp_le_mul (x : ℚ) (hx : (2 : ℚ) ^ (-126 : ℤ) ≤ x) :
    (2 : ℚ) ^ ulpExp x ≤ x * (1 / 8388608) := by
  have hx0 : 0 < x := lt_of_lt_of_le (zpow_pos (by norm_num) _) hx
  have hlog : -126 ≤ Int.log 2 x := (Int.zpow_le_iff_le_log (by norm_num) hx0).mp (by exact_mod_cast hx)
  have he : ulpExp x = Int.log 2 x - 23 := by
    unfold ulpExp
    rw [abs_of_pos hx0]
    exact max_eq_left (by omega)
  have h1 : ((2 : ℕ) : ℚ) ^ (Int.log 2 x) ≤ x := Int.zpow_log_le_self (by norm_num) hx0
  push_cast at h1
  rw [he, zpow_sub₀ (by norm_num : (2 : ℚ) ≠ 0)]
  have h23 : (2 : ℚ) ^ (23 : ℤ) = 8388608 := by norm_num
  rw [h23, div_eq_mul_one_div]
  exact mul_le_mul_of_nonneg_right h1 (by norm_num)

/-- The relative error of one rounding in the normal range is at most `2⁻²⁴`. -/
theorem fl32_rel (x : ℚ) (hx : (2 : ℚ) ^ (-126 : ℤ) ≤ x) :
    x * (1 - 1 / 16777216) ≤ fl32 x ∧ fl32 x ≤ x * (1 + 1 / 16777216) := by
  have hx0 : 0 < x := lt_of_lt_of_le (zpow_pos (by norm_num) _) hx
  obtain ⟨h1, h2⟩ := fl32_sub_le x hx0
  have h3 := zpow_ulpExp_le_mul x hx
  constructor <;> linarith

/-- The error of one rounding is at most `2⁻²⁴ |x| + 2⁻¹⁵⁰`, whatever the range. -/
theorem fl32_abs_err (x : ℚ) : |fl32 x - x| ≤ |x| * (1 / 16777216) + (2 : ℚ) ^ (-150 : ℤ) := by
  have hpos : ∀ y : ℚ, 0 < y → |fl32 y - y| ≤ y * (1 / 16777216) + (2 : ℚ) ^ (-150 : ℤ) := by
    intro y hy
    obtain ⟨h1, h2⟩ := fl32_sub_le y hy
    have h150 : (0 : ℚ) < (2 : ℚ) ^ (-150 : ℤ) := zpow_pos (by norm_num) _
    rw [abs_le]
    by_cases hn : (2 : ℚ) ^ (-126 : ℤ) ≤ y
    · have h3 := zpow_ulpExp_le_mul y hn
      generalize (2 : ℚ) ^ (-150 : ℤ) = t at h150 ⊢
      constructor <;> linarith
    · have hlt : y < (2 : ℚ) ^ (-126 : ℤ) := not_le.mp hn
      have hlog : Int.log 2 y < -126 :=
        (Int.lt_zpow_iff_log_lt (by norm_num) hy).mp (by exact_mod_cast hlt)
      have he : ulpExp y = -149 := by
        unfold ulpExp
        rw [abs_of_pos hy]
        exact max_eq_right (by omega)
      rw [he] at h1 h2
      have h149 : (2 : ℚ) ^ (-149 : ℤ) / 2 = (2 : ℚ) ^ (-150 : ℤ) := by norm_num
      rw [h149] at h1 h2
      have : 0 ≤ y * (1 / 16777216) := by positivity
      generalize (2 : ℚ) ^ (-150 : ℤ) = t at h1 h2 h150 ⊢
      constructor <;> linarith
  rcases lt_trichotomy x 0 with h | h | h
  · have := hpos (-x) (by linarith)
    rw [fl32_neg] at this
    rw [abs_of_neg h]
    rw [show fl32 x - x = -(-fl32 x - -x) by ring, abs_neg]
    exact this
  · rw [h, fl32_zero]
    simp
    positivity
  · rw [abs_of_pos h]
    exact hpos x h

theorem ulpRel_pos : 0 < ulpRel := by norm_num [ulpRel]

theorem one_le_ulpRel : 1 ≤ ulpRel := by norm_num [ulpRel]

theorem one_le_ulpRel_pow (k : ℕ) : 1 ≤ ulpRel ^ k := one_le_pow₀ one_le_ulpRel

theorem Near.refl (x : ℚ) : Near 0 x x := by
  constructor <;> simp

theorem Near.symm {k : ℕ} {x v : ℚ} (h : Near k x v) : Near k v x := ⟨h.2, h.1⟩

theorem Near.mono {k l : ℕ} {x v : ℚ} (hx : 0 ≤ x) (hv : 0 ≤ v) (hkl : k ≤ l) (h : Near k x v) :
    Near l x v := by
  have hp : ulpRel ^ k ≤ ulpRel ^ l := pow_le_pow_right₀ one_le_ulpRel hkl
  exact ⟨le_trans h.1 (mul_le_mul_of_nonneg_left hp hx),
    le_trans h.2 (mul_le_mul_of_nonneg_left hp hv)⟩

theorem Near.trans {k l : ℕ} {x y z : ℚ} (h1 : Near k x y) (h2 : Near l y z) :
    Near (k + l) x z := by
  have hk : 0 ≤ ulpRel ^ k := (pow_pos ulpRel_pos k).le
  have hl : 0 ≤ ulpRel ^ l := (pow_pos ulpRel_pos l).le
  constructor <;> rw [pow_add]
  · calc z ≤ y * ulpRel ^ l := h2.1
      _ ≤ (x * ulpRel ^ k) * ulpRel ^ l := mul_le_mul_of_nonneg_right h1.1 hl
      _ = x * (ulpRel ^ k * ulpRel ^ l) := by ring
  · calc x ≤ y * ulpRel ^ k := h1.2
      _ ≤ (z * ulpRel ^ l) * ulpRel ^ k := mul_le_mul_of_nonneg_right h2.2 hk
      _ = z * (ulpRel ^ k * ulpRel ^ l) := by ring

theorem Near.add {k : ℕ} {x v y w : ℚ} (h1 : Near k x v) (h2 : Near k y w) :
    Near k (x + y) (v + w) := by
  constructor <;> rw [add_mul]
  · exact add_le_add h1.1 h2.1
  · exact add_le_add h1.2 h2.2

theorem Near.mul {k l : ℕ} {x v y w : ℚ} (hx : 0 ≤ x) (hv : 0 ≤ v) (hy : 0 ≤ y) (hw : 0 ≤ w)
    (h1 : Near k x v) (h2 : Near l y w) : Near (k + l) (x * y) (v * w) := by
  have hk : 0 ≤ ulpRel ^ k := (pow_pos ulpRel_pos k).le
  have hl : 0 ≤ ulpRel ^ l := (pow_pos ulpRel_pos l).le
  constructor <;> rw [pow_add]
  · calc v * w ≤ (x * ulpRel ^ k) * (y * ulpRel ^ l) :=
          mul_le_mul h1.1 h2.1 hw (mul_nonneg hx hk)
      _ = x * y * (ulpRel ^ k * ulpRel ^ l) := by ring
  · calc x * y ≤ (v * ulpRel ^ k) * (w * ulpRel ^ l) :=
          mul_le_mul h1.2 h2.2 hy (mul_nonneg hv hk)
      _ = v * w * (ulpRel ^ k * ulpRel ^ l) := by ring

theorem Near.inv {k : ℕ} {x v : ℚ} (hx : 0 < x) (hv : 0 < v) (h : Near k x v) :
    Near k (1 / x) (1 / v) := by
  constructor
  · rw [div_mul_eq_mul_div, one_mul, div_le_div_iff₀ hv hx]
    linarith [h.2]
  · rw [div_mul_eq_mul_div, one_mul, div_le_div_iff₀ hx hv]
    linarith [h.1]

/-- One rounding in the normal range, or of `0`, keeps the value up to one step. -/
theorem near_fl32 (x : ℚ) (hx : x = 0 ∨ (2 : ℚ) ^ (-126 : ℤ) ≤ x) : Near 1 (fl32 x) x := by
  rcases hx with h0 | hx
  · rw [h0, fl32_zero]
    constructor <;> simp
  · have hx0 : 0 < x := lt_of_lt_of_le (zpow_pos (by norm_num) _) hx
    obtain ⟨h1, h2⟩ := fl32_rel x hx
    constructor <;> rw [pow_one]
    · have : x * (1 - 1 / 16777216) * ulpRel ≤ fl32 x * ulpRel :=
        mul_le_mul_of_nonneg_right h1 ulpRel_pos.le
      have he : x * (1 - 1 / 16777216) * ulpRel = x := by
        unfold ulpRel
        ring
      linarith
    · refine le_trans h2 (mul_le_mul_of_nonneg_left ?_ hx0.le)
      norm_num [ulpRel]

/-- The square of the binary32 square root of `s ≥ 2⁻¹²⁰` agrees with `s` up to
three rounding steps. -/
theorem near_sqrt32 (s : ℚ) (hs : (2 : ℚ) ^ (-120 : ℤ) ≤ s) :
    Near 3 (sqrt32 s * sqrt32 s) s ∧ 0 < sqrt32 s := by
  have hs' : (1 : ℚ) / 2 ^ 120 ≤ s := by
    refine le_trans ?_ hs
    norm_num
  have hs0 : 0 < s := lt_of_lt_of_le (by positivity) hs'
  have h4 : (0 : ℚ) < 4 ^ 200 := by positivity
  have hN0 : (0 : ℚ) ≤ s * 4 ^ 200 := (mul_pos hs0 h4).le
  -- the truncated root
  have hr1 : Nat.sqrt ⌊s * 4 ^ 200⌋₊ * Nat.sqrt ⌊s * 4 ^ 200⌋₊ ≤ ⌊s * 4 ^ 200⌋₊ :=
    Nat.sqrt_le _
  have hr2 : ⌊s * 4 ^ 200⌋₊ < (Nat.sqrt ⌊s * 4 ^ 200⌋₊ + 1) * (Nat.sqrt ⌊s * 4 ^ 200⌋₊ + 1) :=
    Nat.lt_succ_sqrt _
  have hfl1 : ((⌊s * 4 ^ 200⌋₊ : ℕ) : ℚ) ≤ s * 4 ^ 200 := Nat.floor_le hN0
  have hfl2 : s * 4 ^ 200 < ((⌊s * 4 ^ 200⌋₊ : ℕ) : ℚ) + 1 := Nat.lt_floor_add_one _
  have hr1q : (Nat.sqrt ⌊s * 4 ^ 200⌋₊ : ℚ) * (Nat.sqrt ⌊s * 4 ^ 200⌋₊ : ℚ)
      ≤ ((⌊s * 4 ^ 200⌋₊ : ℕ) : ℚ) := by exact_mod_cast hr1
  have hr2q : ((⌊s * 4 ^ 200⌋₊ : ℕ) : ℚ) + 1
      ≤ ((Nat.sqrt ⌊s * 4 ^ 200⌋₊ : ℚ) + 1) * ((Nat.sqrt ⌊s * 4 ^ 200⌋₊ : ℚ) + 1) := by
    exact_mod_cast hr2
  have hr0 : (0 : ℚ) ≤ (Nat.sqrt ⌊s * 4 ^ 200⌋₊ : ℚ) := Nat.cast_nonneg _
  unfold sqrt32
  generalize (Nat.sqrt ⌊s * 4 ^ 200⌋₊ : ℚ) = r at hr1q hr2q hr0 ⊢
  generalize ((⌊s * 4 ^ 200⌋₊ : ℕ) : ℚ) = n at hfl1 hfl2 hr1q hr2q
  have h2 : (0 : ℚ) < 2 ^ 200 := by positivity
  have h42 : (4 : ℚ) ^ 200 = 2 ^ 200 * 2 ^ 200 := by norm_num
  have ht1 : r / 2 ^ 200 * (r / 2 ^ 200) ≤ s := by
    rw [div_mul_div_comm, div_le_iff₀ (mul_pos h2 h2), ← h42]
    linarith
  have ht2 : s < (r / 2 ^ 200 + 1 / 2 ^ 200) * (r / 2 ^ 200 + 1 / 2 ^ 200) := by
    rw [← add_div, div_mul_div_comm, lt_div_iff₀ (mul_pos h2 h2), ← h42]
    linarith
  have ht0 : 0 ≤ r / 2 ^ 200 := div_nonneg hr0 h2.le
  generalize r / 2 ^ 200 = t at ht1 ht2 ht0 ⊢
  -- the truncated root is at least `2⁻⁶¹`
  have hd : (0 : ℚ) < 1 / 2 ^ 200 := by positivity
  have ht61 : (1 : ℚ) / 2 ^ 61 ≤ t := by
    by_contra hneg
    push_neg at hneg
    have hlt : t + 1 / 2 ^ 200 < 1 / 2 ^ 60 := by
      have : (1 : ℚ) / 2 ^ 61 + 1 / 2 ^ 200 ≤ 1 / 2 ^ 60 := by norm_num
      linarith
    have hsq : (t + 1 / 2 ^ 200) * (t + 1 / 2 ^ 200) < 1 / 2 ^ 60 * (1 / 2 ^ 60) :=
      mul_lt_mul'' hlt hlt (by linarith) (by linarith)
    have h120 : (1 : ℚ) / 2 ^ 60 * (1 / 2 ^ 60) = 1 / 2 ^ 120 := by norm_num
    linarith
  have htpos : 0 < t := lt_of_lt_of_le (by positivity) ht61
  have ht126 : (2 : ℚ) ^ (-126 : ℤ) ≤ t := by
    refine le_trans ?_ ht61
    norm_num
  obtain ⟨hw1, hw2⟩ := fl32_rel t ht126
  have hw0 : 0 < fl32 t := lt_of_lt_of_le (mul_pos htpos (by norm_num)) hw1
  refine ⟨?_, hw0⟩
  constructor
  · -- s ≤ w² β³
    have hδ : t + 1 / 2 ^ 200 ≤ t * (1 + 1 / 2 ^ 139) := by
      have : (1 : ℚ) / 2 ^ 200 ≤ 1 / 2 ^ 61 * (1 / 2 ^ 139) := by norm_num
      have h139 : (0 : ℚ) ≤ 1 / 2 ^ 139 := by positivity
      have := mul_le_mul_of_nonneg_right ht61 h139
      linarith
    have htw : t ≤ fl32 t * ulpRel := by
      have := mul_le_mul_of_nonneg_right hw1 ulpRel_pos.le
      have he : t * (1 - 1 / 16777216) * ulpRel = t := by
        unfold ulpRel
        ring
      linarith
    have h1 : t + 1 / 2 ^ 200 ≤ fl32 t * (ulpRel * (1 + 1 / 2 ^ 139)) := by
      have h139 : (0 : ℚ) ≤ 1 + 1 / 2 ^ 139 := by positivity
      have := mul_le_mul_of_nonneg_right htw h139
      linarith
    have hpos1 : 0 ≤ t + 1 / 2 ^ 200 := by linarith
    have h2' : (t + 1 / 2 ^ 200) * (t + 1 / 2 ^ 200)
        ≤ fl32 t * (ulpRel * (1 + 1 / 2 ^ 139)) * (fl32 t * (ulpRel * (1 + 1 / 2 ^ 139))) :=
      mul_le_mul h1 h1 hpos1 (le_trans hpos1 h1)
    have hnum : ulpRel * (1 + 1 / 2 ^ 139) * (ulpRel * (1 + 1 / 2 ^ 139)) ≤ ulpRel ^ 3 := by
      norm_num [ulpRel]
    have hww : 0 ≤ fl32 t * fl32 t := mul_self_nonneg _
    have := mul_le_mul_of_nonneg_left hnum hww
    nlinarith
  · -- w² ≤ s β³
    have h1 : fl32 t * fl32 t ≤ t * (1 + 1 / 16777216) * (t * (1 + 1 / 16777216)) :=
      mul_le_mul hw2 hw2 hw0.le (le_trans hw0.le hw2)
    have hnum : (1 + 1 / 16777216 : ℚ) * (1 + 1 / 16777216) ≤ ulpRel ^ 3 := by
      norm_num [ulpRel]
    have htt : 0 ≤ t * t := mul_self_nonneg _
    have h3 := mul_le_mul_of_nonneg_left hnum htt
    have h4' : t * t * ulpRel ^ 3 ≤ s * ulpRel ^ 3 :=
      mul_le_mul_of_nonneg_right ht1 (pow_pos ulpRel_pos 3).le
    nlinarith

/-- Up to twenty rounding steps change a value by less than a factor `2`. -/
theorem Near.half {k : ℕ} {a v : ℚ} (hk : k ≤ 20) (ha : 0 ≤ a) (hv : 0 ≤ v) (h : Near k a v) :
    v ≤ 2 * a ∧ a ≤ 2 * v := by
  have h20 : ulpRel ^ 20 ≤ 2 := by norm_num [ulpRel]
  have hp : ulpRel ^ k ≤ 2 := le_trans (pow_le_pow_right₀ one_le_ulpRel hk) h20
  constructor
  · calc v ≤ a * ulpRel ^ k := h.1
      _ ≤ a * 2 := mul_le_mul_of_nonneg_left hp ha
      _ = 2 * a := mul_comm _ _
  · calc a ≤ v * ulpRel ^ k := h.2
      _ ≤ v * 2 := mul_le_mul_of_nonneg_left hp hv
      _ = 2 * v := mul_comm _ _

/-- The square of a variate that is `0` or of magnitude at least `2⁻³⁰` is `0` or
in the normal range. -/
theorem sq_zero_or_normal (x : ℚ) (hx : x = 0 ∨ (1 / 2 ^ 30 ≤ |x| ∧ |x| ≤ 2 ^ 30)) :
    (x * x = 0 ∨ (1 : ℚ) / 2 ^ 60 ≤ x * x) ∧ x * x ≤ 2 ^ 60 := by
  rcases hx with h0 | ⟨h1, h2⟩
  · rw [h0]
    norm_num
  · rw [← abs_mul_abs_self x]
    have ha : 0 ≤ |x| := abs_nonneg x
    constructor
    · right
      have := mul_le_mul h1 h1 (by positivity) ha
      refine le_trans ?_ this
      norm_num
    · have := mul_le_mul h2 h2 ha (by positivity)
      refine le_trans this ?_
      norm_num

theorem fl32_mul_self_abs (a x : ℚ) :
    fl32 (a * x) * fl32 (a * x) = fl32 (a * |x|) * fl32 (a * |x|) := by
  rcases le_or_lt 0 x with h | h
  · rw [abs_of_nonneg h]
  · rw [abs_of_neg h, mul_neg, fl32_neg]
    ring

/-- The rounded sum of the rounded squares of three variates, each `0` or of
magnitude between `2⁻³⁰` and `2³⁰` and not all `0`, agrees with the sum of
squares up to three rounding steps. -/
theorem near_sum_sq (x y z : ℚ) (hx : x = 0 ∨ (1 / 2 ^ 30 ≤ |x| ∧ |x| ≤ 2 ^ 30))
    (hy : y = 0 ∨ (1 / 2 ^ 30 ≤ |y| ∧ |y| ≤ 2 ^ 30))
    (hz : z = 0 ∨ (1 / 2 ^ 30 ≤ |z| ∧ |z| ≤ 2 ^ 30))
    (hne : x ≠ 0 ∨ y ≠ 0 ∨ z ≠ 0) :
    Near 3 (fl32 (fl32 (fl32 (x * x) + fl32 (y * y)) + fl32 (z * z))) (x * x + y * y + z * z) ∧
    (1 : ℚ) / 2 ^ 60 ≤ x * x + y * y + z * z ∧ x * x + y * y + z * z ≤ 3 * 2 ^ 60 := by
  obtain ⟨hx1, hx2⟩ := sq_zero_or_normal x hx
  obtain ⟨hy1, hy2⟩ := sq_zero_or_normal y hy
  obtain ⟨hz1, hz2⟩ := sq_zero_or_normal z hz
  have hxx : 0 ≤ x * x := mul_self_nonneg x
  have hyy : 0 ≤ y * y := mul_self_nonneg y
  have hzz : 0 ≤ z * z := mul_self_nonneg z
  have h126 : (2 : ℚ) ^ (-126 : ℤ) ≤ 1 / 2 ^ 62 := by norm_num
  have hnorm : ∀ v : ℚ, v = 0 ∨ (1 : ℚ) / 2 ^ 60 ≤ v → v = 0 ∨ (2 : ℚ) ^ (-126 : ℤ) ≤ v := by
    intro v hv
    rcases hv with h | h
    · exact Or.inl h
    · right
      refine le_trans h126 (le_trans ?_ h)
      norm_num
  have hX := near_fl32 (x * x) (hnorm _ hx1)
  have hY := near_fl32 (y * y) (hnorm _ hy1)
  have hZ := near_fl32 (z * z) (hnorm _ hz1)
  have hX0 := fl32_nonneg _ hxx
  have hY0 := fl32_nonneg _ hyy
  have hZ0 := fl32_nonneg _ hzz
  -- the sum of squares is at least `2⁻⁶⁰`
  have hsum : (1 : ℚ) / 2 ^ 60 ≤ x * x + y * y + z * z := by
    rcases hne with h | h | h
    · rcases hx1 with h0 | h1
      · exact absurd (mul_self_eq_zero.mp h0) h
      · linarith
    · rcases hy1 with h0 | h1
      · exact absurd (mul_self_eq_zero.mp h0) h
      · linarith
    · rcases hz1 with h0 | h1
      · exact absurd (mul_self_eq_zero.mp h0) h
      · linarith
  -- first sum
  have hXY : Near 1 (fl32 (x * x) + fl32 (y * y)) (x * x + y * y) := Near.add hX hY
  have hXY0 : 0 ≤ fl32 (x * x) + fl32 (y * y) := add_nonneg hX0 hY0
  have hXYarg : fl32 (x * x) + fl32 (y * y) = 0 ∨
      (2 : ℚ) ^ (-126 : ℤ) ≤ fl32 (x * x) + fl32 (y * y) := by
    rcases hx1 with hx0 | hx1
    · rcases hy1 with hy0 | hy1
      · left
        rw [hx0, hy0, fl32_zero]
        norm_num
      · right
        have := (Near.half (by norm_num) hXY0 (add_nonneg hxx hyy) hXY).1
        refine le_trans h126 ?_
        have h62 : (1 : ℚ) / 2 ^ 62 = 1 / 2 ^ 60 / 4 := by norm_num
        linarith
    · right
      have := (Near.half (by norm_num) hXY0 (add_nonneg hxx hyy) hXY).1
      refine le_trans h126 ?_
      have h62 : (1 : ℚ) / 2 ^ 62 = 1 / 2 ^ 60 / 4 := by norm_num
      linarith
  have hS1 : Near 2 (fl32 (fl32 (x * x) + fl32 (y * y))) (x * x + y * y) :=
    Near.trans (near_fl32 _ hXYarg) hXY
  have hS10 := fl32_nonneg _ hXY0
  -- second sum
  have hS : Near 2 (fl32 (fl32 (x * x) + fl32 (y * y)) + fl32 (z * z))
      (x * x + y * y + z * z) := Near.add hS1 (Near.mono hZ0 hzz (by norm_num) hZ)
  have hS0 : 0 ≤ fl32 (fl32 (x * x) + fl32 (y * y)) + fl32 (z * z) := add_nonneg hS10 hZ0
  have hSarg : (2 : ℚ) ^ (-126 : ℤ) ≤ fl32 (fl32 (x * x) + fl32 (y * y)) + fl32 (z * z) := by
    have := (Near.half (by norm_num) hS0 (by linarith) hS).1
    refine le_trans h126 ?_
    have h62 : (1 : ℚ) / 2 ^ 62 = 1 / 2 ^ 60 / 4 := by norm_num
    linarith
  refine ⟨Near.trans (near_fl32 _ (Or.inr hSarg)) hS, hsum, by linarith⟩

/-- The factor `a = 1 / sqrtf(x² + y² + z²)` as the code computes it: `a²` agrees
with `1 / (x² + y² + z²)` up to eight rounding steps, and `2⁻³³ ≤ a ≤ 2³¹`. -/
theorem near_inv_norm (x y z : ℚ) (hx : x = 0 ∨ (1 / 2 ^ 30 ≤ |x| ∧ |x| ≤ 2 ^ 30))
    (hy : y = 0 ∨ (1 / 2 ^ 30 ≤ |y| ∧ |y| ≤ 2 ^ 30))
    (hz : z = 0 ∨ (1 / 2 ^ 30 ≤ |z| ∧ |z| ≤ 2 ^ 30))
    (hne : x ≠ 0 ∨ y ≠ 0 ∨ z ≠ 0) :
    Near 8
      (fl32 (1 / sqrt32 (fl32 (fl32 (fl32 (x * x) + fl32 (y * y)) + fl32 (z * z))))
        * fl32 (1 / sqrt32 (fl32 (fl32 (fl32 (x * x) + fl32 (y * y)) + fl32 (z * z)))))
      (1 / (x * x + y * y + z * z)) ∧
    (1 : ℚ) / 2 ^ 33
      ≤ fl32 (1 / sqrt32 (fl32 (fl32 (fl32 (x * x) + fl32 (y * y)) + fl32 (z * z)))) ∧
    fl32 (1 / sqrt32 (fl32 (fl32 (fl32 (x * x) + fl32 (y * y)) + fl32 (z * z)))) ≤ 2 ^ 31 := by
  obtain ⟨hs, hlo, hhi⟩ := near_sum_sq x y z hx hy hz hne
  have hSpos : 0 < x * x + y * y + z * z := lt_of_lt_of_le (by positivity) hlo
  generalize fl32 (fl32 (fl32 (x * x) + fl32 (y * y)) + fl32 (z * z)) = s at hs ⊢
  generalize x * x + y * y + z * z = S at hs hlo hhi hSpos ⊢
  have hs0 : 0 ≤ s := by
    have := hs.1
    by_contra hneg
    push_neg at hneg
    have : s * ulpRel ^ 3 < 0 := mul_neg_of_neg_of_pos hneg (pow_pos ulpRel_pos 3)
    linarith
  obtain ⟨hsS, hSs⟩ := Near.half (by norm_num) hs0 hSpos.le hs
  have hs120 : (2 : ℚ) ^ (-120 : ℤ) ≤ s := by
    have : (2 : ℚ) ^ (-120 : ℤ) ≤ 1 / 2 ^ 60 / 2 := by norm_num
    refine le_trans this ?_
    linarith
  obtain ⟨hw, hwpos⟩ := near_sqrt32 s hs120
  generalize sqrt32 s = w at hw hwpos ⊢
  have hww : Near 6 (w * w) S := Near.trans hw hs
  have hww0 : 0 < w * w := mul_pos hwpos hwpos
  obtain ⟨h1, h2⟩ := Near.half (by norm_num) hww0.le hSpos.le hww
  -- bounds on `w`
  have hwhi : w ≤ 2 ^ 32 := by
    by_contra hneg
    push_neg at hneg
    have : (2 : ℚ) ^ 32 * 2 ^ 32 < w * w := mul_lt_mul'' hneg hneg (by positivity) (by positivity)
    have h64 : (2 : ℚ) ^ 32 * 2 ^ 32 = 2 ^ 64 := by norm_num
    have : (3 : ℚ) * 2 ^ 60 * 2 < 2 ^ 64 := by norm_num
    linarith
  have hwlo : (1 : ℚ) / 2 ^ 31 ≤ w := by
    by_contra hneg
    push_neg at hneg
    have : w * w < 1 / 2 ^ 31 * (1 / 2 ^ 31) := mul_lt_mul'' hneg hneg hwpos.le hwpos.le
    have h62 : (1 : ℚ) / 2 ^ 31 * (1 / 2 ^ 31) = 1 / 2 ^ 60 / 4 := by norm_num
    linarith
  have hinv_lo : (1 : ℚ) / 2 ^ 32 ≤ 1 / w := by
    rw [div_le_div_iff₀ (by positivity) hwpos]
    linarith
  have hinv_hi : 1 / w ≤ (2 : ℚ) ^ 31 := by
    rw [div_le_iff₀ hwpos]
    have := mul_le_mul_of_nonneg_left hwlo (by positivity : (0 : ℚ) ≤ 2 ^ 31)
    have h1' : (2 : ℚ) ^ 31 * (1 / 2 ^ 31) = 1 := by norm_num
    linarith
  have hinv0 : 0 < 1 / w := by positivity
  have harg : 1 / w = 0 ∨ (2 : ℚ) ^ (-126 : ℤ) ≤ 1 / w := by
    right
    refine le_trans ?_ hinv_lo
    norm_num
  have ha := near_fl32 (1 / w) harg
  have ha0 : 0 ≤ fl32 (1 / w) := fl32_nonneg _ hinv0.le
  obtain ⟨ha1, ha2⟩ := Near.half (by norm_num) ha0 hinv0.le ha
  refine ⟨?_, ?_, ?_⟩
  · have hsq : Near 2 (fl32 (1 / w) * fl32 (1 / w)) (1 / w * (1 / w)) :=
      Near.mul ha0 hinv0.le ha0 hinv0.le ha ha
    have hinvw : Near 6 (1 / (w * w)) (1 / S) := Near.inv hww0 hSpos hww
    have he : 1 / w * (1 / w) = 1 / (w * w) := by
      field_simp
    rw [he] at hsq
    exact Near.trans hsq hinvw
  · have : (1 : ℚ) / 2 ^ 33 = 1 / 2 ^ 32 / 2 := by norm_num
    linarith
  · have hmono := fl32_monotone hinv_hi
    have h31 : fl32 ((2 : ℚ) ^ 31) = 2 ^ 31 := by
      have h := fl32_eq_of ((2 : ℚ) ^ 31) 8388608 8 (by norm_num) (by norm_num) (by norm_num)
        (by norm_num) (by norm_num) (by norm_num)
      rw [h]
      norm_num
    rw [h31] at hmono
    exact hmono

/-- The square of the rounded product `a * x` agrees with `a² x²` up to two
rounding steps. -/
theorem near_scaled_sq (a x : ℚ) (ha : 1 / 2 ^ 33 ≤ a)
    (hx : x = 0 ∨ (1 / 2 ^ 30 ≤ |x| ∧ |x| ≤ 2 ^ 30)) :
    Near 2 (fl32 (a * x) * fl32 (a * x)) (a * a * (x * x)) := by
  have ha0 : 0 < a := lt_of_lt_of_le (by positivity) ha
  have hp0 : 0 ≤ a * |x| := mul_nonneg ha0.le (abs_nonneg x)
  have harg : a * |x| = 0 ∨ (2 : ℚ) ^ (-126 : ℤ) ≤ a * |x| := by
    rcases hx with h0 | ⟨h1, _⟩
    · left
      rw [h0]
      simp
    · right
      have := mul_le_mul ha h1 (by positivity) ha0.le
      refine le_trans ?_ this
      norm_num
  have h1 := near_fl32 _ harg
  have hf0 := fl32_nonneg _ hp0
  have h2 : Near (1 + 1) (fl32 (a * |x|) * fl32 (a * |x|)) (a * |x| * (a * |x|)) :=
    Near.mul hf0 hp0 hf0 hp0 h1 h1
  rw [fl32_mul_self_abs]
  have he : a * |x| * (a * |x|) = a * a * (x * x) := by
    rw [← abs_mul_abs_self x]
    ring
  rw [he] at h2
  exact h2

/-- A value that agrees with `1` up to ten rounding steps is within `2⁻²⁰` of `1`. -/
theorem near_one_bound (v : ℚ) (h : Near 10 v 1) : |v - 1| ≤ 1 / 2 ^ 20 := by
  have h1 := h.1
  have h2 := h.2
  have hb : ulpRel ^ 10 ≤ 1 + 1 / 2 ^ 20 := by norm_num [ulpRel]
  have hb0 : 0 < ulpRel ^ 10 := pow_pos ulpRel_pos 10
  rw [abs_le]
  constructor
  · -- 1 ≤ v β¹⁰
    have hv0 : 0 ≤ v := by
      by_contra hneg
      push_neg at hneg
      have : v * ulpRel ^ 10 < 0 := mul_neg_of_neg_of_pos hneg hb0
      linarith
    have : v * ulpRel ^ 10 ≤ v * (1 + 1 / 2 ^ 20) := mul_le_mul_of_nonneg_left hb hv0
    have hv2 : v ≤ 2 := by linarith
    nlinarith
  · linarith

/-- The normal that `samplePoint` computes from three variates, each `0` or of
magnitude between `2⁻³⁰` and `2³⁰` and not all `0`: its squared length agrees with
`1` up to ten rounding steps. -/
theorem near_unit_normal (x y z : ℚ) (hx : x = 0 ∨ (1 / 2 ^ 30 ≤ |x| ∧ |x| ≤ 2 ^ 30))
    (hy : y = 0 ∨ (1 / 2 ^ 30 ≤ |y| ∧ |y| ≤ 2 ^ 30))
    (hz : z = 0 ∨ (1 / 2 ^ 30 ≤ |z| ∧ |z| ≤ 2 ^ 30))
    (hne : x ≠ 0 ∨ y ≠ 0 ∨ z ≠ 0) (a : ℚ)
    (ha : a = fl32 (1 / sqrt32 (fl32 (fl32 (fl32 (x * x) + fl32 (y * y)) + fl32 (z * z))))) :
    Near 10 (fl32 (a * x) * fl32 (a * x) + fl32 (a * y) * fl32 (a * y)
      + fl32 (a * z) * fl32 (a * z)) 1 := by
  obtain ⟨hs, hlo, hhi⟩ := near_sum_sq x y z hx hy hz hne
  obtain ⟨haa, halo, hahi⟩ := near_inv_norm x y z hx hy hz hne
  rw [← ha] at haa halo hahi
  have hS0 : 0 < x * x + y * y + z * z := lt_of_lt_of_le (by positivity) hlo
  have h1 := near_scaled_sq a x halo hx
  have h2 := near_scaled_sq a y halo hy
  have h3 := near_scaled_sq a z halo hz
  have hsum : Near 2 (fl32 (a * x) * fl32 (a * x) + fl32 (a * y) * fl32 (a * y)
      + fl32 (a * z) * fl32 (a * z)) (a * a * (x * x) + a * a * (y * y) + a * a * (z * z)) :=
    Near.add (Near.add h1 h2) h3
  have hprod : Near (8 + 0) (a * a * (x * x + y * y + z * z))
      (1 / (x * x + y * y + z * z) * (x * x + y * y + z * z)) :=
    Near.mul (mul_self_nonneg a) (by positivity) hS0.le hS0.le haa (Near.refl _)
  have he1 : 1 / (x * x + y * y + z * z) * (x * x + y * y + z * z) = 1 := by
    field_simp
  have he2 : a * a * (x * x) + a * a * (y * y) + a * a * (z * z)
      = a * a * (x * x + y * y + z * z) := by ring
  rw [he1] at hprod
  rw [he2] at hsum
  exact Near.trans hsum hprod

theorem mul_one_sub_le (q m k : ℚ) (hm : 0 ≤ m) (hk : 0 ≤ k) (hk1 : k ≤ 1)
    (h : q ≤ m * (1 + k)) : q * (1 - k) ≤ m := by
  have h1 := mul_le_mul_of_nonneg_right h (sub_nonneg.mpr hk1)
  nlinarith [mul_nonneg hm (mul_nonneg hk hk)]

/-- For `t ≥ 0`: the offset `fl(fl(r a) t)` that `samplePoint` adds to a
coordinate of the centre, against `r` times the coordinate `fl(a t)` of the
normal. -/
theorem scaled_pair (r a t : ℚ) (hr : 1 / 2 ^ 30 ≤ r) (ha : 1 / 2 ^ 33 ≤ a)
    (hat : a * t ≤ 101 / 100) (ht : t = 0 ∨ 1 / 2 ^ 30 ≤ t) :
    |fl32 (fl32 (r * a) * t) - r * fl32 (a * t)| ≤ r * (6 / 2 ^ 24) ∧
    0 ≤ fl32 (fl32 (r * a) * t) ∧ fl32 (fl32 (r * a) * t) ≤ r * (102 / 100) ∧
    0 ≤ fl32 (a * t) := by
  have hr0 : 0 < r := lt_of_lt_of_le (by positivity) hr
  have ha0 : 0 < a := lt_of_lt_of_le (by positivity) ha
  have ht0 : 0 ≤ t := by
    rcases ht with h | h
    · rw [h]
    · exact le_trans (by positivity) h
  have hra0 : 0 < r * a := mul_pos hr0 ha0
  have hraarg : r * a = 0 ∨ (2 : ℚ) ^ (-126 : ℤ) ≤ r * a := by
    right
    have := mul_le_mul hr ha (by positivity) hr0.le
    refine le_trans ?_ this
    norm_num
  have hra := near_fl32 _ hraarg
  have hfra0 : 0 ≤ fl32 (r * a) := fl32_nonneg _ hra0.le
  obtain ⟨hra1, _⟩ := Near.half (by norm_num) hfra0 hra0.le hra
  have hprod : Near (1 + 0) (fl32 (r * a) * t) (r * a * t) :=
    Near.mul hfra0 hra0.le ht0 ht0 hra (Near.refl t)
  have hprod0 : 0 ≤ fl32 (r * a) * t := mul_nonneg hfra0 ht0
  have hmarg : fl32 (r * a) * t = 0 ∨ (2 : ℚ) ^ (-126 : ℤ) ≤ fl32 (r * a) * t := by
    rcases ht with h | h
    · left
      rw [h]
      simp
    · right
      have h64 : (1 : ℚ) / 2 ^ 64 ≤ fl32 (r * a) := by
        have := mul_le_mul hr ha (by positivity) hr0.le
        have h63 : (1 : ℚ) / 2 ^ 30 * (1 / 2 ^ 33) = 1 / 2 ^ 63 := by norm_num
        have h64' : (1 : ℚ) / 2 ^ 64 = 1 / 2 ^ 63 / 2 := by norm_num
        linarith
      have := mul_le_mul h64 h (by positivity) hfra0
      refine le_trans ?_ this
      norm_num
  have hm : Near (1 + (1 + 0)) (fl32 (fl32 (r * a) * t)) (r * a * t) :=
    Near.trans (near_fl32 _ hmarg) hprod
  have hm0 : 0 ≤ fl32 (fl32 (r * a) * t) := fl32_nonneg _ hprod0
  -- the coordinate of the normal
  have hat0 : 0 ≤ a * t := mul_nonneg ha0.le ht0
  have hnarg : a * t = 0 ∨ (2 : ℚ) ^ (-126 : ℤ) ≤ a * t := by
    rcases ht with h | h
    · left
      rw [h]
      simp
    · right
      have := mul_le_mul ha h (by positivity) ha0.le
      refine le_trans ?_ this
      norm_num
  have hn := near_fl32 _ hnarg
  have hn0 : 0 ≤ fl32 (a * t) := fl32_nonneg _ hat0
  -- numeric facts about `ulpRel`
  have hb1 : ulpRel ^ 1 ≤ 1 + 2 / 2 ^ 24 := by norm_num [ulpRel]
  have hb2 : ulpRel ^ (1 + (1 + 0)) ≤ 1 + 3 / 2 ^ 24 := by norm_num [ulpRel]
  have hq0 : 0 ≤ r * a * t := mul_nonneg hra0.le ht0
  have hq : r * a * t ≤ r * (101 / 100) := by
    have := mul_le_mul_of_nonneg_left hat hr0.le
    linarith
  -- upper and lower bounds
  have hm_hi : fl32 (fl32 (r * a) * t) ≤ r * a * t * (1 + 3 / 2 ^ 24) :=
    le_trans hm.2 (mul_le_mul_of_nonneg_left hb2 hq0)
  have hm_lo : r * a * t * (1 - 3 / 2 ^ 24) ≤ fl32 (fl32 (r * a) * t) := by
    have h1 := hm.1
    have h2 : fl32 (fl32 (r * a) * t) * ulpRel ^ (1 + (1 + 0))
        ≤ fl32 (fl32 (r * a) * t) * (1 + 3 / 2 ^ 24) := mul_le_mul_of_nonneg_left hb2 hm0
    exact mul_one_sub_le _ _ _ hm0 (by norm_num) (by norm_num) (le_trans h1 h2)
  have hn_hi : fl32 (a * t) ≤ a * t * (1 + 2 / 2 ^ 24) :=
    le_trans hn.2 (mul_le_mul_of_nonneg_left hb1 hat0)
  have hn_lo : a * t * (1 - 2 / 2 ^ 24) ≤ fl32 (a * t) := by
    have h1 := hn.1
    have h2 : fl32 (a * t) * ulpRel ^ 1 ≤ fl32 (a * t) * (1 + 2 / 2 ^ 24) :=
      mul_le_mul_of_nonneg_left hb1 hn0
    exact mul_one_sub_le _ _ _ hn0 (by norm_num) (by norm_num) (le_trans h1 h2)
  have hrn_hi : r * fl32 (a * t) ≤ r * a * t * (1 + 2 / 2 ^ 24) := by
    have := mul_le_mul_of_nonneg_left hn_hi hr0.le
    linarith
  have hrn_lo : r * a * t * (1 - 2 / 2 ^ 24) ≤ r * fl32 (a * t) := by
    have := mul_le_mul_of_nonneg_left hn_lo hr0.le
    linarith
  refine ⟨?_, hm0, ?_, hn0⟩
  · rw [abs_le]
    constructor <;> linarith
  · linarith

/-- One coordinate of the position that `samplePoint` computes, against the
coordinate of the centre plus `r` times the coordinate of the normal. -/
theorem near_position_component (c r a x : ℚ) (hr : 1 / 2 ^ 30 ≤ r) (ha : 1 / 2 ^ 33 ≤ a)
    (hax : a * |x| ≤ 101 / 100) (hx : x = 0 ∨ (1 / 2 ^ 30 ≤ |x| ∧ |x| ≤ 2 ^ 30)) :
    |fl32 (c + fl32 (fl32 (r * a) * x)) - (c + r * fl32 (a * x))| ≤ (|c| + r) / 2 ^ 21 := by
  have hr0 : 0 < r := lt_of_lt_of_le (by positivity) hr
  have ht : |x| = 0 ∨ 1 / 2 ^ 30 ≤ |x| := by
    rcases hx with h | h
    · left
      rw [h]
      simp
    · exact Or.inr h.1
  obtain ⟨h1, h2, h3, _⟩ := scaled_pair r a |x| hr ha hax ht
  -- the same bounds for `x` of either sign
  have hmn : |fl32 (fl32 (r * a) * x) - r * fl32 (a * x)| ≤ r * (6 / 2 ^ 24) ∧
      |fl32 (fl32 (r * a) * x)| ≤ r * (102 / 100) := by
    rcases le_or_lt 0 x with hpos | hneg
    · rw [abs_of_nonneg hpos] at h1 h2 h3
      exact ⟨h1, by rw [abs_of_nonneg h2]; exact h3⟩
    · rw [abs_of_neg hneg] at h1 h2 h3
      rw [mul_neg, fl32_neg] at h1 h2 h3
      rw [mul_neg, fl32_neg] at h1
      constructor
      · rw [show fl32 (fl32 (r * a) * x) - r * fl32 (a * x)
            = -(-fl32 (fl32 (r * a) * x) - r * -fl32 (a * x)) by ring, abs_neg]
        exact h1
      · rw [← abs_neg]
        rw [abs_of_nonneg h2]
        exact h3
  obtain ⟨hd, hm⟩ := hmn
  have herr := fl32_abs_err (c + fl32 (fl32 (r * a) * x))
  have htri : |c + fl32 (fl32 (r * a) * x)| ≤ |c| + |fl32 (fl32 (r * a) * x)| := abs_add _ _
  have h150 : (2 : ℚ) ^ (-150 : ℤ) ≤ r * (1 / 2 ^ 25) := by
    have : (2 : ℚ) ^ (-150 : ℤ) ≤ 1 / 2 ^ 30 * (1 / 2 ^ 25) := by norm_num
    refine le_trans this ?_
    exact mul_le_mul_of_nonneg_right hr (by positivity)
  generalize (2 : ℚ) ^ (-150 : ℤ) = tiny at herr h150
  generalize fl32 (fl32 (r * a) * x) = m at hd hm herr htri ⊢
  generalize fl32 (c + m) = p at herr ⊢
  generalize fl32 (a * x) = n at hd ⊢
  have hc0 : 0 ≤ |c| := abs_nonneg c
  rw [abs_le] at hd herr ⊢
  constructor <;> linarith [hd.1, hd.2, herr.1, herr.2]

/-- The squared distance of the points `c + r n + d` from `c`, when `n` is nearly
of unit length and the offsets `d` are small. -/
theorem sq_dist_bound (r D n1 n2 n3 d1 d2 d3 : ℚ) (hr0 : 0 ≤ r) (hrD : r ≤ D)
    (hn : |n1 * n1 + n2 * n2 + n3 * n3 - 1| ≤ 1 / 2 ^ 20)
    (h1 : |d1| ≤ D / 2 ^ 21) (h2 : |d2| ≤ D / 2 ^ 21) (h3 : |d3| ≤ D / 2 ^ 21) :
    |(r * n1 + d1) * (r * n1 + d1) + (r * n2 + d2) * (r * n2 + d2)
      + (r * n3 + d3) * (r * n3 + d3) - r * r| ≤ D * D / 2 ^ 17 := by
  have hD0 : 0 ≤ D := le_trans hr0 hrD
  have hsum : n1 * n1 + n2 * n2 + n3 * n3 ≤ 4 := by
    have := (abs_le.mp hn).2
    have : (1 : ℚ) / 2 ^ 20 ≤ 3 := by norm_num
    linarith
  have hcomp : ∀ u v w : ℚ, u * u + v * v + w * w ≤ 4 → |u| ≤ 2 := by
    intro u v w h
    rw [abs_le]
    constructor <;> nlinarith [mul_self_nonneg v, mul_self_nonneg w, mul_self_nonneg (u - 2),
      mul_self_nonneg (u + 2)]
  have hn1 := hcomp n1 n2 n3 hsum
  have hn2 := hcomp n2 n1 n3 (by linarith)
  have hn3 := hcomp n3 n1 n2 (by linarith)
  have hterm : ∀ n d : ℚ, |n| ≤ 2 → |d| ≤ D / 2 ^ 21 →
      |d * (2 * r * n + d)| ≤ D / 2 ^ 21 * (4 * D + D / 2 ^ 21) := by
    intro n d hnn hdd
    rw [abs_mul]
    have hb : |2 * r * n + d| ≤ 4 * D + D / 2 ^ 21 := by
      have h2rn : |2 * r * n| ≤ 4 * D := by
        rw [abs_mul, abs_of_nonneg (by linarith : (0 : ℚ) ≤ 2 * r)]
        have := mul_le_mul_of_nonneg_left hnn (by linarith : (0 : ℚ) ≤ 2 * r)
        linarith
      exact le_trans (abs_add _ _) (add_le_add h2rn hdd)
    exact mul_le_mul hdd hb (abs_nonneg _) (by positivity)
  have ht1 := hterm n1 d1 hn1 h1
  have ht2 := hterm n2 d2 hn2 h2
  have ht3 := hterm n3 d3 hn3 h3
  have hrr : |r * r * (n1 * n1 + n2 * n2 + n3 * n3 - 1)| ≤ D * D * (1 / 2 ^ 20) := by
    rw [abs_mul, abs_of_nonneg (mul_self_nonneg r)]
    exact mul_le_mul (mul_le_mul hrD hrD hr0 hD0) hn (abs_nonneg _) (mul_self_nonneg D)
  have hid : (r * n1 + d1) * (r * n1 + d1) + (r * n2 + d2) * (r * n2 + d2)
      + (r * n3 + d3) * (r * n3 + d3) - r * r
      = r * r * (n1 * n1 + n2 * n2 + n3 * n3 - 1) + d1 * (2 * r * n1 + d1)
        + d2 * (2 * r * n2 + d2) + d3 * (2 * r * n3 + d3) := by ring
  rw [hid]
  have htri : |r * r * (n1 * n1 + n2 * n2 + n3 * n3 - 1) + d1 * (2 * r * n1 + d1)
      + d2 * (2 * r * n2 + d2) + d3 * (2 * r * n3 + d3)|
      ≤ |r * r * (n1 * n1 + n2 * n2 + n3 * n3 - 1)| + |d1 * (2 * r * n1 + d1)|
        + |d2 * (2 * r * n2 + d2)| + |d3 * (2 * r * n3 + d3)| :=
    le_trans (abs_add _ _) (add_le_add (le_trans (abs_add _ _)
      (add_le_add (abs_add _ _) le_rfl)) le_rfl)
  have hDD : 0 ≤ D * D := mul_self_nonneg D
  have hfin : D * D * (1 / 2 ^ 20) + 3 * (D / 2 ^ 21 * (4 * D + D / 2 ^ 21)) ≤ D * D / 2 ^ 17 := by
    have : D * D * (1 / 2 ^ 20) + 3 * (D / 2 ^ 21 * (4 * D + D / 2 ^ 21))
        = D * D * (1 / 2 ^ 20 + 12 / 2 ^ 21 + 3 / 2 ^ 42) := by ring
    rw [this, div_eq_mul_one_div (D * D)]
    exact mul_le_mul_of_nonneg_left (by norm_num) hDD
  linarith

/-- The product `a |x|` is at most `1.01` when `a²` agrees with `1 / S` up to
eight rounding steps and `x² ≤ S`. -/
theorem scaled_le (a x S : ℚ) (hS : 0 < S) (hx : x * x ≤ S)
    (h : Near 8 (a * a) (1 / S)) : a * |x| ≤ 101 / 100 := by
  have hb : ulpRel ^ 8 ≤ 101 / 100 * (101 / 100) := by norm_num [ulpRel]
  have h1 : a * a ≤ 1 / S * ulpRel ^ 8 := h.2
  have hxx : 0 ≤ x * x := mul_self_nonneg x
  have h2 : a * a * (x * x) ≤ 1 / S * ulpRel ^ 8 * S :=
    mul_le_mul h1 hx hxx (by positivity)
  have h3 : 1 / S * ulpRel ^ 8 * S = ulpRel ^ 8 := by
    field_simp
  rw [h3] at h2
  have h4 : a * |x| * (a * |x|) ≤ 101 / 100 * (101 / 100) := by
    have he : a * |x| * (a * |x|) = a * a * (x * x) := by
      rw [← abs_mul_abs_self x]
      ring
    rw [he]
    exact le_trans h2 hb
  by_contra hneg
  push_neg at hneg
  have : (101 / 100 : ℚ) * (101 / 100) < a * |x| * (a * |x|) :=
    mul_lt_mul'' hneg hneg (by norm_num) (by norm_num)
  linarith

namespace geoms.Sphere

/-- C8 (as amended), in binary32: for a sphere with radius `r` between
`2⁻³⁰` and `2³⁰` and centre coordinates of magnitude at most `2³⁰`, and three
variates each `0` or of magnitude between `2⁻³⁰` and `2³⁰` and not all `0` (in
this range no intermediate value leaves the normal range of binary32; the
bound on the centre keeps the binary32 values finite and is not needed for
`fl32`, which has no overflow), the normal `n` and the position `p` that
`samplePoint` returns satisfy
`|dot(n, n) - 1| ≤ 2⁻²⁰`, `|p - (c + r n)| ≤ 2⁻²¹ (|c| + r)` in every coordinate, and
`| |p - c|² - r² | ≤ 2⁻¹⁷ (r + |c.x| + |c.y| + |c.z|)²`; and the source has
advanced by three draws. -/
theorem samplePoint_near_sphere (s : Sphere) (rng : Randomness)
    (hr : 1 / 2 ^ 30 ≤ s.radius ∧ s.radius ≤ 2 ^ 30)
    (_hc : |s.origin.x| ≤ 2 ^ 30 ∧ |s.origin.y| ≤ 2 ^ 30 ∧ |s.origin.z| ≤ 2 ^ 30)
    (hx : rng.stream rng.pos = 0 ∨
      (1 / 2 ^ 30 ≤ |rng.stream rng.pos| ∧ |rng.stream rng.pos| ≤ 2 ^ 30))
    (hy : rng.stream (rng.pos + 1) = 0 ∨
      (1 / 2 ^ 30 ≤ |rng.stream (rng.pos + 1)| ∧ |rng.stream (rng.pos + 1)| ≤ 2 ^ 30))
    (hz : rng.stream (rng.pos + 2) = 0 ∨
      (1 / 2 ^ 30 ≤ |rng.stream (rng.pos + 2)| ∧ |rng.stream (rng.pos + 2)| ≤ 2 ^ 30))
    (hne : rng.stream rng.pos ≠ 0 ∨ rng.stream (rng.pos + 1) ≠ 0 ∨
      rng.stream (rng.pos + 2) ≠ 0) :
    |Vec.dot (samplePointFl fl32 sqrt32 s rng).2.1 (samplePointFl fl32 sqrt32 s rng).2.1 - 1|
      ≤ 1 / 2 ^ 20 ∧
    |(samplePointFl fl32 sqrt32 s rng).1.x
        - (s.origin.x + s.radius * (samplePointFl fl32 sqrt32 s rng).2.1.x)|
      ≤ (|s.origin.x| + s.radius) / 2 ^ 21 ∧
    |(samplePointFl fl32 sqrt32 s rng).1.y
        - (s.origin.y + s.radius * (samplePointFl fl32 sqrt32 s rng).2.1.y)|
      ≤ (|s.origin.y| + s.radius) / 2 ^ 21 ∧
    |(samplePointFl fl32 sqrt32 s rng).1.z
        - (s.origin.z + s.radius * (samplePointFl fl32 sqrt32 s rng).2.1.z)|
      ≤ (|s.origin.z| + s.radius) / 2 ^ 21 ∧
    |((samplePointFl fl32 sqrt32 s rng).1 - s.origin).squaredNorm - s.radius * s.radius|
      ≤ (s.radius + |s.origin.x| + |s.origin.y| + |s.origin.z|)
          * (s.radius + |s.origin.x| + |s.origin.y| + |s.origin.z|) / 2 ^ 17 ∧
    (samplePointFl fl32 sqrt32 s rng).2.2 = { rng with pos := rng.pos + 3 } := by
  rw [samplePointFl_eq]
  simp only [Vec.dot, Vec.squaredNorm, Vec.sub_def]
  generalize rng.stream rng.pos = x at hx hne ⊢
  generalize rng.stream (rng.pos + 1) = y at hy hne ⊢
  generalize rng.stream (rng.pos + 2) = z at hz hne ⊢
  obtain ⟨hs, hlo, hhi⟩ := near_sum_sq x y z hx hy hz hne
  obtain ⟨haa, halo, hahi⟩ := near_inv_norm x y z hx hy hz hne
  have hunit := near_unit_normal x y z hx hy hz hne _ rfl
  generalize fl32 (1 / sqrt32 (fl32 (fl32 (fl32 (x * x) + fl32 (y * y)) + fl32 (z * z)))) = a
    at haa halo hahi hunit ⊢
  have hS0 : 0 < x * x + y * y + z * z := lt_of_lt_of_le (by positivity) hlo
  have ha0 : 0 ≤ a := le_trans (by positivity) halo
  have hxx : 0 ≤ x * x := mul_self_nonneg x
  have hyy : 0 ≤ y * y := mul_self_nonneg y
  have hzz : 0 ≤ z * z := mul_self_nonneg z
  have hax := scaled_le a x _ hS0 (by linarith) haa
  have hay := scaled_le a y _ hS0 (by linarith) haa
  have haz := scaled_le a z _ hS0 (by linarith) haa
  have hn := near_one_bound _ hunit
  have hpx := near_position_component s.origin.x s.radius a x hr.1 halo hax hx
  have hpy := near_position_component s.origin.y s.radius a y hr.1 halo hay hy
  have hpz := near_position_component s.origin.z s.radius a z hr.1 halo haz hz
  have hr0 : 0 ≤ s.radius := le_trans (by positivity) hr.1
  refine ⟨hn, hpx, hpy, hpz, ?_, trivial⟩
  -- the squared distance
  have hcx := abs_nonneg s.origin.x
  have hcy := abs_nonneg s.origin.y
  have hcz := abs_nonneg s.origin.z
  have h21 : (0 : ℚ) < 2 ^ 21 := by positivity
  have hdx : |fl32 (s.origin.x + fl32 (fl32 (s.radius * a) * x))
      - (s.origin.x + s.radius * fl32 (a * x))|
      ≤ (s.radius + |s.origin.x| + |s.origin.y| + |s.origin.z|) / 2 ^ 21 :=
    le_trans hpx (div_le_div_of_nonneg_right (by linarith) h21.le)
  have hdy : |fl32 (s.origin.y + fl32 (fl32 (s.radius * a) * y))
      - (s.origin.y + s.radius * fl32 (a * y))|
      ≤ (s.radius + |s.origin.x| + |s.origin.y| + |s.origin.z|) / 2 ^ 21 :=
    le_trans hpy (div_le_div_of_nonneg_right (by linarith) h21.le)
  have hdz : |fl32 (s.origin.z + fl32 (fl32 (s.radius * a) * z))
      - (s.origin.z + s.radius * fl32 (a * z))|
      ≤ (s.radius + |s.origin.x| + |s.origin.y| + |s.origin.z|) / 2 ^ 21 :=
    le_trans hpz (div_le_div_of_nonneg_right (by linarith) h21.le)
  have key := sq_dist_bound s.radius (s.radius + |s.origin.x| + |s.origin.y| + |s.origin.z|)
    (fl32 (a * x)) (fl32 (a * y)) (fl32 (a * z)) _ _ _ hr0 (by linarith) hn hdx hdy hdz
  have he : ∀ p c n : ℚ, s.radius * n + (p - (c + s.radius * n)) = p - c := by
    intro p c n
    ring
  simp only [he] at key
  exact key

/-- Witness for C8 (as amended): the sphere with centre `(1, 2, 3)` and radius `2`
and a source whose next three variates are `3, 4, 0`. -/
theorem samplePoint_near_sphere_witness :
    ((1 : ℚ) / 2 ^ 30 ≤ 2 ∧ (2 : ℚ) ≤ 2 ^ 30) ∧
    (|(1 : ℚ)| ≤ 2 ^ 30 ∧ |(2 : ℚ)| ≤ 2 ^ 30 ∧ |(3 : ℚ)| ≤ 2 ^ 30) ∧
    ((1 : ℚ) / 2 ^ 30 ≤ |3| ∧ |(3 : ℚ)| ≤ 2 ^ 30) ∧
    ((1 : ℚ) / 2 ^ 30 ≤ |4| ∧ |(4 : ℚ)| ≤ 2 ^ 30) ∧
    |Vec.dot
        (samplePointFl fl32 sqrt32 ⟨⟨1, 2, 3⟩, 2⟩
          ⟨fun k => if k = 0 then 3 else if k = 1 then 4 else 0, 0⟩).2.1
        (samplePointFl fl32 sqrt32 ⟨⟨1, 2, 3⟩, 2⟩
          ⟨fun k => if k = 0 then 3 else if k = 1 then 4 else 0, 0⟩).2.1 - 1|
      ≤ 1 / 2 ^ 20 ∧
    |((samplePointFl fl32 sqrt32 ⟨⟨1, 2, 3⟩, 2⟩
          ⟨fun k => if k = 0 then 3 else if k = 1 then 4 else 0, 0⟩).1
        - ⟨1, 2, 3⟩).squaredNorm - 2 * 2|
      ≤ (2 + |1| + |2| + |3|) * (2 + |1| + |2| + |3|) / 2 ^ 17 := by
  have h := samplePoint_near_sphere ⟨⟨1, 2, 3⟩, 2⟩
    ⟨fun k => if k = 0 then 3 else if k = 1 then 4 else 0, 0⟩
    (by norm_num) (by norm_num) (Or.inr (by norm_num)) (Or.inr (by norm_num))
    (Or.inl (by norm_num)) (Or.inl (by norm_num))
  exact ⟨by norm_num, by norm_num, by norm_num, by norm_num, h.1, h.2.2.2.2.1⟩

end geoms.Sphere

namespace math

/-- The rounded `uniformSampleHemisphere` in terms of the three variates it draws. -/
theorem uniformSampleHemisphereFl_eq (fl sqrtf : ℚ → ℚ) (normal : Vec) (rng : randomness) :
    (uniformSampleHemisphereFl fl sqrtf normal rng).1
      = Vec.addFl fl
          (Vec.addFl fl
            (Vec.scaleFl fl normal
              |fl (rng.stream rng.pos * fl (1 / sqrtf (fl (fl (fl (rng.stream rng.pos
                  * rng.stream rng.pos) + fl (rng.stream (rng.pos + 1) * rng.stream (rng.pos + 1)))
                  + fl (rng.stream (rng.pos + 2) * rng.stream (rng.pos + 2))))))|)
            (Vec.scaleFl fl (coordSystemFl fl sqrtf normal).1
              (fl (rng.stream (rng.pos + 1) * fl (1 / sqrtf (fl (fl (fl (rng.stream rng.pos
                  * rng.stream rng.pos) + fl (rng.stream (rng.pos + 1) * rng.stream (rng.pos + 1)))
                  + fl (rng.stream (rng.pos + 2) * rng.stream (rng.pos + 2)))))))))
          (Vec.scaleFl fl (coordSystemFl fl sqrtf normal).2
            (fl (rng.stream (rng.pos + 2) * fl (1 / sqrtf (fl (fl (fl (rng.stream rng.pos
                * rng.stream rng.pos) + fl (rng.stream (rng.pos + 1) * rng.stream (rng.pos + 1)))
                + fl (rng.stream (rng.pos + 2) * rng.stream (rng.pos + 2)))))))) := rfl

/-- In binary32, the normal `n = glm::normalize((1,1,3))`, for which `dot(n, n)`
is computed as `1`, and a source whose next three variates are `0, 1, 0`:
`uniformSampleHemisphere` returns `(0, 1989533 / 2^21, -10610843 / 2^25)`, whose
dot product with `n` is negative, exactly and as the code computes it
(`-2^-25`), while `|x1| / sqrt(x1² + x2² + x3²)` is `0`. -/
theorem uniformSampleHemisphere_negative_dot :
    (uniformSampleHemisphereFl fl32 sqrt32
        ⟨5058521 / 16777216, 5058521 / 16777216, 15175563 / 16777216⟩
        ⟨fun k => if k = 1 then 1 else 0, 0⟩).1
      = ⟨0, 1989533 / 2097152, -(10610843 / 33554432)⟩ ∧
    Vec.dotFl fl32 ⟨0, 1989533 / 2097152, -(10610843 / 33554432)⟩
      ⟨5058521 / 16777216, 5058521 / 16777216, 15175563 / 16777216⟩ = -(1 / 33554432) ∧
    Vec.dot ⟨0, 1989533 / 2097152, -(10610843 / 33554432)⟩
      ⟨5058521 / 16777216, 5058521 / 16777216, 15175563 / 16777216⟩ < 0 := by
  have f3 : fl32 (25588634707441 / 281474976710656) = 3050403 / 33554432 := by
    have h := fl32_eq_of (25588634707441 / 281474976710656) 12201612 (-27) (by norm_num) (by norm_num) (by norm_num)
      (by norm_num) (by norm_num) (by norm_num)
    rw [h]
    norm_num
  have f4 : fl32 (230297712366969 / 281474976710656) = 13726813 / 16777216 := by
    have h := fl32_eq_of (230297712366969 / 281474976710656) 13726813 (-24) (by norm_num) (by norm_num) (by norm_num)
      (by norm_num) (by norm_num) (by norm_num)
    rw [h]
    norm_num
  have f5 : fl32 (30504029 / 33554432) = 7626007 / 8388608 := by
    have h := fl32_eq_of_tie (30504029 / 33554432) 15252014 15252014 (-24) (by norm_num) (by norm_num)
      (by norm_num) (by norm_num) (by norm_num) (by norm_num)
    rw [h]
    norm_num
  have f6 : sqrt32 (7626007 / 8388608) = 499889 / 524288 := by
    apply sqrt32_eq_of (7626007 / 8388608) 1532155281039352974739573883587169085919792940913285360701436 (499889 / 524288)
    · norm_num
    · norm_num
    · have h := fl32_eq_of ((1532155281039352974739573883587169085919792940913285360701436 : ℕ) / 2 ^ 200) 15996448 (-24) (by norm_num) (by norm_num)
        (by norm_num) (by norm_num) (by norm_num) (by norm_num)
      rw [h]
      norm_num
  have f7 : fl32 (524288 / 499889) = 4399023 / 4194304 := by
    have h := fl32_eq_of (524288 / 499889) 8798046 (-23) (by norm_num) (by norm_num) (by norm_num)
      (by norm_num) (by norm_num) (by norm_num)
    rw [h]
    norm_num
  have f8 : fl32 (66757650674949 / 70368744177664) = 1989533 / 2097152 := by
    have h := fl32_eq_of (66757650674949 / 70368744177664) 15916264 (-24) (by norm_num) (by norm_num) (by norm_num)
      (by norm_num) (by norm_num) (by norm_num)
    rw [h]
    norm_num
  have f9 : fl32 (22252550224983 / 70368744177664) = 10610843 / 33554432 := by
    have h := fl32_eq_of (22252550224983 / 70368744177664) 10610843 (-25) (by norm_num) (by norm_num) (by norm_num)
      (by norm_num) (by norm_num) (by norm_num)
    rw [h]
    norm_num
  have f10 : fl32 (53675172143203 / 562949953421312) = 6398579 / 67108864 := by
    have h := fl32_eq_of (53675172143203 / 562949953421312) 12797158 (-27) (by norm_num) (by norm_num) (by norm_num)
      (by norm_num) (by norm_num) (by norm_num)
    rw [h]
    norm_num
  have f11 : fl32 (30192283382079 / 35184372088832) = 14396803 / 16777216 := by
    have h := fl32_eq_of (30192283382079 / 35184372088832) 14396803 (-24) (by norm_num) (by norm_num) (by norm_num)
      (by norm_num) (by norm_num) (by norm_num)
    rw [h]
    norm_num
  have f12 : fl32 (63985791 / 67108864) = 499889 / 524288 := by
    have h := fl32_eq_of (63985791 / 67108864) 15996448 (-24) (by norm_num) (by norm_num) (by norm_num)
      (by norm_num) (by norm_num) (by norm_num)
    rw [h]
    norm_num
  have f13 : fl32 (6398579 / 67108864) = 6398579 / 67108864 := by
    have h := fl32_eq_of (6398579 / 67108864) 12797158 (-27) (by norm_num) (by norm_num) (by norm_num)
      (by norm_num) (by norm_num) (by norm_num)
    rw [h]
    norm_num
  have f14 : fl32 (10064094460693 / 35184372088832) = 2399467 / 8388608 := by
    have h := fl32_eq_of (10064094460693 / 35184372088832) 9597868 (-25) (by norm_num) (by norm_num) (by norm_num)
      (by norm_num) (by norm_num) (by norm_num)
    rw [h]
    norm_num
  have f15 : fl32 (2399467 / 8388608) = 2399467 / 8388608 := by
    have h := fl32_eq_of (2399467 / 8388608) 9597868 (-25) (by norm_num) (by norm_num) (by norm_num)
      (by norm_num) (by norm_num) (by norm_num)
    rw [h]
    norm_num
  have f16 : fl32 (1989533 / 2097152) = 1989533 / 2097152 := by
    have h := fl32_eq_of (1989533 / 2097152) 15916264 (-24) (by norm_num) (by norm_num) (by norm_num)
      (by norm_num) (by norm_num) (by norm_num)
    rw [h]
    norm_num
  have f17 : fl32 (10610843 / 33554432) = 10610843 / 33554432 := by
    have h := fl32_eq_of (10610843 / 33554432) 10610843 (-25) (by norm_num) (by norm_num) (by norm_num)
      (by norm_num) (by norm_num) (by norm_num)
    rw [h]
    norm_num
  have f18 : fl32 (161025516429609 / 562949953421312) = 9597869 / 33554432 := by
    have h := fl32_eq_of (161025516429609 / 562949953421312) 9597869 (-25) (by norm_num) (by norm_num) (by norm_num)
      (by norm_num) (by norm_num) (by norm_num)
    rw [h]
    norm_num
  have f19 : fl32 (1 / 33554432) = 1 / 33554432 := by
    have h := fl32_eq_of (1 / 33554432) 8388608 (-48) (by norm_num) (by norm_num) (by norm_num)
      (by norm_num) (by norm_num) (by norm_num)
    rw [h]
    norm_num
  have hframe : coordSystemFl fl32 sqrt32
      ⟨5058521 / 16777216, 5058521 / 16777216, 15175563 / 16777216⟩
      = (⟨0, 1989533 / 2097152, -(10610843 / 33554432)⟩,
          ⟨-(499889 / 524288), 6398579 / 67108864, 2399467 / 8388608⟩) := by
    norm_num [coordSystemFl, Vec.crossFl, fl32_zero, fl32_neg, fl32_one, f3, f4, f5, f6, f7, f8, f9, f10, f11, f12, f13, f14, f15, f16, f17, f18, f19]
  refine ⟨?_, ?_, ?_⟩
  · rw [uniformSampleHemisphereFl_eq, hframe]
    norm_num [Vec.addFl, Vec.scaleFl, fl32_zero, fl32_neg, fl32_one, sqrt32_one, f3, f4, f5, f6, f7, f8, f9, f10, f11, f12, f13, f14, f15, f16, f17, f18, f19]
  · norm_num [Vec.dotFl, fl32_zero, fl32_neg, fl32_one, f3, f4, f5, f6, f7, f8, f9, f10, f11, f12, f13, f14, f15, f16, f17, f18, f19]
  · norm_num [Vec.dot]

end math
